import Mathlib

/-!
# WHERE-clause filter parser (`parser.go`)

A shallow embedding of `Parse` and its helpers, together with the part of the
query builder (`github.com/Masterminds/squirrel`) that `Parse` drives and the
test harness renders with.

Strings are modelled as lists of Unicode code points (`Str`).  Go strings that
are valid UTF-8 correspond exactly to such lists.
-/

namespace WhereParser

/-- A Go string, as its sequence of code points. -/
abbrev Str := List Char

/-! ## Standard library helpers used by `parser.go` -/

/-- Rune-wise upper-casing as done by `strings.ToUpper` (`unicode.ToUpper`).
ASCII lower-case letters are shifted to upper case; U+0131 and U+017F are the only
non-ASCII runes whose upper case is an ASCII letter (`I` and `S`).  All other runes
are left unchanged: their Go upper case is never ASCII, and `Parse` only ever compares
upper-cased tokens with the ASCII words `AND`, `OR`, `NOT` and the operator table. -/
def toUpperRune (c : Char) : Char :=
  if 97 ≤ c.toNat ∧ c.toNat ≤ 122 then Char.ofNat (c.toNat - 32)
  else if c.toNat = 0x131 then 'I'
  else if c.toNat = 0x17F then 'S'
  else c

/-- Go `strings.ToUpper`. -/
def ToUpper (s : Str) : Str := s.map toUpperRune

/-- Go `unicode.IsSpace`: the white-space runes `strings.Fields` splits on. -/
def isSpace (c : Char) : Bool :=
  let n := c.toNat
  (9 ≤ n && n ≤ 13) || n = 0x20 || n = 0x85 || n = 0xA0 || n = 0x1680 ||
  (0x2000 ≤ n && n ≤ 0x200A) || n = 0x2028 || n = 0x2029 || n = 0x202F ||
  n = 0x205F || n = 0x3000

/-- Scanner behind `Fields`: `cur` is the token being read, in reverse. -/
def fieldsAux : Str → Str → List Str
  | [], cur => if cur = [] then [] else [cur.reverse]
  | c :: cs, cur =>
    if isSpace c then
      if cur = [] then fieldsAux cs [] else cur.reverse :: fieldsAux cs []
    else fieldsAux cs (c :: cur)

/-- Go `strings.Fields`: the maximal runs of non-space runes, in order. -/
def Fields (s : Str) : List Str := fieldsAux s []

/-- Go `strings.HasPrefix`. -/
def HasPrefix : Str → Str → Bool
  | _, [] => true
  | [], _ :: _ => false
  | c :: s, d :: p => decide (c = d) && HasPrefix s p

/-- Go `strings.Contains`: `sub` occurs in `s` at some offset. -/
def Contains : Str → Str → Bool
  | [], sub => HasPrefix [] sub
  | c :: s, sub => HasPrefix (c :: s) sub || Contains s sub

/-- Go `strings.TrimSuffix`. -/
def TrimSuffix (s suffix : Str) : Str :=
  if HasPrefix s.reverse suffix.reverse then (s.reverse.drop suffix.length).reverse else s

/-! ## Package-level tables -/

/-- The table `operators`. -/
def operators : List Str :=
  [">=".toList, "<=".toList, "!=".toList, "<>".toList, "=".toList, ">".toList, "<".toList,
   "LIKE".toList, "ILIKE".toList, "~".toList, "~*".toList, "!~".toList, "!~*".toList]

/-- The table `operators_not`. -/
def operators_not : List Str := ["LIKE".toList, "ILIKE".toList]

/-- Character class `[a-zA-Z_]`. -/
def isIdentStart (c : Char) : Bool :=
  let n := c.toNat
  (97 ≤ n && n ≤ 122) || (65 ≤ n && n ≤ 90) || n = 95

/-- Character class `[a-zA-Z_0-9]`. -/
def isIdentChar (c : Char) : Bool :=
  isIdentStart c || (48 ≤ c.toNat && c.toNat ≤ 57)

/-- The tail `[a-zA-Z_0-9]*` of the pattern, followed by the end of the pattern: the
starred class consumes a run of characters and the match is then complete. -/
def matchStar : Str → Bool
  | [] => true
  | c :: rest => if isIdentChar c then matchStar rest else true

/-- The pattern `[a-zA-Z_][a-zA-Z_0-9]*` tried at the start of `s`. -/
def matchHere : Str → Bool
  | [] => false
  | c :: rest => isIdentStart c && matchStar rest

/-- Unanchored search `r.MatchString`: the pattern matches at some offset. -/
def matchString : Str → Bool
  | [] => matchHere []
  | c :: s => matchHere (c :: s) || matchString s

/-- Go `CheckIfField`. -/
def CheckIfField (field : Str) : Bool := matchString field

/-- Go `IsOperator`. -/
def IsOperator (s : Str) : Bool :=
  operators.any fun o => decide (ToUpper s = o)

/-- Go `IsDoubleOperator` (checks for `NOT LIKE` / `NOT ILIKE`). -/
def IsDoubleOperator (s sNext : Str) : Bool :=
  if ToUpper s = "NOT".toList then
    operators_not.any fun o => decide (ToUpper sNext = o)
  else false

/-! ## Data model -/

/-- The states of the grammar machine (`step`). -/
inductive step where
  | stepNot
  | stepField
  | stepOperator
  | stepValue
  | stepAndOr
  deriving DecidableEq, Repr

/-- One parsed clause (`Condition`).  `Value` is an `interface{}`: `none` is the nil
interface, `some v` a string. -/
structure Condition where
  AndOr : Str
  Not : Bool
  Field : Str
  Operator : Str
  Value : Option Str
  deriving DecidableEq, Repr

/-- The zero value `new(Condition)`. -/
def Condition.zero : Condition := ⟨[], false, [], [], none⟩

/-- How a run of Go code ends: a value, an `error`, a run-time panic (index out of
range), or exhaustion of the iteration budget given to a loop. -/
inductive Outcome (α : Type) where
  | ok (a : α)
  | error (msg : Str)
  | fault
  | diverge
  deriving DecidableEq, Repr

/-- The local variables of the parsing loop of `Parse`. -/
structure Machine where
  conditions : List Condition
  step : step
  wn : Nat
  cn : Nat
  deriving DecidableEq, Repr

/-- The read `conditions[cn-1]`; `none` when the index is out of range. -/
def condAt (conditions : List Condition) (cn : Nat) : Option Condition :=
  if cn = 0 then none else conditions[cn - 1]?

/-- The write `conditions[cn-1] = f conditions[cn-1]`; `none` when the index is out of
range. -/
def setCond (conditions : List Condition) (cn : Nat) (f : Condition → Condition) :
    Option (List Condition) :=
  match condAt conditions cn with
  | none => none
  | some c => some (conditions.set (cn - 1) (f c))

/-! ## The grammar machine: one iteration of the loop per state -/

/-- Body of `case stepAndOr`. -/
def doAndOr (qStrings : List Str) (m : Machine) (currWord : Str) : Outcome Machine :=
  match qStrings[m.wn]? with
  | none => .fault
  | some tok =>
    if currWord = "AND".toList ∨ currWord = "OR".toList then
      let cond : Condition := { Condition.zero with AndOr := currWord }
      let wn := m.wn + 1
      let conditions := m.conditions ++ [cond]
      let cn := m.cn + 1
      if wn + 1 > qStrings.length then
        match condAt conditions cn with
        | none => .fault
        | some c => .error ("no field after ".toList ++ c.AndOr)
      else .ok ⟨conditions, step.stepNot, wn, cn⟩
    else if m.conditions.length > 0 then
      .error ("next condition should start from AND/OR, got: ".toList ++ tok)
    else
      let conditions := m.conditions ++ [Condition.zero]
      let cn := m.cn + 1
      if m.wn + 1 > qStrings.length then
        match condAt conditions cn with
        | none => .fault
        | some c => .error ("no field after ".toList ++ c.AndOr)
      else .ok ⟨conditions, step.stepNot, m.wn, cn⟩

/-- Body of `case stepNot`. -/
def doNot (m : Machine) (currWord : Str) : Outcome Machine :=
  if currWord = "NOT".toList then
    match setCond m.conditions m.cn (fun c => { c with Not := true }) with
    | none => .fault
    | some conditions => .ok ⟨conditions, step.stepField, m.wn + 1, m.cn⟩
  else
    match setCond m.conditions m.cn (fun c => { c with Not := false }) with
    | none => .fault
    | some conditions => .ok ⟨conditions, step.stepField, m.wn, m.cn⟩

/-- Body of `case stepField`. -/
def doField (qStrings : List Str) (m : Machine) (currWord nextWord : Str) : Outcome Machine :=
  match qStrings[m.wn]? with
  | none => .fault
  | some tok =>
    if !IsOperator tok && decide (currWord ≠ "NOT".toList) && CheckIfField tok then
      match setCond m.conditions m.cn (fun c => { c with Field := tok }) with
      | none => .fault
      | some conditions =>
        let wn := m.wn + 1
        if wn + 1 > qStrings.length then
          match condAt conditions m.cn with
          | none => .fault
          | some c => .error ("no operator after field ".toList ++ c.Field)
        else if wn + 1 < qStrings.length then
          if nextWord = "AND".toList ∨ nextWord = "OR".toList then
            .ok ⟨conditions, step.stepAndOr, wn, m.cn⟩
          else .ok ⟨conditions, step.stepOperator, wn, m.cn⟩
        else .ok ⟨conditions, step.stepOperator, wn, m.cn⟩
    else .error ("unexpected field: ".toList ++ tok)

/-- Second half of `case stepOperator`, run after the `NOT` special case with the
(possibly advanced) `wn` and the (possibly updated) `conditions`. -/
def doOperatorTail (qStrings : List Str) (conditions : List Condition) (wn cn : Nat) :
    Outcome Machine :=
  match qStrings[wn]? with
  | none => .fault
  | some tok =>
    if IsOperator tok then
      match setCond conditions cn (fun c => { c with Operator := tok }) with
      | none => .fault
      | some conditions =>
        if wn + 1 + 1 > qStrings.length then
          match condAt conditions cn with
          | none => .fault
          | some c => .error ("no value for field ".toList ++ c.Field)
        else .ok ⟨conditions, step.stepValue, wn + 1, cn⟩
    else .error ("unexpected operator: ".toList ++ tok)

/-- Body of `case stepOperator`. -/
def doOperator (qStrings : List Str) (m : Machine) (currWord nextWord : Str) : Outcome Machine :=
  if currWord = "NOT".toList then
    if m.wn + 1 < qStrings.length then
      if IsDoubleOperator currWord nextWord then
        match setCond m.conditions m.cn
            (fun c => { c with Operator := currWord ++ " ".toList ++ nextWord }) with
        | none => .fault
        | some conditions => doOperatorTail qStrings conditions (m.wn + 1) m.cn
      else
        match qStrings[m.wn]? with
        | none => .fault
        | some tok => .error ("unexpected oprator: ".toList ++ tok)
    else doOperatorTail qStrings m.conditions m.wn m.cn
  else doOperatorTail qStrings m.conditions m.wn m.cn

/-- Body of `case stepValue`. -/
def doValue (qStrings : List Str) (m : Machine) : Outcome Machine :=
  match qStrings[m.wn]? with
  | none => .fault
  | some tok =>
    if !IsOperator tok && decide (tok ≠ "NOT".toList) && decide (tok ≠ []) then
      match setCond m.conditions m.cn (fun c => { c with Value := some tok }) with
      | none => .fault
      | some conditions => .ok ⟨conditions, step.stepAndOr, m.wn + 1, m.cn⟩
    else .error ("unexpected value: ".toList ++ tok)

/-- The look-ahead `nextWord` computed at the top of an iteration: the upper-cased token
after the current one, or the empty string at the last token. -/
def nextWordAt (qStrings : List Str) (wn : Nat) : Str :=
  if wn + 1 < qStrings.length then
    match qStrings[wn + 1]? with
    | some t => ToUpper t
    | none => []
  else []

/-- One iteration of `for wn < len(qStrings)`: compute `currWord` and `nextWord`, then
dispatch on the state. -/
def iterate (qStrings : List Str) (m : Machine) : Outcome Machine :=
  match qStrings[m.wn]? with
  | none => .fault
  | some tok =>
    let currWord := ToUpper tok
    let nextWord := nextWordAt qStrings m.wn
    match m.step with
    | step.stepAndOr => doAndOr qStrings m currWord
    | step.stepNot => doNot m currWord
    | step.stepField => doField qStrings m currWord nextWord
    | step.stepOperator => doOperator qStrings m currWord nextWord
    | step.stepValue => doValue qStrings m

/-- The loop `for wn < len(qStrings)`, run for at most `fuel` iterations. -/
def loop (qStrings : List Str) : Nat → Machine → Outcome (List Condition)
  | 0, _ => .diverge
  | fuel + 1, m =>
    if m.wn < qStrings.length then
      match iterate qStrings m with
      | .ok m1 => loop qStrings fuel m1
      | .error e => .error e
      | .fault => .fault
      | .diverge => .diverge
    else .ok m.conditions

/-- The variables as initialised before the loop. -/
def Machine.init : Machine := ⟨[], step.stepAndOr, 0, 0⟩

/-- The first half of `Parse` after the keyword guard: the token slice turned into the
condition list.  Every iteration consumes a token or moves to a state that does within
two more iterations, so `3 * len + 3` iterations always suffice. -/
def parseConditions (qStrings : List Str) : Outcome (List Condition) :=
  loop qStrings (3 * qStrings.length + 3) Machine.init

/-! ## The query builder (`squirrel`) as far as `Parse` uses it -/

deriving instance DecidableEq for Except

/-- The comparison expression types of squirrel that `Parse` instantiates. -/
inductive ExprKind where
  | Eq
  | NotEq
  | Gt
  | GtOrEq
  | Lt
  | LtOrEq
  | Like
  | NotLike
  | ILike
  | NotILike
  deriving DecidableEq, Repr

/-- A one-entry map literal such as `sq.Eq{c.Field: c.Value}`. -/
structure Expr where
  kind : ExprKind
  key : Str
  val : Option Str
  deriving DecidableEq, Repr

/-- The SQL operator an expression type renders. -/
def ExprKind.opr : ExprKind → Str
  | .Eq => "=".toList
  | .NotEq => "<>".toList
  | .Gt => ">".toList
  | .GtOrEq => ">=".toList
  | .Lt => "<".toList
  | .LtOrEq => "<=".toList
  | .Like => "LIKE".toList
  | .NotLike => "NOT LIKE".toList
  | .ILike => "ILIKE".toList
  | .NotILike => "NOT ILIKE".toList

/-- The method `ToSql` of the expression types: SQL text with `?` placeholders and the
bound arguments.  A nil value is rendered `IS [NOT] NULL` by `Eq`/`NotEq` and refused by
the other types. -/
def Expr.ToSql (e : Expr) : Except Str (Str × List Str) :=
  match e.val with
  | some v => .ok (e.key ++ " ".toList ++ e.kind.opr ++ " ?".toList, [v])
  | none =>
    match e.kind with
    | .Eq => .ok (e.key ++ " IS NULL".toList, [])
    | .NotEq => .ok (e.key ++ " IS NOT NULL".toList, [])
    | .Gt | .GtOrEq | .Lt | .LtOrEq =>
      .error "cannot use null with less than or greater than operators".toList
    | .Like | .NotLike | .ILike | .NotILike =>
      .error "cannot use null with like operators".toList

/-- An argument of `SelectBuilder.Where` as `Parse` passes it: an expression, an
`sq.And{...}` or `sq.Or{...}` group of expressions, or a plain string. -/
inductive Pred where
  | expr (e : Expr)
  | And (es : List Expr)
  | Or (es : List Expr)
  | str (sql : Str)
  deriving DecidableEq, Repr

/-- Go `strings.Join`. -/
def Join : List Str → Str → Str
  | [], _ => []
  | [a], _ => a
  | a :: b :: rest, sep => a ++ sep ++ Join (b :: rest) sep

/-- The loop of `conj.join`: the non-empty SQL of each member and all arguments. -/
def conjParts : List Expr → Except Str (List Str × List Str)
  | [] => .ok ([], [])
  | e :: es =>
    match e.ToSql with
    | .error err => .error err
    | .ok (partSQL, partArgs) =>
      match conjParts es with
      | .error err => .error err
      | .ok (sqlParts, args) =>
        if partSQL ≠ [] then .ok (partSQL :: sqlParts, partArgs ++ args)
        else .ok (sqlParts, args)

/-- The method `conj.join` behind `And.ToSql` and `Or.ToSql`. -/
def conjJoin (c : List Expr) (sep defaultExpr : Str) : Except Str (Str × List Str) :=
  if c.length = 0 then .ok (defaultExpr, [])
  else
    match conjParts c with
    | .error err => .error err
    | .ok (sqlParts, args) =>
      if sqlParts.length > 0 then .ok ("(".toList ++ Join sqlParts sep ++ ")".toList, args)
      else .ok ([], args)

/-- The method `wherePart.ToSql`. -/
def Pred.ToSql : Pred → Except Str (Str × List Str)
  | .expr e => e.ToSql
  | .And es => conjJoin es " AND ".toList "(1=1)".toList
  | .Or es => conjJoin es " OR ".toList "(1=0)".toList
  | .str sql => .ok (sql, [])

/-- The placeholder formats `sq.Question` and `sq.Dollar`. -/
inductive PlaceholderFormat where
  | Question
  | Dollar
  deriving DecidableEq, Repr

/-- The data of a `SelectBuilder` made by `sq.Select(...).From(...)` and extended by
`Where` and `PlaceholderFormat`. -/
structure SelectBuilder where
  PlaceholderFormat : PlaceholderFormat
  Columns : List Str
  From : Option Str
  WhereParts : List Pred
  deriving DecidableEq, Repr

/-- Go `sq.Select(columns...)`. -/
def Select (columns : List Str) : SelectBuilder := ⟨.Question, columns, none, []⟩

/-- The method `SelectBuilder.From`. -/
def SelectBuilder.from (b : SelectBuilder) (table : Str) : SelectBuilder :=
  { b with From := some table }

/-- The method `SelectBuilder.PlaceholderFormat`. -/
def SelectBuilder.setPlaceholderFormat (b : SelectBuilder)
    (f : WhereParser.PlaceholderFormat) : SelectBuilder :=
  { b with PlaceholderFormat := f }

/-- The method `SelectBuilder.Where(pred)`: an empty string predicate leaves the builder
as it is, any other predicate is appended to the WHERE parts. -/
def SelectBuilder.Where (b : SelectBuilder) (pred : Pred) : SelectBuilder :=
  match pred with
  | .str [] => b
  | _ => { b with WhereParts := b.WhereParts ++ [pred] }

/-- The function `appendToSql`: the SQL of the parts written to `w` with `sep` before
every part but the first (by index), empty parts skipped. -/
def appendToSql : List Pred → Nat → Str → Str → List Str → Except Str (Str × List Str)
  | [], _, _, w, args => .ok (w, args)
  | p :: ps, i, sep, w, args =>
    match p.ToSql with
    | .error err => .error err
    | .ok (partSql, partArgs) =>
      if partSql.length = 0 then appendToSql ps (i + 1) sep w args
      else
        appendToSql ps (i + 1) sep ((if i > 0 then w ++ sep else w) ++ partSql)
          (args ++ partArgs)

/-- The method `selectData.toSqlRaw`, for a builder without prefixes, options, joins,
grouping, ordering, limits or suffixes. -/
def SelectBuilder.toSqlRaw (d : SelectBuilder) : Except Str (Str × List Str) :=
  if d.Columns.length = 0 then
    .error "select statements must have at least one result column".toList
  else
    let sql := "SELECT ".toList ++ Join d.Columns ", ".toList
    let sql := match d.From with
      | some t => sql ++ " FROM ".toList ++ t
      | none => sql
    if d.WhereParts.length > 0 then
      appendToSql d.WhereParts 0 " AND ".toList (sql ++ " WHERE ".toList) []
    else .ok (sql, [])

/-- The function `replacePositionalPlaceholders`: scanning the whole SQL text from the
left, every `?` becomes the marker followed by the next index, except that `??` is an
escape for a literal `?`.  `i` is the number of placeholders already replaced.  The scan
does not know where a `?` comes from: one inside a field name is numbered too. -/
def replacePositionalPlaceholders (marker : Str) : Str → Nat → Str
  | [], _ => []
  | [c], i => if c = '?' then marker ++ Nat.toDigits 10 (i + 1) else [c]
  | c :: d :: rest, i =>
    if c = '?' then
      if d = '?' then '?' :: replacePositionalPlaceholders marker rest i
      else marker ++ Nat.toDigits 10 (i + 1) ++
        replacePositionalPlaceholders marker (d :: rest) (i + 1)
    else c :: replacePositionalPlaceholders marker (d :: rest) i

/-- The method `ReplacePlaceholders` of a placeholder format. -/
def PlaceholderFormat.ReplacePlaceholders (f : PlaceholderFormat) (sql : Str) : Str :=
  match f with
  | .Question => sql
  | .Dollar => replacePositionalPlaceholders "$".toList sql 0

/-- The method `SelectBuilder.ToSql`: the SQL text and the bound arguments. -/
def SelectBuilder.ToSql (d : SelectBuilder) : Except Str (Str × List Str) :=
  match d.toSqlRaw with
  | .error err => .error err
  | .ok (sqlStr, args) => .ok (d.PlaceholderFormat.ReplacePlaceholders sqlStr, args)

/-! ## `AddExpr` and the translation half of `Parse` -/

/-- Go `AddExpr`: adds the expression to the builder according to the conjunction. -/
def AddExpr (qb : SelectBuilder) (e : Expr) (AndOr : Str) : SelectBuilder :=
  if AndOr = [] then qb.Where (.expr e)
  else if AndOr = "AND".toList then qb.Where (.And [e])
  else if AndOr = "OR".toList then qb.Where (.Or [e])
  else qb

/-- Go `fmt.Sprint` of a condition value. -/
def Sprint : Option Str → Str
  | some v => v
  | none => "<nil>".toList

/-- The inner loop of the regex branch: every condition written back as text. -/
def newQuery : List Condition → Str
  | [] => []
  | c :: rest =>
    (if c.AndOr ≠ [] then c.AndOr ++ " ".toList else []) ++
    (if c.Not then "NOT ".toList else []) ++
    (c.Field ++ " ".toList) ++ (c.Operator ++ " ".toList) ++ (Sprint c.Value ++ " ".toList) ++
    newQuery rest

/-- The loop `for _, c := range conditions` of `Parse`: `all` is the whole condition
list, the second argument the conditions still to be processed. -/
def translate (all : List Condition) : List Condition → SelectBuilder → SelectBuilder
  | [], qb => qb
  | c :: rest, qb =>
    if c.Operator ≠ [] then
      if c.Operator = "=".toList then
        if !c.Not then translate all rest (AddExpr qb ⟨.Eq, c.Field, c.Value⟩ c.AndOr)
        else translate all rest (AddExpr qb ⟨.NotEq, c.Field, c.Value⟩ c.AndOr)
      else if c.Operator = ">".toList then
        if !c.Not then translate all rest (AddExpr qb ⟨.Gt, c.Field, c.Value⟩ c.AndOr)
        else translate all rest (AddExpr qb ⟨.LtOrEq, c.Field, c.Value⟩ c.AndOr)
      else if c.Operator = "<".toList then
        if !c.Not then translate all rest (AddExpr qb ⟨.Lt, c.Field, c.Value⟩ c.AndOr)
        else translate all rest (AddExpr qb ⟨.GtOrEq, c.Field, c.Value⟩ c.AndOr)
      else if c.Operator = ">=".toList then
        if !c.Not then translate all rest (AddExpr qb ⟨.GtOrEq, c.Field, c.Value⟩ c.AndOr)
        else translate all rest (AddExpr qb ⟨.Lt, c.Field, c.Value⟩ c.AndOr)
      else if c.Operator = "<=".toList then
        if !c.Not then translate all rest (AddExpr qb ⟨.LtOrEq, c.Field, c.Value⟩ c.AndOr)
        else translate all rest (AddExpr qb ⟨.Gt, c.Field, c.Value⟩ c.AndOr)
      else if c.Operator = "!=".toList ∨ c.Operator = "<>".toList then
        if !c.Not then translate all rest (AddExpr qb ⟨.NotEq, c.Field, c.Value⟩ c.AndOr)
        else translate all rest (AddExpr qb ⟨.Eq, c.Field, c.Value⟩ c.AndOr)
      else if ToUpper c.Operator = "LIKE".toList then
        if !c.Not then translate all rest (AddExpr qb ⟨.Like, c.Field, c.Value⟩ c.AndOr)
        else translate all rest (AddExpr qb ⟨.NotLike, c.Field, c.Value⟩ c.AndOr)
      else if ToUpper c.Operator = "ILIKE".toList then
        if !c.Not then translate all rest (AddExpr qb ⟨.ILike, c.Field, c.Value⟩ c.AndOr)
        else translate all rest (AddExpr qb ⟨.NotILike, c.Field, c.Value⟩ c.AndOr)
      else if c.Operator = "~".toList ∨ c.Operator = "~*".toList ∨
          c.Operator = "!~".toList ∨ c.Operator = "!~*".toList then
        qb.Where (.str (TrimSuffix (newQuery all) " ".toList))
      else translate all rest qb
    else
      if !c.Not then translate all rest (AddExpr qb ⟨.Eq, c.Field, some "TRUE".toList⟩ c.AndOr)
      else translate all rest (AddExpr qb ⟨.NotEq, c.Field, some "TRUE".toList⟩ c.AndOr)

/-! ## `Parse` -/

/-- The list `forbiddenSQLWords`. -/
def forbiddenSQLWords : List Str :=
  ["WHERE".toList, "SELECT".toList, "INSERT".toList, "UPDATE".toList, "DELETE".toList,
   "VALUES".toList, "FROM".toList, "GROUP".toList, "HAVING".toList, "WINDOW".toList,
   "ALL".toList, "DISTINCT".toList, "ORDER".toList, "LIMIT".toList, "OFFSET".toList,
   "FETCH".toList, "FOR".toList, "SET".toList]

/-- The message of the error returned by the keyword guard for the keyword `w`. -/
def guardError (w : Str) : Str :=
  "input string should have only WHERE part of the SQL query, but it has ".toList ++ w

/-- The guard loop of `Parse`: the first forbidden word, in list order, that the query
contains. -/
def firstForbidden (query : Str) : Option Str :=
  forbiddenSQLWords.find? fun w => Contains query w

/-- Go `Parse`. -/
def Parse (query : Str) (qb : SelectBuilder) : Outcome SelectBuilder :=
  let qb := qb.setPlaceholderFormat .Dollar
  match firstForbidden query with
  | some w => .error (guardError w)
  | none =>
    match parseConditions (Fields query) with
    | .ok conditions => .ok (translate conditions conditions qb)
    | .error e => .error e
    | .fault => .fault
    | .diverge => .diverge

/-- The builder of the test harness: `sq.Select("*").From(TableName)`. -/
def testQb : SelectBuilder := (Select ["*".toList]).from "cats".toList

/-- What the test harness observes of a query: `Parse` on `testQb`, then `ToSql`. -/
def render (query : Str) : Outcome (Except Str (Str × List Str)) :=
  match Parse query testQb with
  | .ok qb => .ok qb.ToSql
  | .error e => .error e
  | .fault => .fault
  | .diverge => .diverge

/-! ## Vocabulary of the statements -/

/-- A token the machine accepts as the field of a first condition: it passes the checks
of the FIELD state and is not a conjunction. -/
abbrev FieldToken (f : Str) : Prop :=
  IsOperator f = false ∧ ToUpper f ≠ "NOT".toList ∧ ToUpper f ≠ "AND".toList ∧
  ToUpper f ≠ "OR".toList ∧ CheckIfField f = true

/-- A token the machine accepts as a value: not an operator and not `NOT`. -/
abbrev ValueToken (v : Str) : Prop :=
  IsOperator v = false ∧ v ≠ "NOT".toList

/-- The regex operators `~`, `~*`, `!~`, `!~*`. -/
abbrev IsRegexOp (op : Str) : Prop :=
  op = "~".toList ∨ op = "~*".toList ∨ op = "!~".toList ∨ op = "!~*".toList

/-- One successful iteration of the loop as a relation between the loop variables before
and after it.  In every state but AND_OR the condition list is `init ++ [c]`, with `c`
the condition under construction. -/
inductive Step (qs : List Str) : Machine → Machine → Prop where
  | andOrFirst (wn : Nat) (tok : Str) :
      qs[wn]? = some tok → ¬(ToUpper tok = "AND".toList ∨ ToUpper tok = "OR".toList) →
      Step qs ⟨[], .stepAndOr, wn, 0⟩ ⟨[Condition.zero], .stepNot, wn, 1⟩
  | andOrConj (cs : List Condition) (wn : Nat) (tok : Str) :
      qs[wn]? = some tok → (ToUpper tok = "AND".toList ∨ ToUpper tok = "OR".toList) →
      wn + 1 < qs.length →
      Step qs ⟨cs, .stepAndOr, wn, cs.length⟩
        ⟨cs ++ [⟨ToUpper tok, false, [], [], none⟩], .stepNot, wn + 1, cs.length + 1⟩
  | notYes (init : List Condition) (c : Condition) (wn : Nat) (tok : Str) :
      qs[wn]? = some tok → ToUpper tok = "NOT".toList →
      Step qs ⟨init ++ [c], .stepNot, wn, init.length + 1⟩
        ⟨init ++ [{ c with Not := true }], .stepField, wn + 1, init.length + 1⟩
  | notNo (init : List Condition) (c : Condition) (wn : Nat) (tok : Str) :
      qs[wn]? = some tok → ToUpper tok ≠ "NOT".toList →
      Step qs ⟨init ++ [c], .stepNot, wn, init.length + 1⟩
        ⟨init ++ [{ c with Not := false }], .stepField, wn, init.length + 1⟩
  | fieldBare (init : List Condition) (c : Condition) (wn : Nat) (tok : Str) :
      qs[wn]? = some tok → IsOperator tok = false → ToUpper tok ≠ "NOT".toList →
      CheckIfField tok = true → wn + 2 < qs.length →
      (nextWordAt qs wn = "AND".toList ∨ nextWordAt qs wn = "OR".toList) →
      Step qs ⟨init ++ [c], .stepField, wn, init.length + 1⟩
        ⟨init ++ [{ c with Field := tok }], .stepAndOr, wn + 1, init.length + 1⟩
  | fieldOp (init : List Condition) (c : Condition) (wn : Nat) (tok : Str) :
      qs[wn]? = some tok → IsOperator tok = false → ToUpper tok ≠ "NOT".toList →
      CheckIfField tok = true → wn + 1 < qs.length →
      (wn + 2 < qs.length →
        ¬(nextWordAt qs wn = "AND".toList ∨ nextWordAt qs wn = "OR".toList)) →
      Step qs ⟨init ++ [c], .stepField, wn, init.length + 1⟩
        ⟨init ++ [{ c with Field := tok }], .stepOperator, wn + 1, init.length + 1⟩
  | operatorPlain (init : List Condition) (c : Condition) (wn : Nat) (tok : Str) :
      qs[wn]? = some tok → IsOperator tok = true → wn + 1 < qs.length →
      Step qs ⟨init ++ [c], .stepOperator, wn, init.length + 1⟩
        ⟨init ++ [{ c with Operator := tok }], .stepValue, wn + 1, init.length + 1⟩
  | operatorNotLike (init : List Condition) (c : Condition) (wn : Nat) (tok t2 : Str) :
      qs[wn]? = some tok → ToUpper tok = "NOT".toList → qs[wn + 1]? = some t2 →
      IsDoubleOperator (ToUpper tok) (ToUpper t2) = true → IsOperator t2 = true →
      wn + 2 < qs.length →
      Step qs ⟨init ++ [c], .stepOperator, wn, init.length + 1⟩
        ⟨init ++ [{ c with Operator := t2 }], .stepValue, wn + 2, init.length + 1⟩
  | value (init : List Condition) (c : Condition) (wn : Nat) (tok : Str) :
      qs[wn]? = some tok → IsOperator tok = false → tok ≠ "NOT".toList → tok ≠ [] →
      Step qs ⟨init ++ [c], .stepValue, wn, init.length + 1⟩
        ⟨init ++ [{ c with Value := some tok }], .stepAndOr, wn + 1, init.length + 1⟩

/-- Weight of a state in the progress measure: AND_OR and NOT may pass the token on. -/
def rank : step → Nat
  | .stepAndOr => 2
  | .stepNot => 1
  | _ => 0

/-- Progress measure of the loop: it decreases with every iteration. -/
def mu (qs : List Str) (m : Machine) : Nat := 3 * (qs.length - m.wn) + rank m.step

/-- The loop variables after `k` further successful iterations, if there are that many.
`none` when an iteration returns an error or the loop has ended before. -/
def steps (qs : List Str) : Nat → Machine → Option Machine
  | 0, m => some m
  | k + 1, m =>
    if m.wn < qs.length then
      match iterate qs m with
      | .ok m1 => steps qs k m1
      | _ => none
    else none

/-- A condition as the machine leaves it when it is complete: a bare field (no operator,
nil value), or an operator of the table together with a value. -/
def Settled (c : Condition) : Prop :=
  (c.Operator = [] ∧ c.Value = none) ∨ (IsOperator c.Operator = true ∧ ∃ v, c.Value = some v)

/-- Every condition after the first carries the conjunction `AND` or `OR`. -/
def TailConj : List Condition → Prop
  | [] => True
  | _ :: t => ∀ c ∈ t, c.AndOr = "AND".toList ∨ c.AndOr = "OR".toList

/-- Invariant of the loop variables. -/
def Inv (qs : List Str) (m : Machine) : Prop :=
  m.cn = m.conditions.length ∧ TailConj m.conditions ∧
  match m.step with
  | .stepAndOr => ∀ c ∈ m.conditions, Settled c
  | .stepValue => ∃ init c, m.conditions = init ++ [c] ∧ (∀ d ∈ init, Settled d) ∧
      IsOperator c.Operator = true ∧ c.Value = none ∧ m.wn < qs.length
  | _ => ∃ init c, m.conditions = init ++ [c] ∧ (∀ d ∈ init, Settled d) ∧
      c.Operator = [] ∧ c.Value = none

/-- The expression type the translator of `Parse` picks for an operator of the table
other than the regex operators, with negation resolved by the complement operator. -/
def kindOf (op : Str) (neg : Bool) : ExprKind :=
  if op = "=".toList then (if neg then .NotEq else .Eq)
  else if op = "!=".toList ∨ op = "<>".toList then (if neg then .Eq else .NotEq)
  else if op = ">".toList then (if neg then .LtOrEq else .Gt)
  else if op = "<".toList then (if neg then .GtOrEq else .Lt)
  else if op = ">=".toList then (if neg then .Lt else .GtOrEq)
  else if op = "<=".toList then (if neg then .Gt else .LtOrEq)
  else if ToUpper op = "LIKE".toList then (if neg then .NotLike else .Like)
  else (if neg then .NotILike else .ILike)

/-- The translated expression of a condition without a regex operator: a bare field is
compared with the text `TRUE`, any other condition compares its field with its value. -/
def exprOf (c : Condition) : Expr :=
  if c.Operator = [] then ⟨if c.Not then .NotEq else .Eq, c.Field, some "TRUE".toList⟩
  else ⟨kindOf c.Operator c.Not, c.Field, c.Value⟩

/-- The argument `AddExpr` passes to `Where` for a condition: its expression as it is when
there is no conjunction, wrapped in a one-element `And`/`Or` group otherwise. -/
def partOf (c : Condition) : Pred :=
  if c.AndOr = [] then .expr (exprOf c)
  else if c.AndOr = "AND".toList then .And [exprOf c]
  else .Or [exprOf c]

/-- The SQL text of a condition's expression before placeholders are numbered:
`field opr ?`. -/
def exprText (c : Condition) : Str :=
  c.Field ++ " ".toList ++ (exprOf c).kind.opr ++ " ?".toList

/-- The text of the conditions after the first: each in parentheses, preceded by
` AND `. -/
def groupsText : List Condition → Str
  | [] => []
  | c :: cs => " AND (".toList ++ exprText c ++ ")".toList ++ groupsText cs

/-- The values bound by a list of conditions, in order. -/
def argsOf (cs : List Condition) : List Str := cs.filterMap fun c => (exprOf c).val

/-- The SQL text of a condition's expression with its placeholder numbered `k`:
`field opr $k`. -/
def dollarText (k : Nat) (c : Condition) : Str :=
  c.Field ++ " ".toList ++ (exprOf c).kind.opr ++ " $".toList ++ Nat.toDigits 10 k

/-- The numbered text of the conditions after the first, the first of them numbered `k`. -/
def dollarGroups : Nat → List Condition → Str
  | _, [] => []
  | k, c :: cs => " AND (".toList ++ dollarText k c ++ ")".toList ++ dollarGroups (k + 1) cs

/-- A token the FIELD state accepts: not an operator, not `NOT` in any letter case, and
passing the field-identifier check. -/
abbrev FieldOk (f : Str) : Prop :=
  IsOperator f = false ∧ ToUpper f ≠ "NOT".toList ∧ CheckIfField f = true

/-- A token that is `AND` or `OR` in some letter case. -/
abbrev IsConj (t : Str) : Prop := ToUpper t = "AND".toList ∨ ToUpper t = "OR".toList

/-- The tokens that open a condition: an optional conjunction `j` and an optional
`NOT` token `n`. -/
def leadTokens (j n : Option Str) : List Str := j.toList ++ n.toList

/-- The condition under construction once the opening tokens have been read. -/
def leadCond (j n : Option Str) : Condition :=
  ⟨(j.map ToUpper).getD [], n.isSome, [], [], none⟩

/-- The opening tokens fit their place: `j` is a conjunction, `n` is `NOT`, and the
conjunction is left out only at the very start of the input, where the first token read
(`NOT` or the field `f`) must not itself be a conjunction. -/
def LeadOk (cs : List Condition) (j n : Option Str) (f : Str) : Prop :=
  (∀ t, j = some t → IsConj t) ∧ (∀ t, n = some t → ToUpper t = "NOT".toList) ∧
  (j = none → cs = [] ∧ (n = none → ¬ IsConj f))

/-- The conjunction the first condition gets: the upper-cased first token when that is
`AND` or `OR`, the empty string otherwise. -/
def firstConj (qs : List Str) : Str :=
  match qs.head? with
  | some t => if ToUpper t = "AND".toList ∨ ToUpper t = "OR".toList then ToUpper t else []
  | none => []

/-- Invariant of the loop variables for the first condition: while there is no condition
the machine stands at the first token, afterwards the first condition carries
`firstConj`. -/
def HeadInv (qs : List Str) (m : Machine) : Prop :=
  match m.conditions with
  | [] => m.wn = 0
  | c :: _ => c.AndOr = firstConj qs

/-- Progress of an iteration: it returns an error, or it consumes a token, or it leaves
`wn` as it is and the next iteration makes progress within `k - 1` further ones. -/
def Progress (qs : List Str) : Nat → Machine → Prop
  | 0, m => (∃ e, iterate qs m = .error e) ∨ ∃ m1, iterate qs m = .ok m1 ∧ m.wn < m1.wn
  | k + 1, m => (∃ e, iterate qs m = .error e) ∨
      ∃ m1, iterate qs m = .ok m1 ∧ (m.wn < m1.wn ∨ (m1.wn = m.wn ∧ Progress qs k m1))

/-- The SQL text of the first condition before placeholders are numbered: its expression
text as it is, or in parentheses when the condition carries a conjunction (the input
opens with `AND` or `OR`, and the expression is attached as a one-element group). -/
def firstText (c : Condition) : Str :=
  if c.AndOr = [] then exprText c else "(".toList ++ exprText c ++ ")".toList

/-- The numbered SQL text of the first condition: `field opr $1`, in parentheses when the
condition carries a conjunction. -/
def firstDollar (c : Condition) : Str :=
  if c.AndOr = [] then dollarText 1 c else "(".toList ++ dollarText 1 c ++ ")".toList
/-! ## The loop: unfolding, fuel and termination -/

theorem loop_step {qs : List Str} {m m1 : Machine} (n : Nat)
    (hlt : m.wn < qs.length) (h : iterate qs m = .ok m1) :
    loop qs (n + 1) m = loop qs n m1 := by
  simp only [loop, hlt, if_true, h]

theorem loop_exit {qs : List Str} {m : Machine} (n : Nat) (hge : ¬ m.wn < qs.length) :
    loop qs (n + 1) m = .ok m.conditions := by
  simp only [loop, hge, if_false]

theorem loop_error {qs : List Str} {m : Machine} {e : Str} (n : Nat)
    (hlt : m.wn < qs.length) (h : iterate qs m = .error e) :
    loop qs (n + 1) m = .error e := by
  simp only [loop, hlt, if_true, h]

theorem iterate_mu {qs : List Str} {m m1 : Machine}
    (h : iterate qs m = .ok m1) (hlt : m.wn < qs.length) : mu qs m1 < mu qs m := by
  unfold iterate at h
  simp only [doAndOr, doNot, doField, doOperator, doOperatorTail, doValue] at h
  repeat' split at h
  all_goals first
    | (injection h; done)
    | (injection h with h; subst h; simp_all [mu, rank]; done)
    | (injection h with h; subst h; simp_all [mu, rank]; omega)

/-- With more fuel than the measure the loop never runs out of it. -/
theorem loop_ne_diverge (qs : List Str) : ∀ (n : Nat) (m : Machine), mu qs m < n →
    loop qs n m ≠ .diverge := by
  intro n
  induction n with
  | zero => intro m h; omega
  | succ n ih =>
    intro m h
    by_cases hlt : m.wn < qs.length
    · cases hit : iterate qs m with
      | ok m1 =>
        rw [loop_step n hlt hit]
        exact ih m1 (by have := iterate_mu hit hlt; omega)
      | error e => rw [loop_error n hlt hit]; simp
      | fault => simp [loop, hlt, hit]
      | diverge =>
        exfalso
        unfold iterate at hit
        simp only [doAndOr, doNot, doField, doOperator, doOperatorTail, doValue] at hit
        repeat' split at hit
        all_goals (injection hit)
    · rw [loop_exit n hlt]; simp

/-- A result reached with some fuel is reached with any larger fuel. -/
theorem loop_mono (qs : List Str) : ∀ (n : Nat) (m : Machine) (k : Nat),
    loop qs n m ≠ .diverge → loop qs (n + k) m = loop qs n m := by
  intro n
  induction n with
  | zero => intro m k h; simp [loop] at h
  | succ n ih =>
    intro m k h
    have e : n + 1 + k = (n + k) + 1 := by omega
    rw [e]
    by_cases hlt : m.wn < qs.length
    · cases hit : iterate qs m with
      | ok m1 =>
        rw [loop_step n hlt hit] at h
        rw [loop_step (n + k) hlt hit, loop_step n hlt hit]
        exact ih m1 k h
      | error e => rw [loop_error _ hlt hit, loop_error _ hlt hit]
      | fault => simp [loop, hlt, hit]
      | diverge => simp [loop, hlt, hit]
    · rw [loop_exit _ hlt, loop_exit _ hlt]

/-- The result of the loop does not depend on the fuel once it exceeds the measure. -/
theorem loop_fuel (qs : List Str) (m : Machine) (n k : Nat)
    (hn : mu qs m < n) (hk : mu qs m < k) : loop qs n m = loop qs k m := by
  rcases Nat.le_total n k with h | h
  · obtain ⟨d, rfl⟩ := Nat.exists_eq_add_of_le h
    exact (loop_mono qs n m d (loop_ne_diverge qs n m hn)).symm
  · obtain ⟨d, rfl⟩ := Nat.exists_eq_add_of_le h
    exact loop_mono qs k m d (loop_ne_diverge qs k m hk)

theorem mu_init (qs : List Str) : mu qs Machine.init < 3 * qs.length + 3 := by
  simp [mu, rank, Machine.init]

/-- After `k` successful iterations from the start, the outcome of the whole parse is
the outcome of the loop continued from the state reached. -/
theorem parseConditions_of_steps (qs : List Str) : ∀ (k : Nat) (m0 m : Machine) (n : Nat),
    steps qs k m0 = some m → mu qs m0 < n → loop qs n m0 = loop qs (mu qs m + 1) m := by
  intro k
  induction k with
  | zero =>
    intro m0 m n h hn
    simp only [steps, Option.some.injEq] at h
    subst h
    exact loop_fuel qs m0 n _ hn (by omega)
  | succ k ih =>
    intro m0 m n h hn
    simp only [steps] at h
    split at h
    · rename_i hlt
      split at h
      · rename_i m1 hit
        obtain ⟨n', rfl⟩ : ∃ n', n = n' + 1 := ⟨n - 1, by omega⟩
        rw [loop_step n' hlt hit]
        exact ih m1 m n' h (by have := iterate_mu hit hlt; omega)
      · cases h
    · cases h

/-! ## One iteration: the code against the step relation -/

theorem condAt_concat (init : List Condition) (c : Condition) :
    condAt (init ++ [c]) (init.length + 1) = some c := by
  simp [condAt]

theorem setCond_concat (init : List Condition) (c : Condition) (f : Condition → Condition) :
    setCond (init ++ [c]) (init.length + 1) f = some (init ++ [f c]) := by
  simp [setCond, condAt_concat]

theorem setCond_some {cs cs1 : List Condition} {cn : Nat} {f : Condition → Condition}
    (h : setCond cs cn f = some cs1) (hcn : cn = cs.length) :
    ∃ init c, cs = init ++ [c] ∧ cn = init.length + 1 ∧ cs1 = init ++ [f c] := by
  rcases List.eq_nil_or_concat cs with rfl | ⟨init, c, rfl⟩
  · simp [setCond, condAt, hcn] at h
  · rw [List.concat_eq_append] at h hcn ⊢
    have hcn1 : cn = init.length + 1 := by simp [hcn]
    subst hcn1
    rw [setCond_concat] at h
    exact ⟨init, c, rfl, rfl, (Option.some.inj h).symm⟩

theorem nextWordAt_some {qs : List Str} {wn : Nat} {t : Str} (h : qs[wn + 1]? = some t) :
    nextWordAt qs wn = ToUpper t := by
  have hlt : wn + 1 < qs.length := by
    by_contra hge
    rw [List.getElem?_eq_none (by omega)] at h
    cases h
  simp [nextWordAt, hlt, h]

theorem isOperator_upper_ne {s w : Str} (h : IsOperator s = true) (hw : w ∉ operators) :
    ToUpper s ≠ w := by
  intro he
  apply hw
  simp only [IsOperator, List.any_eq_true, decide_eq_true_eq] at h
  obtain ⟨o, ho, hso⟩ := h
  rw [← he, hso]; exact ho

theorem getElem?_lt {qs : List Str} {wn : Nat} {tok : Str} (h : qs[wn]? = some tok) :
    wn < qs.length := by
  by_contra hge
  rw [List.getElem?_eq_none (by omega)] at h
  cases h

/-- Soundness of the step relation: the code performs every step of the relation. -/
theorem step_iterate {qs : List Str} {m m1 : Machine} (h : Step qs m m1) :
    iterate qs m = .ok m1 := by
  cases h with
  | andOrFirst wn tok h1 h2 =>
    have hlt := getElem?_lt h1
    have hle : ¬ (wn + 1 > qs.length) := by omega
    simp only [iterate, doAndOr, h1, h2, if_false, List.length_nil, gt_iff_lt, lt_self_iff_false,
      hle, List.nil_append]
  | andOrConj cs wn tok h1 h2 h3 =>
    have hle : ¬ (wn + 1 + 1 > qs.length) := by omega
    simp only [iterate, doAndOr, h1, h2, if_true, hle, if_false, Condition.zero]
  | notYes init c wn tok h1 h2 =>
    simp only [iterate, doNot, h1, h2, if_true, setCond_concat]
  | notNo init c wn tok h1 h2 =>
    simp only [iterate, doNot, h1, h2, if_false, setCond_concat]
  | fieldBare init c wn tok h1 h2 h3 h4 h5 h6 =>
    have hle : ¬ (wn + 1 + 1 > qs.length) := by omega
    have hlt : wn + 1 + 1 < qs.length := by omega
    simp only [iterate, doField, h1, h2, h3, h4, h6, hle, hlt, setCond_concat, ne_eq,
      not_false_eq_true, decide_True, Bool.not_false, Bool.and_self, if_true, if_false]
  | fieldOp init c wn tok h1 h2 h3 h4 h5 h6 =>
    have hle : ¬ (wn + 1 + 1 > qs.length) := by omega
    by_cases hlt : wn + 1 + 1 < qs.length
    · have h7 := h6 hlt
      simp only [iterate, doField, h1, h2, h3, h4, h7, hle, hlt, setCond_concat, ne_eq,
        not_false_eq_true, decide_True, Bool.not_false, Bool.and_self, if_true, if_false]
    · simp only [iterate, doField, h1, h2, h3, h4, hle, hlt, setCond_concat, ne_eq,
        not_false_eq_true, decide_True, Bool.not_false, Bool.and_self, if_true, if_false]
  | operatorPlain init c wn tok h1 h2 h3 =>
    have hN : ToUpper tok ≠ "NOT".toList := isOperator_upper_ne h2 (by decide)
    have hle : ¬ (wn + 1 + 1 > qs.length) := by omega
    simp only [iterate, doOperator, doOperatorTail, h1, h2, hN, hle, setCond_concat, if_true,
      if_false]
  | operatorNotLike init c wn tok t2 h1 h2 h3 h4 h5 h6 =>
    have hlt : wn + 1 < qs.length := by omega
    have hle : ¬ (wn + 1 + 1 + 1 > qs.length) := by omega
    have hnw := nextWordAt_some h3
    rw [h2] at h4
    simp only [iterate, doOperator, doOperatorTail, h1, h2, h3, h4, h5, hnw, hlt, hle,
      setCond_concat, if_true, if_false]
  | value init c wn tok h1 h2 h3 h4 =>
    simp only [iterate, doValue, h1, h2, h3, h4, setCond_concat, ne_eq, not_false_eq_true,
      decide_True, Bool.not_false, Bool.and_self, if_true, if_false]

/-- Completeness of the step relation: every successful iteration from a state whose
counter `cn` is the number of conditions is a step of the relation. -/
theorem iterate_step {qs : List Str} {m m1 : Machine} (h : iterate qs m = .ok m1)
    (hcn : m.cn = m.conditions.length) : Step qs m m1 := by
  obtain ⟨cs, st, wn, cn⟩ := m
  simp only at hcn
  subst hcn
  unfold iterate at h
  simp only at h
  split at h
  · cases h
  rename_i tok htok
  have hlt := getElem?_lt htok
  cases st with
  | stepAndOr =>
    simp only [doAndOr, htok] at h
    split at h
    · rename_i hc
      split at h
      · split at h <;> cases h
      · rename_i hmore
        injection h with h; subst h
        exact Step.andOrConj cs wn tok htok hc (by omega)
    · rename_i hc
      split at h
      · cases h
      · rename_i hlen
        have hnil : cs = [] := by
          cases cs with
          | nil => rfl
          | cons a b => simp at hlen
        subst hnil
        split at h
        · split at h <;> cases h
        · injection h with h; subst h
          exact Step.andOrFirst wn tok htok hc
  | stepNot =>
    simp only [doNot] at h
    split at h
    · rename_i hN
      split at h
      · cases h
      · rename_i cs1 hset
        obtain ⟨init, c, rfl, _, rfl⟩ := setCond_some hset rfl
        injection h with h; subst h
        simpa using Step.notYes init c wn tok htok hN
    · rename_i hN
      split at h
      · cases h
      · rename_i cs1 hset
        obtain ⟨init, c, rfl, _, rfl⟩ := setCond_some hset rfl
        injection h with h; subst h
        simpa using Step.notNo init c wn tok htok hN
  | stepField =>
    simp only [doField, htok] at h
    split at h
    · rename_i hchk
      simp only [Bool.and_eq_true, Bool.not_eq_true', decide_eq_true_eq] at hchk
      obtain ⟨⟨h1, h2⟩, h3⟩ := hchk
      split at h
      · cases h
      · rename_i cs1 hset
        obtain ⟨init, c, rfl, _, rfl⟩ := setCond_some hset rfl
        split at h
        · split at h <;> cases h
        · rename_i hmore
          split at h
          · rename_i hmore2
            split at h
            · rename_i hnw
              injection h with h; subst h
              simpa using Step.fieldBare init c wn tok htok h1 h2 h3 (by omega) hnw
            · rename_i hnw
              injection h with h; subst h
              simpa using Step.fieldOp init c wn tok htok h1 h2 h3 (by omega) (fun _ => hnw)
          · rename_i hmore2
            injection h with h; subst h
            simpa using Step.fieldOp init c wn tok htok h1 h2 h3 (by omega)
              (fun hh => absurd hh (by omega))
    · cases h
  | stepOperator =>
    simp only [doOperator] at h
    split at h
    · rename_i hN
      split at h
      · rename_i hmore
        split at h
        · rename_i hdbl
          split at h
          · cases h
          · rename_i cs1 hset
            obtain ⟨init, c, rfl, _, rfl⟩ := setCond_some hset rfl
            simp only [doOperatorTail] at h
            split at h
            · cases h
            · rename_i t2 ht2
              split at h
              · rename_i hop2
                simp only [List.length_append, List.length_singleton] at h
                rw [setCond_concat] at h
                simp only at h
                split at h
                · split at h <;> cases h
                · rename_i hmore3
                  injection h with h; subst h
                  have hnw := nextWordAt_some ht2
                  rw [hnw] at hdbl
                  simpa using Step.operatorNotLike init c wn tok t2 htok hN ht2 hdbl hop2
                    (by omega)
              · cases h
        · split at h <;> cases h
      · rename_i hmore
        simp only [doOperatorTail, htok] at h
        have hnop : IsOperator tok = false := by
          by_contra hop
          simp only [Bool.not_eq_false] at hop
          exact isOperator_upper_ne hop (by decide) hN
        simp [hnop] at h
    · rename_i hN
      simp only [doOperatorTail, htok] at h
      split at h
      · rename_i hop
        split at h
        · cases h
        · rename_i cs1 hset
          obtain ⟨init, c, rfl, _, rfl⟩ := setCond_some hset rfl
          split at h
          · split at h <;> cases h
          · rename_i hmore
            injection h with h; subst h
            simpa using Step.operatorPlain init c wn tok htok hop (by omega)
      · cases h
  | stepValue =>
    simp only [doValue, htok] at h
    split at h
    · rename_i hchk
      simp only [Bool.and_eq_true, Bool.not_eq_true', decide_eq_true_eq] at hchk
      obtain ⟨⟨h1, h2⟩, h3⟩ := hchk
      split at h
      · cases h
      · rename_i cs1 hset
        obtain ⟨init, c, rfl, _, rfl⟩ := setCond_some hset rfl
        injection h with h; subst h
        simpa using Step.value init c wn tok htok h1 h2 h3
    · cases h

/-! ## Invariant of the loop and shape of the parsed condition list -/

theorem tailConj_concat {cs : List Condition} {c : Condition} (h : TailConj cs)
    (hc : cs ≠ [] → (c.AndOr = "AND".toList ∨ c.AndOr = "OR".toList)) :
    TailConj (cs ++ [c]) := by
  cases cs with
  | nil => simp [TailConj]
  | cons a t =>
    simp only [TailConj, List.cons_append, List.mem_append, List.mem_singleton] at h ⊢
    intro d hd
    rcases hd with hd | rfl
    · exact h d hd
    · exact hc (by simp)

theorem tailConj_last {init : List Condition} {c d : Condition} (h : TailConj (init ++ [c]))
    (hd : d.AndOr = c.AndOr) : TailConj (init ++ [d]) := by
  cases init with
  | nil => simp [TailConj]
  | cons a t =>
    simp only [TailConj, List.cons_append, List.mem_append, List.mem_singleton] at h ⊢
    intro x hx
    rcases hx with hx | rfl
    · exact h x (Or.inl hx)
    · rw [hd]; exact h c (Or.inr rfl)

theorem settled_bare {c : Condition} (h1 : c.Operator = []) (h2 : c.Value = none) :
    Settled c := Or.inl ⟨h1, h2⟩

theorem inv_init (qs : List Str) : Inv qs Machine.init := by
  simp [Inv, Machine.init, TailConj]

theorem step_inv {qs : List Str} {m m1 : Machine} (h : Step qs m m1) (hi : Inv qs m) :
    Inv qs m1 := by
  cases h with
  | andOrFirst wn tok h1 h2 =>
    refine ⟨rfl, by simp [TailConj], [], Condition.zero, rfl, by simp, rfl, rfl⟩
  | andOrConj cs wn tok h1 h2 h3 =>
    obtain ⟨_, ht, hs⟩ := hi
    refine ⟨by simp, tailConj_concat ht (fun _ => h2), cs, _, rfl, hs, rfl, rfl⟩
  | notYes init c wn tok h1 h2 =>
    obtain ⟨_, ht, init1, c1, he, hs, ho, hv⟩ := hi
    obtain ⟨rfl, hc⟩ := List.append_inj' he rfl
    obtain rfl : c = c1 := by simpa using hc
    exact ⟨by simp, tailConj_last ht rfl, init, _, rfl, hs, ho, hv⟩
  | notNo init c wn tok h1 h2 =>
    obtain ⟨_, ht, init1, c1, he, hs, ho, hv⟩ := hi
    obtain ⟨rfl, hc⟩ := List.append_inj' he rfl
    obtain rfl : c = c1 := by simpa using hc
    exact ⟨by simp, tailConj_last ht rfl, init, _, rfl, hs, ho, hv⟩
  | fieldBare init c wn tok h1 h2 h3 h4 h5 h6 =>
    obtain ⟨_, ht, init1, c1, he, hs, ho, hv⟩ := hi
    obtain ⟨rfl, hc⟩ := List.append_inj' he rfl
    obtain rfl : c = c1 := by simpa using hc
    refine ⟨by simp, tailConj_last ht rfl, ?_⟩
    intro d hd
    simp only [List.mem_append, List.mem_singleton] at hd
    rcases hd with hd | rfl
    · exact hs d hd
    · exact settled_bare ho hv
  | fieldOp init c wn tok h1 h2 h3 h4 h5 h6 =>
    obtain ⟨_, ht, init1, c1, he, hs, ho, hv⟩ := hi
    obtain ⟨rfl, hc⟩ := List.append_inj' he rfl
    obtain rfl : c = c1 := by simpa using hc
    exact ⟨by simp, tailConj_last ht rfl, init, _, rfl, hs, ho, hv⟩
  | operatorPlain init c wn tok h1 h2 h3 =>
    obtain ⟨_, ht, init1, c1, he, hs, ho, hv⟩ := hi
    obtain ⟨rfl, hc⟩ := List.append_inj' he rfl
    obtain rfl : c = c1 := by simpa using hc
    exact ⟨by simp, tailConj_last ht rfl, init, _, rfl, hs, h2, hv, h3⟩
  | operatorNotLike init c wn tok t2 h1 h2 h3 h4 h5 h6 =>
    obtain ⟨_, ht, init1, c1, he, hs, ho, hv⟩ := hi
    obtain ⟨rfl, hc⟩ := List.append_inj' he rfl
    obtain rfl : c = c1 := by simpa using hc
    exact ⟨by simp, tailConj_last ht rfl, init, _, rfl, hs, h5, hv, h6⟩
  | value init c wn tok h1 h2 h3 h4 =>
    obtain ⟨_, ht, init1, c1, he, hs, ho, hv, _⟩ := hi
    obtain ⟨rfl, hc⟩ := List.append_inj' he rfl
    obtain rfl : c = c1 := by simpa using hc
    refine ⟨by simp, tailConj_last ht rfl, ?_⟩
    intro d hd
    simp only [List.mem_append, List.mem_singleton] at hd
    rcases hd with hd | rfl
    · exact hs d hd
    · exact Or.inr ⟨ho, tok, rfl⟩

theorem inv_exit {qs : List Str} {m : Machine} (hi : Inv qs m) (hge : ¬ m.wn < qs.length) :
    TailConj m.conditions ∧ ∀ c ∈ m.conditions, Settled c := by
  obtain ⟨cs, st, wn, cn⟩ := m
  obtain ⟨_, ht, hs⟩ := hi
  refine ⟨ht, ?_⟩
  cases st with
  | stepValue =>
    obtain ⟨init, c, he, hs, ho, hv, hlt⟩ := hs
    exact absurd hlt hge
  | stepAndOr => exact hs
  | stepNot =>
    obtain ⟨init, c, he, hs, ho, hv⟩ := hs
    simp only at he; subst he
    intro d hd
    simp only [List.mem_append, List.mem_singleton] at hd
    rcases hd with hd | rfl
    · exact hs d hd
    · exact settled_bare ho hv
  | stepField =>
    obtain ⟨init, c, he, hs, ho, hv⟩ := hs
    simp only at he; subst he
    intro d hd
    simp only [List.mem_append, List.mem_singleton] at hd
    rcases hd with hd | rfl
    · exact hs d hd
    · exact settled_bare ho hv
  | stepOperator =>
    obtain ⟨init, c, he, hs, ho, hv⟩ := hs
    simp only at he; subst he
    intro d hd
    simp only [List.mem_append, List.mem_singleton] at hd
    rcases hd with hd | rfl
    · exact hs d hd
    · exact settled_bare ho hv

theorem loop_inv (qs : List Str) : ∀ (n : Nat) (m : Machine) (cs : List Condition),
    Inv qs m → loop qs n m = .ok cs → TailConj cs ∧ ∀ c ∈ cs, Settled c := by
  intro n
  induction n with
  | zero => intro m cs _ h; simp [loop] at h
  | succ n ih =>
    intro m cs hi h
    by_cases hlt : m.wn < qs.length
    · cases hit : iterate qs m with
      | ok m1 =>
        rw [loop_step n hlt hit] at h
        exact ih m1 cs (step_inv (iterate_step hit hi.1) hi) h
      | error e => rw [loop_error n hlt hit] at h; cases h
      | fault => simp [loop, hlt, hit] at h
      | diverge => simp [loop, hlt, hit] at h
    · rw [loop_exit n hlt] at h
      injection h with h; subst h
      exact inv_exit hi hlt

/-- Shape of an accepted condition list: every condition after the first has a
conjunction, and every condition is a bare field or has a table operator and a value. -/
theorem parseConditions_shape {qs : List Str} {cs : List Condition}
    (h : parseConditions qs = .ok cs) : TailConj cs ∧ ∀ c ∈ cs, Settled c :=
  loop_inv qs _ _ cs (inv_init qs) h

/-! ## Upper-casing and the operator table -/

theorem toNat_ofNat_upper (n : Nat) (h1 : 97 ≤ n) (h2 : n ≤ 122) :
    65 ≤ (Char.ofNat (n - 32)).toNat ∧ (Char.ofNat (n - 32)).toNat ≤ 90 := by
  interval_cases n <;> decide

/-- Upper-casing never produces a character outside `A`-`Z` from a different one. -/
theorem toUpperRune_symbol {c d : Char} (h : toUpperRune c = d)
    (hd : ¬(65 ≤ d.toNat ∧ d.toNat ≤ 90)) : c = d := by
  unfold toUpperRune at h
  split_ifs at h with h1 h2 h3
  · exfalso; apply hd; rw [← h]; exact toNat_ofNat_upper _ h1.1 h1.2
  · exfalso; apply hd; rw [← h]; decide
  · exfalso; apply hd; rw [← h]; decide
  · exact h

theorem toUpper_symbol : ∀ (s t : Str), ToUpper s = t →
    (∀ d ∈ t, ¬(65 ≤ d.toNat ∧ d.toNat ≤ 90)) → s = t := by
  intro s
  induction s with
  | nil => intro t h _; simpa [ToUpper] using h
  | cons c s ih =>
    intro t h ht
    cases t with
    | nil => simp [ToUpper] at h
    | cons d t =>
      simp only [ToUpper, List.map_cons, List.cons.injEq] at h
      have h1 := toUpperRune_symbol h.1 (ht d (by simp))
      have h2 := ih t h.2 (fun x hx => ht x (by simp [hx]))
      rw [h1, h2]

/-- The operators the table admits: the eleven symbolic ones, spelled exactly, and
`LIKE`/`ILIKE` in any letter case. -/
theorem isOperator_cases {op : Str} (h : IsOperator op = true) :
    op = ">=".toList ∨ op = "<=".toList ∨ op = "!=".toList ∨ op = "<>".toList ∨
    op = "=".toList ∨ op = ">".toList ∨ op = "<".toList ∨ ToUpper op = "LIKE".toList ∨
    ToUpper op = "ILIKE".toList ∨ op = "~".toList ∨ op = "~*".toList ∨ op = "!~".toList ∨
    op = "!~*".toList := by
  simp only [IsOperator, operators, List.any_cons, List.any_nil, Bool.or_false, Bool.or_eq_true,
    decide_eq_true_eq] at h
  rcases h with h | h | h | h | h | h | h | h | h | h | h | h | h
  · have e := toUpper_symbol _ _ h (by decide); tauto
  · have e := toUpper_symbol _ _ h (by decide); tauto
  · have e := toUpper_symbol _ _ h (by decide); tauto
  · have e := toUpper_symbol _ _ h (by decide); tauto
  · have e := toUpper_symbol _ _ h (by decide); tauto
  · have e := toUpper_symbol _ _ h (by decide); tauto
  · have e := toUpper_symbol _ _ h (by decide); tauto
  · tauto
  · tauto
  · have e := toUpper_symbol _ _ h (by decide); tauto
  · have e := toUpper_symbol _ _ h (by decide); tauto
  · have e := toUpper_symbol _ _ h (by decide); tauto
  · have e := toUpper_symbol _ _ h (by decide); tauto

/-! ## The translation loop on conditions without regex operators -/

theorem ne_of_toUpper {s t u : Str} (h : ToUpper s = u) (ht : ToUpper t ≠ u) : s ≠ t := by
  intro e; subst e; exact ht h

theorem translate_cons (all rest : List Condition) (c : Condition) (qb : SelectBuilder)
    (hs : Settled c) (hr : ¬ IsRegexOp c.Operator) :
    translate all (c :: rest) qb = translate all rest (AddExpr qb (exprOf c) c.AndOr) := by
  rcases hs with ⟨ho, hv⟩ | ⟨ho, v, hv⟩
  · cases hn : c.Not <;> simp [translate, exprOf, ho, hn]
  · rcases isOperator_cases ho with h | h | h | h | h | h | h | h | h | h | h | h | h
    · cases hn : c.Not <;> simp [translate, exprOf, kindOf, h, hn]
    · cases hn : c.Not <;> simp [translate, exprOf, kindOf, h, hn]
    · cases hn : c.Not <;> simp [translate, exprOf, kindOf, h, hn]
    · cases hn : c.Not <;> simp [translate, exprOf, kindOf, h, hn]
    · cases hn : c.Not <;> simp [translate, exprOf, kindOf, h, hn]
    · cases hn : c.Not <;> simp [translate, exprOf, kindOf, h, hn]
    · cases hn : c.Not <;> simp [translate, exprOf, kindOf, h, hn]
    · have h0 : c.Operator ≠ [] := ne_of_toUpper h (by decide)
      have h1 : c.Operator ≠ "=".toList := ne_of_toUpper h (by decide)
      have h2 : c.Operator ≠ ">".toList := ne_of_toUpper h (by decide)
      have h3 : c.Operator ≠ "<".toList := ne_of_toUpper h (by decide)
      have h4 : c.Operator ≠ ">=".toList := ne_of_toUpper h (by decide)
      have h5 : c.Operator ≠ "<=".toList := ne_of_toUpper h (by decide)
      have h6 : c.Operator ≠ "!=".toList := ne_of_toUpper h (by decide)
      have h7 : c.Operator ≠ "<>".toList := ne_of_toUpper h (by decide)
      cases hn : c.Not <;>
        simp only [translate, exprOf, kindOf, h, h0, h1, h2, h3, h4, h5, h6, h7, hn, ne_eq,
          not_false_eq_true, if_true, if_false, or_self, Bool.not_false, Bool.not_true,
          Bool.false_eq_true]
    · have h0 : c.Operator ≠ [] := ne_of_toUpper h (by decide)
      have h1 : c.Operator ≠ "=".toList := ne_of_toUpper h (by decide)
      have h2 : c.Operator ≠ ">".toList := ne_of_toUpper h (by decide)
      have h3 : c.Operator ≠ "<".toList := ne_of_toUpper h (by decide)
      have h4 : c.Operator ≠ ">=".toList := ne_of_toUpper h (by decide)
      have h5 : c.Operator ≠ "<=".toList := ne_of_toUpper h (by decide)
      have h6 : c.Operator ≠ "!=".toList := ne_of_toUpper h (by decide)
      have h7 : c.Operator ≠ "<>".toList := ne_of_toUpper h (by decide)
      have h8 : ("ILIKE".toList : Str) ≠ "LIKE".toList := by decide
      cases hn : c.Not <;>
        simp only [translate, exprOf, kindOf, h, h0, h1, h2, h3, h4, h5, h6, h7, h8, hn, ne_eq,
          not_false_eq_true, if_true, if_false, or_self, Bool.not_false, Bool.not_true,
          Bool.false_eq_true]
    · exact absurd (Or.inl h) hr
    · exact absurd (Or.inr (Or.inl h)) hr
    · exact absurd (Or.inr (Or.inr (Or.inl h))) hr
    · exact absurd (Or.inr (Or.inr (Or.inr h))) hr

theorem translate_structured (all : List Condition) : ∀ (rest : List Condition)
    (qb : SelectBuilder), (∀ c ∈ rest, Settled c ∧ ¬ IsRegexOp c.Operator) →
    translate all rest qb = rest.foldl (fun b c => AddExpr b (exprOf c) c.AndOr) qb := by
  intro rest
  induction rest with
  | nil => intro qb _; simp [translate]
  | cons c rest ih =>
    intro qb h
    have hc := h c (by simp)
    rw [translate_cons all rest c qb hc.1 hc.2, List.foldl_cons]
    exact ih _ (fun d hd => h d (by simp [hd]))

theorem addExpr_partOf (qb : SelectBuilder) (c : Condition)
    (h : c.AndOr = [] ∨ c.AndOr = "AND".toList ∨ c.AndOr = "OR".toList) :
    AddExpr qb (exprOf c) c.AndOr = { qb with WhereParts := qb.WhereParts ++ [partOf c] } := by
  rcases h with h | h | h <;> simp [AddExpr, partOf, h, SelectBuilder.Where]

theorem foldl_addExpr : ∀ (cs : List Condition) (qb : SelectBuilder),
    (∀ c ∈ cs, c.AndOr = [] ∨ c.AndOr = "AND".toList ∨ c.AndOr = "OR".toList) →
    cs.foldl (fun b c => AddExpr b (exprOf c) c.AndOr) qb =
      { qb with WhereParts := qb.WhereParts ++ cs.map partOf } := by
  intro cs
  induction cs with
  | nil => intro qb _; simp
  | cons c cs ih =>
    intro qb h
    rw [List.foldl_cons, addExpr_partOf qb c (h c (by simp)), ih _ (fun d hd => h d (by simp [hd]))]
    simp

/-! ## Rendering of the builder `Parse` returns -/

theorem exprOf_key (c : Condition) : (exprOf c).key = c.Field := by
  unfold exprOf; split <;> rfl

theorem exprOf_val {c : Condition} (h : Settled c) : ∃ v, (exprOf c).val = some v := by
  rcases h with ⟨ho, _⟩ | ⟨ho, v, hv⟩
  · exact ⟨"TRUE".toList, by simp [exprOf, ho]⟩
  · have h0 : c.Operator ≠ [] := by
      intro e; rw [e] at ho; revert ho; decide
    exact ⟨v, by simp [exprOf, h0, hv]⟩

theorem expr_toSql {c : Condition} {v : Str} (h : (exprOf c).val = some v) :
    (exprOf c).ToSql = .ok (exprText c, [v]) := by
  simp only [Expr.ToSql, h, exprText, exprOf_key]

theorem exprText_ne_nil (c : Condition) : exprText c ≠ [] := by
  simp [exprText]

theorem partOf_toSql_first {c : Condition} {v : Str} (h : (exprOf c).val = some v)
    (hc : c.AndOr = []) : (partOf c).ToSql = .ok (exprText c, [v]) := by
  simp only [partOf, hc, if_true, Pred.ToSql, expr_toSql h]

theorem partOf_toSql_group {c : Condition} {v : Str} (h : (exprOf c).val = some v)
    (hc : c.AndOr = "AND".toList ∨ c.AndOr = "OR".toList) :
    (partOf c).ToSql = .ok ("(".toList ++ exprText c ++ ")".toList, [v]) := by
  have hne := exprText_ne_nil c
  rcases hc with hc | hc
  · have h0 : c.AndOr ≠ [] := by rw [hc]; decide
    simp [partOf, hc, Pred.ToSql, conjJoin, conjParts, expr_toSql h, hne, Join]
  · have h0 : c.AndOr ≠ [] := by rw [hc]; decide
    have h1 : c.AndOr ≠ "AND".toList := by rw [hc]; decide
    simp [partOf, hc, Pred.ToSql, conjJoin, conjParts, expr_toSql h, hne, Join]

theorem argsOf_cons {c : Condition} {v : Str} (h : (exprOf c).val = some v)
    (cs : List Condition) : argsOf (c :: cs) = v :: argsOf cs := by
  simp [argsOf, List.filterMap_cons, h]

theorem appendToSql_groups : ∀ (rest : List Condition) (i : Nat) (w : Str) (args : List Str),
    (∀ c ∈ rest, (c.AndOr = "AND".toList ∨ c.AndOr = "OR".toList) ∧ Settled c) →
    appendToSql (rest.map partOf) (i + 1) " AND ".toList w args =
      .ok (w ++ groupsText rest, args ++ argsOf rest) := by
  intro rest
  induction rest with
  | nil => intro i w args _; simp [appendToSql, groupsText, argsOf]
  | cons c rest ih =>
    intro i w args h
    obtain ⟨hc, hs⟩ := h c (by simp)
    obtain ⟨v, hv⟩ := exprOf_val hs
    simp only [List.map_cons, appendToSql, partOf_toSql_group hv hc]
    have hlen : ¬ (("(".toList ++ exprText c ++ ")".toList).length = 0) := by simp
    simp only [hlen, if_false, Nat.succ_pos, gt_iff_lt, if_true]
    rw [ih (i + 1) _ _ (fun d hd => h d (by simp [hd])), argsOf_cons hv]
    simp [groupsText, List.append_assoc]

/-- The statement the test builder renders once the conditions `c1 :: rest` have been
attached: the first expression as it is, each later one in parentheses after ` AND `. -/
theorem toSqlRaw_chain (c1 : Condition) (rest : List Condition) (f : PlaceholderFormat)
    (hfirst : c1.AndOr = []) (h1 : Settled c1)
    (hrest : ∀ c ∈ rest, (c.AndOr = "AND".toList ∨ c.AndOr = "OR".toList) ∧ Settled c) :
    SelectBuilder.toSqlRaw ⟨f, ["*".toList], some "cats".toList, (c1 :: rest).map partOf⟩ =
      .ok ("SELECT * FROM cats WHERE ".toList ++ exprText c1 ++ groupsText rest,
        argsOf (c1 :: rest)) := by
  obtain ⟨v, hv⟩ := exprOf_val h1
  have hlen : ¬ ((exprText c1).length = 0) := by simp [exprText]
  simp only [SelectBuilder.toSqlRaw, List.map_cons, appendToSql, partOf_toSql_first hv hfirst]
  simp only [List.length_cons, List.length_nil, Nat.succ_ne_zero, if_false, gt_iff_lt,
    Nat.succ_pos, if_true, hlen, lt_self_iff_false, Nat.zero_add, Join]
  rw [appendToSql_groups rest 0 _ _ hrest, argsOf_cons hv]
  simp [List.append_assoc]

theorem parse_structured (q : Str) (cs : List Condition) (qb : SelectBuilder)
    (hguard : firstForbidden q = none) (hparse : parseConditions (Fields q) = .ok cs)
    (hfirst : ∀ c ∈ cs.head?, c.AndOr = [])
    (hregex : ∀ c ∈ cs, ¬ IsRegexOp c.Operator) :
    Parse q qb =
      .ok ⟨.Dollar, qb.Columns, qb.From, qb.WhereParts ++ cs.map partOf⟩ := by
  obtain ⟨ht, hs⟩ := parseConditions_shape hparse
  have hconj : ∀ c ∈ cs, c.AndOr = [] ∨ c.AndOr = "AND".toList ∨ c.AndOr = "OR".toList := by
    cases cs with
    | nil => simp
    | cons c1 rest =>
      intro c hc
      simp only [List.mem_cons] at hc
      rcases hc with rfl | hc
      · exact Or.inl (hfirst c (by simp))
      · exact Or.inr (ht c hc)
  simp only [Parse, hguard, hparse]
  rw [translate_structured cs cs _ (fun c hc => ⟨hs c hc, hregex c hc⟩), foldl_addExpr cs _ hconj]
  rfl

/-! ## Numbering of the placeholders -/

theorem rp_cons_ne (mk : Str) {c : Char} (hc : c ≠ '?') (rest : Str) (i : Nat) :
    replacePositionalPlaceholders mk (c :: rest) i =
      c :: replacePositionalPlaceholders mk rest i := by
  cases rest with
  | nil => simp [replacePositionalPlaceholders, hc]
  | cons d rest => simp [replacePositionalPlaceholders, hc]

theorem rp_append_noq (mk : Str) : ∀ (s t : Str) (i : Nat), '?' ∉ s →
    replacePositionalPlaceholders mk (s ++ t) i =
      s ++ replacePositionalPlaceholders mk t i := by
  intro s
  induction s with
  | nil => intro t i _; rfl
  | cons c s ih =>
    intro t i h
    simp only [List.mem_cons, not_or] at h
    rw [List.cons_append, rp_cons_ne mk (Ne.symm h.1), ih t i h.2, List.cons_append]

theorem rp_noq (mk : Str) (s : Str) (i : Nat) (h : '?' ∉ s) :
    replacePositionalPlaceholders mk s i = s := by
  have := rp_append_noq mk s [] i h
  simpa [replacePositionalPlaceholders] using this

theorem rp_q_cons (mk : Str) {d : Char} (hd : d ≠ '?') (rest : Str) (i : Nat) :
    replacePositionalPlaceholders mk ('?' :: d :: rest) i =
      mk ++ Nat.toDigits 10 (i + 1) ++ replacePositionalPlaceholders mk (d :: rest) (i + 1) := by
  simp [replacePositionalPlaceholders, hd]

theorem rp_q_nil (mk : Str) (i : Nat) :
    replacePositionalPlaceholders mk ['?'] i = mk ++ Nat.toDigits 10 (i + 1) := by
  simp [replacePositionalPlaceholders]

theorem opr_noq (k : ExprKind) : '?' ∉ k.opr := by
  cases k <;> decide

/-- Numbering of one expression text followed by a text that does not open with `?`. -/
theorem rp_exprText (c : Condition) (t : Str) (i : Nat) (hf : '?' ∉ c.Field)
    (ht : ∀ d ∈ t.head?, d ≠ '?') :
    replacePositionalPlaceholders "$".toList (exprText c ++ t) i =
      dollarText (i + 1) c ++ replacePositionalPlaceholders "$".toList t (i + 1) := by
  have e : exprText c ++ t = c.Field ++ (" ".toList ++ ((exprOf c).kind.opr ++
      (" ".toList ++ ('?' :: t)))) := by
    simp [exprText, List.append_assoc]
  rw [e, rp_append_noq _ _ _ _ hf, rp_append_noq _ _ _ _ (by decide),
    rp_append_noq _ _ _ _ (opr_noq _), rp_append_noq _ _ _ _ (by decide)]
  cases t with
  | nil =>
    rw [rp_q_nil]
    simp [dollarText, replacePositionalPlaceholders, List.append_assoc]
  | cons d t =>
    rw [rp_q_cons _ (ht d (by simp))]
    simp [dollarText, List.append_assoc]

theorem rp_groups : ∀ (rest : List Condition) (i : Nat), (∀ c ∈ rest, '?' ∉ c.Field) →
    replacePositionalPlaceholders "$".toList (groupsText rest) i = dollarGroups (i + 1) rest := by
  intro rest
  induction rest with
  | nil => intro i _; simp [groupsText, dollarGroups, replacePositionalPlaceholders]
  | cons c rest ih =>
    intro i h
    have e : groupsText (c :: rest) =
        " AND (".toList ++ (exprText c ++ (')' :: groupsText rest)) := by
      simp [groupsText, List.append_assoc]
    rw [e, rp_append_noq _ _ _ _ (by decide), rp_exprText c _ i (h c (by simp)) (by simp),
      rp_cons_ne _ (by decide), ih (i + 1) (fun d hd => h d (by simp [hd]))]
    simp [dollarGroups, List.append_assoc]

theorem groupsText_head (rest : List Condition) : ∀ d ∈ (groupsText rest).head?, d ≠ '?' := by
  cases rest with
  | nil => simp [groupsText]
  | cons c rest => simp [groupsText]

/-- Numbering of the whole statement when no field contains a `?`. -/
theorem rp_statement (c1 : Condition) (rest : List Condition)
    (h : ∀ c ∈ c1 :: rest, '?' ∉ c.Field) :
    PlaceholderFormat.Dollar.ReplacePlaceholders
        ("SELECT * FROM cats WHERE ".toList ++ exprText c1 ++ groupsText rest) =
      "SELECT * FROM cats WHERE ".toList ++ dollarText 1 c1 ++ dollarGroups 2 rest := by
  simp only [PlaceholderFormat.ReplacePlaceholders, List.append_assoc]
  rw [rp_append_noq _ _ _ _ (by decide), rp_exprText c1 _ 0 (h c1 (by simp))
    (groupsText_head rest), rp_groups rest 1 (fun d hd => h d (by simp [hd]))]

theorem render_chain (q : Str) (c1 : Condition) (rest : List Condition)
    (hguard : firstForbidden q = none)
    (hparse : parseConditions (Fields q) = .ok (c1 :: rest))
    (hfirst : c1.AndOr = []) (hregex : ∀ c ∈ c1 :: rest, ¬ IsRegexOp c.Operator) :
    render q = .ok (.ok (PlaceholderFormat.Dollar.ReplacePlaceholders
        ("SELECT * FROM cats WHERE ".toList ++ exprText c1 ++ groupsText rest),
      argsOf (c1 :: rest))) := by
  obtain ⟨ht, hs⟩ := parseConditions_shape hparse
  have hp := parse_structured q (c1 :: rest) testQb hguard hparse
    (by simpa using hfirst) hregex
  simp only [render, hp, SelectBuilder.ToSql]
  have hraw := toSqlRaw_chain c1 rest .Dollar hfirst (hs c1 (by simp))
    (fun c hc => ⟨ht c hc, hs c (by simp [hc])⟩)
  simp only [testQb, Select, SelectBuilder.from, List.nil_append]
  rw [hraw]

/-! ## Running the machine on given tokens -/

theorem steps_succ {qs : List Str} {m m1 : Machine} (k : Nat)
    (h : Step qs m m1) : steps qs (k + 1) m = steps qs k m1 := by
  have hit := step_iterate h
  have hlt : m.wn < qs.length := by
    cases h <;> simp only <;> (apply getElem?_lt; assumption)
  simp only [steps, hlt, if_true, hit]

theorem parseConditions_of_steps_exit {qs : List Str} {k : Nat} {m : Machine}
    (h : steps qs k Machine.init = some m) (hge : ¬ m.wn < qs.length) :
    parseConditions qs = .ok m.conditions := by
  unfold parseConditions
  rw [parseConditions_of_steps qs k _ m _ h (mu_init qs), loop_exit _ hge]

theorem parseConditions_of_steps_error {qs : List Str} {k : Nat} {m : Machine} {e : Str}
    (h : steps qs k Machine.init = some m) (hlt : m.wn < qs.length)
    (hit : iterate qs m = .error e) : parseConditions qs = .error e := by
  unfold parseConditions
  rw [parseConditions_of_steps qs k _ m _ h (mu_init qs), loop_error _ hlt hit]

theorem fieldsAux_ne_nil : ∀ (s cur : Str), ∀ t ∈ fieldsAux s cur, t ≠ [] := by
  intro s
  induction s with
  | nil =>
    intro cur t ht
    simp only [fieldsAux] at ht
    split at ht
    · simp at ht
    · simp only [List.mem_singleton] at ht
      subst ht
      simpa using ‹¬cur = []›
  | cons c s ih =>
    intro cur t ht
    simp only [fieldsAux] at ht
    split at ht
    · split at ht
      · exact ih [] t ht
      · simp only [List.mem_cons] at ht
        rcases ht with rfl | ht
        · simpa using ‹¬cur = []›
        · exact ih [] t ht
    · exact ih _ t ht

/-- The tokens cut by `Fields` are never empty. -/
theorem fields_ne_nil (q : Str) : ∀ t ∈ Fields q, t ≠ [] := fieldsAux_ne_nil q []

/-- The machine on a single condition `field op value`. -/
theorem parseConditions_single (f op v : Str) (hf : FieldToken f)
    (hop : IsOperator op = true) (hv : ValueToken v) (hv0 : v ≠ []) :
    parseConditions [f, op, v] = .ok [⟨[], false, f, op, some v⟩] := by
  obtain ⟨hf1, hf2, hf3, hf4, hf5⟩ := hf
  have hoA : ToUpper op ≠ "AND".toList := isOperator_upper_ne hop (by decide)
  have hoO : ToUpper op ≠ "OR".toList := isOperator_upper_ne hop (by decide)
  have s1 : Step [f, op, v] Machine.init ⟨[Condition.zero], .stepNot, 0, 1⟩ :=
    Step.andOrFirst 0 f rfl (not_or.mpr ⟨hf3, hf4⟩)
  have s2 : Step [f, op, v] ⟨[Condition.zero], .stepNot, 0, 1⟩
      ⟨[⟨[], false, [], [], none⟩], .stepField, 0, 1⟩ :=
    Step.notNo [] Condition.zero 0 f rfl hf2
  have s3 : Step [f, op, v] ⟨[⟨[], false, [], [], none⟩], .stepField, 0, 1⟩
      ⟨[⟨[], false, f, [], none⟩], .stepOperator, 1, 1⟩ :=
    Step.fieldOp [] ⟨[], false, [], [], none⟩ 0 f rfl hf1 hf2 hf5 (by simp)
      (fun _ => by rw [@nextWordAt_some _ _ op rfl]; exact not_or.mpr ⟨hoA, hoO⟩)
  have s4 : Step [f, op, v] ⟨[⟨[], false, f, [], none⟩], .stepOperator, 1, 1⟩
      ⟨[⟨[], false, f, op, none⟩], .stepValue, 2, 1⟩ :=
    Step.operatorPlain [] ⟨[], false, f, [], none⟩ 1 op rfl hop (by simp)
  have s5 : Step [f, op, v] ⟨[⟨[], false, f, op, none⟩], .stepValue, 2, 1⟩
      ⟨[⟨[], false, f, op, some v⟩], .stepAndOr, 3, 1⟩ :=
    Step.value [] ⟨[], false, f, op, none⟩ 2 v rfl hv.1 hv.2 hv0
  have hs : steps [f, op, v] 5 Machine.init = some ⟨[⟨[], false, f, op, some v⟩], .stepAndOr, 3, 1⟩ := by
    rw [steps_succ 4 s1, steps_succ 3 s2, steps_succ 2 s3, steps_succ 1 s4, steps_succ 0 s5]
    rfl
  exact parseConditions_of_steps_exit hs (by simp)

/-- The machine on a single negated condition `NOT field op value`. -/
theorem parseConditions_single_not (n f op v : Str) (hn : ToUpper n = "NOT".toList)
    (hf : FieldToken f) (hop : IsOperator op = true) (hv : ValueToken v) (hv0 : v ≠ []) :
    parseConditions [n, f, op, v] = .ok [⟨[], true, f, op, some v⟩] := by
  obtain ⟨hf1, hf2, hf3, hf4, hf5⟩ := hf
  have hoA : ToUpper op ≠ "AND".toList := isOperator_upper_ne hop (by decide)
  have hoO : ToUpper op ≠ "OR".toList := isOperator_upper_ne hop (by decide)
  have s1 : Step [n, f, op, v] Machine.init ⟨[Condition.zero], .stepNot, 0, 1⟩ :=
    Step.andOrFirst 0 n rfl (by rw [hn]; decide)
  have s2 : Step [n, f, op, v] ⟨[Condition.zero], .stepNot, 0, 1⟩
      ⟨[⟨[], true, [], [], none⟩], .stepField, 1, 1⟩ :=
    Step.notYes [] Condition.zero 0 n rfl hn
  have s3 : Step [n, f, op, v] ⟨[⟨[], true, [], [], none⟩], .stepField, 1, 1⟩
      ⟨[⟨[], true, f, [], none⟩], .stepOperator, 2, 1⟩ :=
    Step.fieldOp [] ⟨[], true, [], [], none⟩ 1 f rfl hf1 hf2 hf5 (by simp)
      (fun _ => by rw [@nextWordAt_some _ _ op rfl]; exact not_or.mpr ⟨hoA, hoO⟩)
  have s4 : Step [n, f, op, v] ⟨[⟨[], true, f, [], none⟩], .stepOperator, 2, 1⟩
      ⟨[⟨[], true, f, op, none⟩], .stepValue, 3, 1⟩ :=
    Step.operatorPlain [] ⟨[], true, f, [], none⟩ 2 op rfl hop (by simp)
  have s5 : Step [n, f, op, v] ⟨[⟨[], true, f, op, none⟩], .stepValue, 3, 1⟩
      ⟨[⟨[], true, f, op, some v⟩], .stepAndOr, 4, 1⟩ :=
    Step.value [] ⟨[], true, f, op, none⟩ 3 v rfl hv.1 hv.2 hv0
  have hs : steps [n, f, op, v] 5 Machine.init =
      some ⟨[⟨[], true, f, op, some v⟩], .stepAndOr, 4, 1⟩ := by
    rw [steps_succ 4 s1, steps_succ 3 s2, steps_succ 2 s3, steps_succ 1 s4, steps_succ 0 s5]
    rfl
  exact parseConditions_of_steps_exit hs (by simp)

/-! ## The regex branch on a single condition -/

theorem trimSuffix_space (s : Str) : TrimSuffix (s ++ " ".toList) " ".toList = s := by
  simp [TrimSuffix, HasPrefix]

theorem regexOp_noq {op : Str} (h : IsRegexOp op) : '?' ∉ op := by
  rcases h with h | h | h | h <;> subst h <;> decide

theorem render_regex_single (q f op v : Str) (hguard : firstForbidden q = none)
    (hparse : parseConditions (Fields q) = .ok [⟨[], false, f, op, some v⟩])
    (hop : IsRegexOp op) (hfq : '?' ∉ f) (hvq : '?' ∉ v) :
    render q = .ok (.ok ("SELECT * FROM cats WHERE ".toList ++ f ++ " ".toList ++ op ++
      " ".toList ++ v, [])) := by
  have hoq := regexOp_noq hop
  have hnq : '?' ∉ "SELECT * FROM cats WHERE ".toList ++ (f ++ " ".toList ++ op ++ " ".toList ++ v) := by
    simp only [List.mem_append, not_or]
    exact ⟨by decide, ⟨⟨⟨hfq, by decide⟩, hoq⟩, by decide⟩, hvq⟩
  have hq : newQuery [⟨[], false, f, op, some v⟩] =
      (f ++ " ".toList ++ op ++ " ".toList ++ v) ++ " ".toList := by
    simp [newQuery, Sprint, List.append_assoc]
  have hne : f ++ " ".toList ++ op ++ " ".toList ++ v ≠ [] := by simp
  have htr : translate [⟨[], false, f, op, some v⟩] [⟨[], false, f, op, some v⟩]
      (testQb.setPlaceholderFormat .Dollar) =
      ⟨.Dollar, ["*".toList], some "cats".toList,
        [.str (f ++ " ".toList ++ op ++ " ".toList ++ v)]⟩ := by
    have h0 : op ≠ [] := by rcases hop with h | h | h | h <;> subst h <;> decide
    have h1 : op ≠ "=".toList := by rcases hop with h | h | h | h <;> subst h <;> decide
    have h2 : op ≠ ">".toList := by rcases hop with h | h | h | h <;> subst h <;> decide
    have h3 : op ≠ "<".toList := by rcases hop with h | h | h | h <;> subst h <;> decide
    have h4 : op ≠ ">=".toList := by rcases hop with h | h | h | h <;> subst h <;> decide
    have h5 : op ≠ "<=".toList := by rcases hop with h | h | h | h <;> subst h <;> decide
    have h6 : op ≠ "!=".toList := by rcases hop with h | h | h | h <;> subst h <;> decide
    have h7 : op ≠ "<>".toList := by rcases hop with h | h | h | h <;> subst h <;> decide
    have h8 : ToUpper op ≠ "LIKE".toList := by
      rcases hop with h | h | h | h <;> subst h <;> decide
    have h9 : ToUpper op ≠ "ILIKE".toList := by
      rcases hop with h | h | h | h <;> subst h <;> decide
    have hop1 : op = "~".toList ∨ op = "~*".toList ∨ op = "!~".toList ∨ op = "!~*".toList := hop
    simp only [translate, h0, h1, h2, h3, h4, h5, h6, h7, h8, h9, hop1, ne_eq, not_false_eq_true,
      if_true, if_false, or_self, hq, trimSuffix_space]
    cases hfv : f ++ " ".toList ++ op ++ " ".toList ++ v with
    | nil => exact absurd hfv hne
    | cons a b => rfl
  simp only [render, Parse, hguard, hparse, htr, SelectBuilder.ToSql, SelectBuilder.toSqlRaw,
    appendToSql, Pred.ToSql]
  have hlen : ¬ ((f ++ " ".toList ++ op ++ " ".toList ++ v).length = 0) := by simp
  simp only [List.length_cons, List.length_nil, Nat.succ_ne_zero, if_false, gt_iff_lt,
    Nat.succ_pos, if_true, hlen, lt_self_iff_false, Nat.zero_add, Join,
    PlaceholderFormat.ReplacePlaceholders]
  rw [show "SELECT ".toList ++ "*".toList ++ " FROM ".toList ++ "cats".toList ++
      " WHERE ".toList ++ (f ++ " ".toList ++ op ++ " ".toList ++ v) =
      "SELECT * FROM cats WHERE ".toList ++ (f ++ " ".toList ++ op ++ " ".toList ++ v) from rfl,
    rp_noq _ _ _ hnq]
  simp [List.append_assoc]

/-! ## The claims -/

/-- C1 (amended). For every well-formed single-condition input `field OP value` whose
field contains no `?` and which contains no forbidden keyword, `Parse` succeeds.  The
rendered clause is `field OP $1` with the value as the sole bound parameter when `OP` is
one of `= > < >= <= <> LIKE ILIKE`; it is `field <> $1` with the value bound when `OP` is
`!=`; and when `OP` is one of the regex operators `~ ~* !~ !~*` it is the literal text
`field OP value` with no bound parameter (the value containing no `?`). -/
theorem C1_single_condition (q f op v : Str) (htok : Fields q = [f, op, v])
    (hguard : firstForbidden q = none) (hf : FieldToken f) (hfq : '?' ∉ f)
    (hv : ValueToken v) :
    (op ∈ ["=".toList, ">".toList, "<".toList, ">=".toList, "<=".toList, "<>".toList,
        "LIKE".toList, "ILIKE".toList] →
      render q = .ok (.ok ("SELECT * FROM cats WHERE ".toList ++ f ++ " ".toList ++ op ++
        " $1".toList, [v]))) ∧
    (op = "!=".toList →
      render q = .ok (.ok ("SELECT * FROM cats WHERE ".toList ++ f ++ " <> $1".toList, [v]))) ∧
    (IsRegexOp op → '?' ∉ v →
      render q = .ok (.ok ("SELECT * FROM cats WHERE ".toList ++ f ++ " ".toList ++ op ++
        " ".toList ++ v, []))) := by
  have hv0 : v ≠ [] := fields_ne_nil q v (by rw [htok]; simp)
  have hd : Nat.toDigits 10 1 = ['1'] := by decide
  have hL : ToUpper ['L', 'I', 'K', 'E'] = ['L', 'I', 'K', 'E'] := by decide
  have hI : ToUpper ['I', 'L', 'I', 'K', 'E'] = ['I', 'L', 'I', 'K', 'E'] := by decide
  have key : ∀ (hop : IsOperator op = true) (hr : ¬ IsRegexOp op),
      render q = .ok (.ok ("SELECT * FROM cats WHERE ".toList ++
        dollarText 1 ⟨[], false, f, op, some v⟩, argsOf [⟨[], false, f, op, some v⟩])) := by
    intro hop hr
    have hparse : parseConditions (Fields q) = .ok [⟨[], false, f, op, some v⟩] := by
      rw [htok]; exact parseConditions_single f op v hf hop hv hv0
    have h := render_chain q ⟨[], false, f, op, some v⟩ [] hguard hparse rfl
      (by simpa using hr)
    rw [rp_statement _ [] (by simpa using hfq)] at h
    simpa [dollarGroups] using h
  refine ⟨?_, ?_, ?_⟩
  · intro hop
    simp only [List.mem_cons, List.mem_singleton, List.not_mem_nil, or_false] at hop
    rcases hop with h | h | h | h | h | h | h | h <;> subst h <;>
      (rw [key (by decide) (by decide)];
       simp [dollarText, exprOf, kindOf, ExprKind.opr, argsOf, List.append_assoc, hd, hL, hI])
  · intro h
    subst h
    rw [key (by decide) (by decide)]
    simp [dollarText, exprOf, kindOf, ExprKind.opr, argsOf, List.append_assoc, hd, hL, hI]
  · intro hop hvq
    have hparse : parseConditions (Fields q) = .ok [⟨[], false, f, op, some v⟩] := by
      rw [htok]
      refine parseConditions_single f op v hf ?_ hv hv0
      rcases hop with h | h | h | h <;> subst h <;> decide
    exact render_regex_single q f op v hguard hparse hop hfq hvq

/-- Witness of C1: the first case of the test table, `Foo.Bar.X = 'hello'`. -/
theorem C1_single_condition_witness :
    Fields "Foo.Bar.X = 'hello'".toList = ["Foo.Bar.X".toList, "=".toList, "'hello'".toList] ∧
    firstForbidden "Foo.Bar.X = 'hello'".toList = none ∧
    FieldToken "Foo.Bar.X".toList ∧ '?' ∉ "Foo.Bar.X".toList ∧ ValueToken "'hello'".toList ∧
    render "Foo.Bar.X = 'hello'".toList =
      .ok (.ok ("SELECT * FROM cats WHERE Foo.Bar.X = $1".toList, ["'hello'".toList])) :=
  ⟨by decide, by decide, by decide, by decide, by decide,
    (C1_single_condition "Foo.Bar.X = 'hello'".toList "Foo.Bar.X".toList "=".toList
      "'hello'".toList (by decide) (by decide) (by decide) (by decide) (by decide)).1 (by decide)⟩

/-- C1 is false as stated: a regex operator yields the unparameterised text `a ~ b`, the
operator `!=` is rendered `<>`, and a `?` inside the field is itself numbered as a
placeholder.  All three inputs are well-formed single conditions. -/
theorem C1_counterexample :
    (Fields "a ~ b".toList = ["a".toList, "~".toList, "b".toList] ∧
      firstForbidden "a ~ b".toList = none ∧ FieldToken "a".toList ∧ ValueToken "b".toList ∧
      render "a ~ b".toList = .ok (.ok ("SELECT * FROM cats WHERE a ~ b".toList, [])) ∧
      render "a ~ b".toList ≠
        .ok (.ok ("SELECT * FROM cats WHERE a ~ $1".toList, ["b".toList]))) ∧
    (Fields "a != 1".toList = ["a".toList, "!=".toList, "1".toList] ∧
      firstForbidden "a != 1".toList = none ∧ ValueToken "1".toList ∧
      render "a != 1".toList =
        .ok (.ok ("SELECT * FROM cats WHERE a <> $1".toList, ["1".toList])) ∧
      render "a != 1".toList ≠
        .ok (.ok ("SELECT * FROM cats WHERE a != $1".toList, ["1".toList]))) ∧
    (Fields "a? = 1".toList = ["a?".toList, "=".toList, "1".toList] ∧
      firstForbidden "a? = 1".toList = none ∧ FieldToken "a?".toList ∧
      render "a? = 1".toList =
        .ok (.ok ("SELECT * FROM cats WHERE a$1 = $2".toList, ["1".toList])) ∧
      render "a? = 1".toList ≠
        .ok (.ok ("SELECT * FROM cats WHERE a? = $1".toList, ["1".toList]))) :=
  ⟨by decide, by decide, by decide⟩

theorem exprOf_val_eq (c : Condition) :
    (exprOf c).val = if c.Operator = [] then some "TRUE".toList else c.Value := by
  unfold exprOf; split <;> rfl

theorem argsOf_map : ∀ (cs : List Condition), (∀ c ∈ cs, Settled c) →
    (argsOf cs).map some =
      cs.map fun c => if c.Operator = [] then some "TRUE".toList else c.Value := by
  intro cs
  induction cs with
  | nil => intro _; rfl
  | cons c cs ih =>
    intro h
    obtain ⟨v, hv⟩ := exprOf_val (h c (by simp))
    rw [argsOf_cons hv, List.map_cons, List.map_cons, ih (fun d hd => h d (by simp [hd])),
      ← exprOf_val_eq, hv]

theorem argsOf_length {cs : List Condition} (h : ∀ c ∈ cs, Settled c) :
    (argsOf cs).length = cs.length := by
  have := congrArg List.length (argsOf_map cs h)
  simpa using this

/-- C3 is false as stated: the accepted one-condition chain `a? = 1` has no regex
operator and binds one parameter, yet the rendered text carries the placeholders `$1`
and `$2`, and the placeholder of the only parameter is `$2`. -/
theorem C3_counterexample :
    firstForbidden "a? = 1".toList = none ∧
    parseConditions (Fields "a? = 1".toList) =
      .ok [⟨[], false, "a?".toList, "=".toList, some "1".toList⟩] ∧
    render "a? = 1".toList =
      .ok (.ok ("SELECT * FROM cats WHERE a$1 = $2".toList, ["1".toList])) ∧
    render "a? = 1".toList ≠
      .ok (.ok ("SELECT * FROM cats WHERE a? = $1".toList, ["1".toList])) := by
  decide

theorem dollarGroups_append : ∀ (a b : List Condition) (k : Nat),
    dollarGroups k (a ++ b) = dollarGroups k a ++ dollarGroups (k + a.length) b := by
  intro a
  induction a with
  | nil => intro b k; simp [dollarGroups]
  | cons c a ih =>
    intro b k
    rw [List.cons_append]
    simp only [dollarGroups, List.length_cons]
    rw [ih b (k + 1), show k + 1 + a.length = k + (a.length + 1) by omega]
    simp only [List.append_assoc]

theorem dollarText_bare (k : Nat) {c : Condition} (h : c.Operator = []) :
    dollarText k c =
      c.Field ++ (if c.Not then " <> $".toList else " = $".toList) ++ Nat.toDigits 10 k := by
  cases hn : c.Not <;> simp [dollarText, exprOf, h, hn, ExprKind.opr, List.append_assoc]

/-- C7 is false as stated: in the accepted chain `b ~ x AND a AND c = 1` the bare field
`a` is followed by `AND` and a further condition, yet the regex operator of the first
condition turns the whole list into literal text: `a` is not rendered `a = $k` and no
parameter, so no `TRUE`, is bound. -/
theorem C7_counterexample :
    firstForbidden "b ~ x AND a AND c = 1".toList = none ∧
    parseConditions (Fields "b ~ x AND a AND c = 1".toList) =
      .ok [⟨[], false, "b".toList, "~".toList, some "x".toList⟩,
        ⟨"AND".toList, false, "a".toList, [], none⟩,
        ⟨"AND".toList, false, "c".toList, "=".toList, some "1".toList⟩] ∧
    render "b ~ x AND a AND c = 1".toList =
      .ok (.ok ("SELECT * FROM cats WHERE b ~ x AND a  <nil> AND c = 1".toList, [])) := by
  decide

/-- C4 (defect in the code). A regex operator in a later condition does not replace the
clause list: the expressions of the earlier conditions stay attached and stay
parameterised, and the literal text of the whole list is added after them. -/
theorem C4_regex_after_condition :
    Parse "a = 1 AND b ~ x".toList testQb =
      .ok ⟨.Dollar, ["*".toList], some "cats".toList,
        [.expr ⟨.Eq, "a".toList, some "1".toList⟩, .str "a = 1 AND b ~ x".toList]⟩ ∧
    render "a = 1 AND b ~ x".toList =
      .ok (.ok ("SELECT * FROM cats WHERE a = $1 AND a = 1 AND b ~ x".toList, ["1".toList])) := by
  decide

/-- C5 (defect in the code). The compound operator built for `NOT LIKE` is overwritten by
the plain `LIKE` token in the same iteration, so `f NOT LIKE x` is rendered `f LIKE $1`
while `NOT f LIKE x` is rendered `f NOT LIKE $1`. -/
theorem C5_not_like_lost :
    parseConditions (Fields "f NOT LIKE x".toList) =
      .ok [⟨[], false, "f".toList, "LIKE".toList, some "x".toList⟩] ∧
    render "f NOT LIKE x".toList =
      .ok (.ok ("SELECT * FROM cats WHERE f LIKE $1".toList, ["x".toList])) ∧
    render "NOT f LIKE x".toList =
      .ok (.ok ("SELECT * FROM cats WHERE f NOT LIKE $1".toList, ["x".toList])) := by
  decide

/-- C8 (amended). The input `Foo.Bar.Beta > 21 AND Alpha.Bar != 'hello'` on the builder
selecting `*` from `cats` renders
`SELECT * FROM cats WHERE Foo.Bar.Beta > $1 AND (Alpha.Bar <> $2)` with the bound
parameters `21` and `'hello'`, the second with its quote characters. -/
theorem C8_example :
    render "Foo.Bar.Beta > 21 AND Alpha.Bar != 'hello'".toList =
      .ok (.ok ("SELECT * FROM cats WHERE Foo.Bar.Beta > $1 AND (Alpha.Bar <> $2)".toList,
        ["21".toList, "'hello'".toList])) := by
  decide

/-- C8 is false as stated: the second bound parameter is not `hello`. -/
theorem C8_counterexample :
    render "Foo.Bar.Beta > 21 AND Alpha.Bar != 'hello'".toList ≠
      .ok (.ok ("SELECT * FROM cats WHERE Foo.Bar.Beta > $1 AND (Alpha.Bar <> $2)".toList,
        ["21".toList, "hello".toList])) := by
  decide

/-! ## The keyword guard -/

theorem hasPrefix_iff : ∀ (s p : Str), HasPrefix s p = true ↔ ∃ b, s = p ++ b := by
  intro s p
  induction p generalizing s with
  | nil => cases s <;> simp [HasPrefix]
  | cons d p ih =>
    cases s with
    | nil => simp [HasPrefix]
    | cons c s =>
      simp only [HasPrefix, Bool.and_eq_true, decide_eq_true_eq, ih, List.cons_append,
        List.cons.injEq]
      constructor
      · rintro ⟨rfl, b, rfl⟩; exact ⟨b, rfl, rfl⟩
      · rintro ⟨b, rfl, rfl⟩; exact ⟨rfl, b, rfl⟩

/-- The model of `strings.Contains` is the substring relation. -/
theorem contains_iff : ∀ (s sub : Str), Contains s sub = true ↔ ∃ a b, s = a ++ sub ++ b := by
  intro s sub
  induction s with
  | nil =>
    simp only [Contains, hasPrefix_iff]
    constructor
    · rintro ⟨b, h⟩; exact ⟨[], b, by simpa using h⟩
    · rintro ⟨a, b, h⟩
      have h1 : a = [] := by
        cases a with
        | nil => rfl
        | cons x a => simp at h
      subst h1
      exact ⟨b, by simpa using h⟩
  | cons c s ih =>
    simp only [Contains, Bool.or_eq_true, hasPrefix_iff, ih]
    constructor
    · rintro (⟨b, h⟩ | ⟨a, b, h⟩)
      · exact ⟨[], b, by simpa using h⟩
      · exact ⟨c :: a, b, by simp [h]⟩
    · rintro ⟨a, b, h⟩
      cases a with
      | nil => exact Or.inl ⟨b, by simpa using h⟩
      | cons x a =>
        simp only [List.cons_append, List.cons.injEq] at h
        exact Or.inr ⟨a, b, h.2⟩

theorem iterate_error_head {qs : List Str} {m : Machine} {e : Str}
    (h : iterate qs m = .error e) : e.head? = some 'n' ∨ e.head? = some 'u' := by
  unfold iterate at h
  simp only [doAndOr, doNot, doField, doOperator, doOperatorTail, doValue] at h
  repeat' split at h
  all_goals first
    | (injection h; done)
    | (injection h with h; subst h; simp)

theorem loop_error_head (qs : List Str) : ∀ (n : Nat) (m : Machine) (e : Str),
    loop qs n m = .error e → e.head? = some 'n' ∨ e.head? = some 'u' := by
  intro n
  induction n with
  | zero => intro m e h; simp [loop] at h
  | succ n ih =>
    intro m e h
    by_cases hlt : m.wn < qs.length
    · cases hit : iterate qs m with
      | ok m1 => rw [loop_step n hlt hit] at h; exact ih m1 e h
      | error e1 =>
        rw [loop_error n hlt hit] at h
        injection h with h; subst h
        exact iterate_error_head hit
      | fault => simp [loop, hlt, hit] at h
      | diverge => simp [loop, hlt, hit] at h
    · rw [loop_exit n hlt] at h; cases h

theorem guardError_inj {w u : Str} (h : guardError w = guardError u) : w = u :=
  List.append_cancel_left h

theorem parse_guard_some {q w : Str} (qb : SelectBuilder) (h : firstForbidden q = some w) :
    Parse q qb = .error (guardError w) := by
  simp [Parse, h]

theorem parse_guard_none {q : Str} (qb : SelectBuilder) (h : firstForbidden q = none)
    (w : Str) : Parse q qb ≠ .error (guardError w) := by
  intro hp
  simp only [Parse, h] at hp
  cases hs : parseConditions (Fields q) with
  | ok cs => rw [hs] at hp; cases hp
  | error e =>
    rw [hs] at hp
    injection hp with hp
    have hh := loop_error_head _ _ _ _ hs
    rw [hp] at hh
    revert hh
    simp [guardError]
  | fault => rw [hs] at hp; cases hp
  | diverge => rw [hs] at hp; cases hp

theorem parse_guard_iff (q w : Str) (qb : SelectBuilder) :
    Parse q qb = .error (guardError w) ↔ firstForbidden q = some w := by
  constructor
  · intro h
    cases hf : firstForbidden q with
    | none => exact absurd h (parse_guard_none qb hf w)
    | some u =>
      rw [parse_guard_some qb hf] at h
      injection h with h
      rw [guardError_inj h]
  · exact parse_guard_some qb

/-- C9. `Parse` returns the error of the keyword guard exactly when the raw input
contains, as a substring anywhere, at least one of the keywords of `forbiddenSQLWords`
(`WHERE SELECT INSERT UPDATE DELETE VALUES FROM GROUP HAVING WINDOW ALL DISTINCT ORDER
LIMIT OFFSET FETCH FOR SET`, compared character by character), whatever the tokens are; the
message is `input string should have only WHERE part of the SQL query, but it has <kw>`
where `<kw>` is the first keyword, in list order, that occurs in the input. -/
theorem C9_keyword_guard (q : Str) (qb : SelectBuilder) :
    forbiddenSQLWords.length = 18 ∧
    ((∃ w, Parse q qb = .error (guardError w)) ↔
      ∃ w ∈ forbiddenSQLWords, ∃ a b, q = a ++ w ++ b) ∧
    (∀ w, Parse q qb = .error (guardError w) ↔
      ∃ pre post, forbiddenSQLWords = pre ++ w :: post ∧ (∃ a b, q = a ++ w ++ b) ∧
        ∀ u ∈ pre, ¬ ∃ a b, q = a ++ u ++ b) ∧
    (∀ w, guardError w =
      "input string should have only WHERE part of the SQL query, but it has ".toList ++ w) := by
  have key : ∀ w, Parse q qb = .error (guardError w) ↔
      ∃ pre post, forbiddenSQLWords = pre ++ w :: post ∧ (∃ a b, q = a ++ w ++ b) ∧
        ∀ u ∈ pre, ¬ ∃ a b, q = a ++ u ++ b := by
    intro w
    rw [parse_guard_iff, firstForbidden, List.find?_eq_some]
    constructor
    · rintro ⟨hc, pre, post, he, hpre⟩
      refine ⟨pre, post, he, (contains_iff q w).1 hc, ?_⟩
      intro u hu hex
      have := hpre u hu
      rw [(contains_iff q u).2 hex] at this
      simp at this
    · rintro ⟨pre, post, he, hc, hpre⟩
      refine ⟨(contains_iff q w).2 hc, pre, post, he, ?_⟩
      intro u hu
      have : ¬ Contains q u = true := fun h => hpre u hu ((contains_iff q u).1 h)
      simpa using this
  refine ⟨rfl, ?_, key, fun _ => rfl⟩
  constructor
  · rintro ⟨w, hw⟩
    obtain ⟨pre, post, he, hc, _⟩ := (key w).1 hw
    exact ⟨w, by rw [he]; simp, hc⟩
  · rintro ⟨w, hw, hc⟩
    have hex : ∃ u ∈ forbiddenSQLWords, Contains q u = true :=
      ⟨w, hw, (contains_iff q w).2 hc⟩
    cases hf : firstForbidden q with
    | none =>
      rw [firstForbidden, List.find?_eq_none] at hf
      obtain ⟨u, hu, hcu⟩ := hex
      exact absurd hcu (hf u hu)
    | some u => exact ⟨u, parse_guard_some qb hf⟩

/-! ## An accepted input followed by further tokens -/

theorem loop_ok_steps (qs : List Str) : ∀ (n : Nat) (m : Machine) (cs : List Condition),
    loop qs n m = .ok cs →
    ∃ k mf, steps qs k m = some mf ∧ ¬ mf.wn < qs.length ∧ mf.conditions = cs := by
  intro n
  induction n with
  | zero => intro m cs h; simp [loop] at h
  | succ n ih =>
    intro m cs h
    by_cases hlt : m.wn < qs.length
    · cases hit : iterate qs m with
      | ok m1 =>
        rw [loop_step n hlt hit] at h
        obtain ⟨k, mf, hk, hge, hc⟩ := ih m1 cs h
        exact ⟨k + 1, mf, by simp only [steps, hlt, if_true, hit, hk], hge, hc⟩
      | error e => rw [loop_error n hlt hit] at h; cases h
      | fault => simp [loop, hlt, hit] at h
      | diverge => simp [loop, hlt, hit] at h
    · rw [loop_exit n hlt] at h
      injection h with h
      exact ⟨0, m, rfl, hlt, h⟩

theorem steps_succ_inv {qs : List Str} {k : Nat} {m mf : Machine}
    (h : steps qs (k + 1) m = some mf) :
    m.wn < qs.length ∧ ∃ m1, iterate qs m = .ok m1 ∧ steps qs k m1 = some mf := by
  simp only [steps] at h
  split at h
  · rename_i hlt
    split at h
    · rename_i m1 hit
      exact ⟨hlt, m1, hit, h⟩
    · cases h
  · cases h

theorem steps_inv (qs : List Str) : ∀ (k : Nat) (m mf : Machine),
    steps qs k m = some mf → Inv qs m → Inv qs mf := by
  intro k
  induction k with
  | zero => intro m mf h hi; simp only [steps, Option.some.injEq] at h; subst h; exact hi
  | succ k ih =>
    intro m mf h hi
    obtain ⟨_, m1, hit, hk⟩ := steps_succ_inv h
    exact ih m1 mf hk (step_inv (iterate_step hit hi.1) hi)

theorem step_wn_le {qs : List Str} {m m1 : Machine} (h : Step qs m m1) :
    m1.wn ≤ qs.length := by
  cases h with
  | andOrFirst wn tok h1 h2 => exact Nat.le_of_lt (getElem?_lt h1)
  | andOrConj cs wn tok h1 h2 h3 => exact Nat.le_of_lt h3
  | notYes init c wn tok h1 h2 => exact getElem?_lt h1
  | notNo init c wn tok h1 h2 => exact Nat.le_of_lt (getElem?_lt h1)
  | fieldBare init c wn tok h1 h2 h3 h4 h5 h6 => exact getElem?_lt h1
  | fieldOp init c wn tok h1 h2 h3 h4 h5 h6 => exact Nat.le_of_lt h5
  | operatorPlain init c wn tok h1 h2 h3 => exact Nat.le_of_lt h3
  | operatorNotLike init c wn tok t2 h1 h2 h3 h4 h5 h6 => exact Nat.le_of_lt h6
  | value init c wn tok h1 h2 h3 h4 => exact getElem?_lt h1

theorem steps_wn_le (qs : List Str) : ∀ (k : Nat) (m mf : Machine),
    steps qs k m = some mf → Inv qs m → m.wn ≤ qs.length → mf.wn ≤ qs.length := by
  intro k
  induction k with
  | zero => intro m mf h _ hw; simp only [steps, Option.some.injEq] at h; subst h; exact hw
  | succ k ih =>
    intro m mf h hi _
    obtain ⟨_, m1, hit, hk⟩ := steps_succ_inv h
    have hs := iterate_step hit hi.1
    exact ih m1 mf hk (step_inv hs hi) (step_wn_le hs)

theorem getElem?_append_some {pre ext : List Str} {i : Nat} {a : Str}
    (h : pre[i]? = some a) : (pre ++ ext)[i]? = some a := by
  rw [List.getElem?_append_left (getElem?_lt h)]; exact h

theorem nextWordAt_append {pre : List Str} (ext : List Str) {wn : Nat}
    (h : wn + 1 < pre.length) : nextWordAt (pre ++ ext) wn = nextWordAt pre wn := by
  have h2 : wn + 1 < (pre ++ ext).length := by simp; omega
  simp only [nextWordAt, h, h2, if_true, List.getElem?_append_left h]

/-- The token read in state OPERATOR by a successful iteration is an operator of the
table or `NOT`. -/
theorem step_operator_tok {qs : List Str} {m m1 : Machine} (h : Step qs m m1)
    (hs : m.step = .stepOperator) :
    ∃ tok, qs[m.wn]? = some tok ∧ (IsOperator tok = true ∨ ToUpper tok = "NOT".toList) := by
  cases h <;> first
    | (simp only at hs; cases hs; done)
    | skip
  · rename_i init c wn tok h1 h2 h3
    exact ⟨tok, h1, Or.inl h2⟩
  · rename_i init c wn tok t2 h1 h2 h3 h4 h5 h6
    exact ⟨tok, h1, Or.inr h2⟩

/-- A step on the tokens `pre` is a step on `pre ++ ext`, provided that a step into state
OPERATOR is followed by the reading of an operator. -/
theorem step_extend {pre : List Str} (ext : List Str) {m m1 : Machine} (h : Step pre m m1)
    (hnext : m1.step = .stepOperator → m1.wn < pre.length →
      ∃ tok, pre[m1.wn]? = some tok ∧ (IsOperator tok = true ∨ ToUpper tok = "NOT".toList)) :
    Step (pre ++ ext) m m1 := by
  have hlen : pre.length ≤ (pre ++ ext).length := by simp
  cases h with
  | andOrFirst wn tok h1 h2 => exact Step.andOrFirst wn tok (getElem?_append_some h1) h2
  | andOrConj cs wn tok h1 h2 h3 =>
    exact Step.andOrConj cs wn tok (getElem?_append_some h1) h2 (by omega)
  | notYes init c wn tok h1 h2 => exact Step.notYes init c wn tok (getElem?_append_some h1) h2
  | notNo init c wn tok h1 h2 => exact Step.notNo init c wn tok (getElem?_append_some h1) h2
  | fieldBare init c wn tok h1 h2 h3 h4 h5 h6 =>
    refine Step.fieldBare init c wn tok (getElem?_append_some h1) h2 h3 h4 (by omega) ?_
    rw [nextWordAt_append ext (by omega)]; exact h6
  | fieldOp init c wn tok h1 h2 h3 h4 h5 h6 =>
    refine Step.fieldOp init c wn tok (getElem?_append_some h1) h2 h3 h4 (by omega) ?_
    intro _
    obtain ⟨t2, ht2, hop⟩ := hnext rfl h5
    rw [nextWordAt_some (getElem?_append_some ht2)]
    rcases hop with hop | hop
    · exact not_or.mpr ⟨isOperator_upper_ne hop (by decide), isOperator_upper_ne hop (by decide)⟩
    · rw [hop]; decide
  | operatorPlain init c wn tok h1 h2 h3 =>
    exact Step.operatorPlain init c wn tok (getElem?_append_some h1) h2 (by omega)
  | operatorNotLike init c wn tok t2 h1 h2 h3 h4 h5 h6 =>
    exact Step.operatorNotLike init c wn tok t2 (getElem?_append_some h1) h2
      (getElem?_append_some h3) h4 h5 (by omega)
  | value init c wn tok h1 h2 h3 h4 =>
    exact Step.value init c wn tok (getElem?_append_some h1) h2 h3 h4

/-- A run on `pre` that reaches the end of `pre` is a run on `pre ++ ext`. -/
theorem steps_extend (pre ext : List Str) : ∀ (k : Nat) (m mf : Machine),
    Inv pre m → steps pre k m = some mf → ¬ mf.wn < pre.length →
    steps (pre ++ ext) k m = some mf := by
  intro k
  induction k with
  | zero => intro m mf _ h _; simpa [steps] using h
  | succ k ih =>
    intro m mf hi h hge
    obtain ⟨_, m1, hit, hk⟩ := steps_succ_inv h
    have hs := iterate_step hit hi.1
    have hi1 := step_inv hs hi
    have hs2 : Step (pre ++ ext) m m1 := by
      apply step_extend ext hs
      intro hst hlt
      cases k with
      | zero =>
        simp only [steps, Option.some.injEq] at hk
        subst hk
        exact absurd hlt hge
      | succ k =>
        obtain ⟨_, m2, hit2, _⟩ := steps_succ_inv hk
        exact step_operator_tok (iterate_step hit2 hi1.1) hst
    rw [steps_succ k hs2]
    exact ih m1 mf hi1 hk hge

/-- After an accepted input whose last condition has an operator, the machine stands in
state AND_OR behind the last token, also when further tokens follow. -/
theorem prefix_reaches (pre ext : List Str) (cs : List Condition)
    (hpre : parseConditions pre = .ok cs)
    (hlast : ∃ c, cs.getLast? = some c ∧ c.Operator ≠ []) :
    ∃ k, steps (pre ++ ext) k Machine.init =
      some ⟨cs, .stepAndOr, pre.length, cs.length⟩ := by
  obtain ⟨k, mf, hk, hge, hc⟩ := loop_ok_steps pre _ _ cs hpre
  have hi := steps_inv pre k _ mf hk (inv_init pre)
  have hw := steps_wn_le pre k _ mf hk (inv_init pre) (by simp [Machine.init])
  refine ⟨k, ?_⟩
  rw [steps_extend pre ext k _ mf (inv_init pre) hk hge]
  obtain ⟨cs1, st, wn, cn⟩ := mf
  simp only at hc hge hw
  subst hc
  obtain ⟨hcn, _, hst⟩ := hi
  simp only at hcn
  obtain ⟨c, hcl, hco⟩ := hlast
  have hwn : wn = pre.length := by omega
  have bare_absurd : ∀ init d, cs1 = init ++ [d] → d.Operator = [] → False := by
    intro init d he hd
    rw [he, List.getLast?_concat] at hcl
    injection hcl with hcl
    subst hcl
    exact hco hd
  cases st with
  | stepAndOr => simp [hcn, hwn]
  | stepValue =>
    obtain ⟨init, d, he, _, _, _, hlt⟩ := hst
    exact absurd hlt hge
  | stepNot =>
    obtain ⟨init, d, he, _, ho, _⟩ := hst
    exact absurd ho (fun ho => bare_absurd init d he ho)
  | stepField =>
    obtain ⟨init, d, he, _, ho, _⟩ := hst
    exact absurd ho (fun ho => bare_absurd init d he ho)
  | stepOperator =>
    obtain ⟨init, d, he, _, ho, _⟩ := hst
    exact absurd ho (fun ho => bare_absurd init d he ho)

theorem iterate_andOr_missing {qs : List Str} {cs : List Condition} {wn cn : Nat} {t : Str}
    (h : qs[wn]? = some t) (hA : ToUpper t ≠ "AND".toList) (hO : ToUpper t ≠ "OR".toList)
    (hcs : cs ≠ []) :
    iterate qs ⟨cs, .stepAndOr, wn, cn⟩ =
      .error ("next condition should start from AND/OR, got: ".toList ++ t) := by
  have hlen : cs.length > 0 := List.length_pos.mpr hcs
  simp only [iterate, doAndOr, h, hA, hO, or_self, if_false, hlen, if_true]

/-- C10 (amended). For every input that contains no forbidden keyword and in which a
complete condition is followed by a token `t` that is not `AND` or `OR` in any letter
case (the tokens before `t` are themselves an accepted input whose last condition has an
operator, hence a value), `Parse` fails with the error
`next condition should start from AND/OR, got: t`, `t` in its original spelling, and
returns no builder. -/
theorem C10_missing_conjunction (q : Str) (qb : SelectBuilder) (pre post : List Str)
    (t : Str) (cs : List Condition)
    (hguard : firstForbidden q = none)
    (htok : Fields q = pre ++ t :: post)
    (hpre : parseConditions pre = .ok cs)
    (hlast : ∃ c, cs.getLast? = some c ∧ c.Operator ≠ [])
    (hA : ToUpper t ≠ "AND".toList) (hO : ToUpper t ≠ "OR".toList) :
    Parse q qb = .error ("next condition should start from AND/OR, got: ".toList ++ t) := by
  obtain ⟨k, hk⟩ := prefix_reaches pre (t :: post) cs hpre hlast
  have hcs : cs ≠ [] := by
    obtain ⟨c, hc, _⟩ := hlast
    intro e; subst e; simp at hc
  have hget : (pre ++ t :: post)[pre.length]? = some t := by
    rw [List.getElem?_append_right (Nat.le_refl _)]; simp
  have herr := parseConditions_of_steps_error hk (by simp)
    (iterate_andOr_missing hget hA hO hcs)
  simp only [Parse, hguard, htok, herr]

/-- Witness of C10: the test case `Foo.Bar.Beta > 21 Alpha.Bar != 'hello'`. -/
theorem C10_missing_conjunction_witness :
    firstForbidden "Foo.Bar.Beta > 21 Alpha.Bar != 'hello'".toList = none ∧
    Fields "Foo.Bar.Beta > 21 Alpha.Bar != 'hello'".toList =
      ["Foo.Bar.Beta".toList, ">".toList, "21".toList] ++ "Alpha.Bar".toList ::
        ["!=".toList, "'hello'".toList] ∧
    parseConditions ["Foo.Bar.Beta".toList, ">".toList, "21".toList] =
      .ok [⟨[], false, "Foo.Bar.Beta".toList, ">".toList, some "21".toList⟩] ∧
    ToUpper "Alpha.Bar".toList ≠ "AND".toList ∧ ToUpper "Alpha.Bar".toList ≠ "OR".toList ∧
    Parse "Foo.Bar.Beta > 21 Alpha.Bar != 'hello'".toList testQb =
      .error "next condition should start from AND/OR, got: Alpha.Bar".toList :=
  ⟨by decide, by decide, by decide, by decide, by decide,
    C10_missing_conjunction "Foo.Bar.Beta > 21 Alpha.Bar != 'hello'".toList testQb
      ["Foo.Bar.Beta".toList, ">".toList, "21".toList] ["!=".toList, "'hello'".toList]
      "Alpha.Bar".toList [⟨[], false, "Foo.Bar.Beta".toList, ">".toList, some "21".toList⟩]
      (by decide) (by decide) (by decide) ⟨_, rfl, by decide⟩ (by decide) (by decide)⟩

/-- C10 is false as stated: in `a = 1 FORMAT` the complete condition `a = 1` is followed
by the token `FORMAT`, which is not `AND` or `OR`, yet `Parse` fails with the error of the
keyword guard, because `FORMAT` contains `FOR`. -/
theorem C10_counterexample :
    Fields "a = 1 FORMAT".toList = ["a".toList, "=".toList, "1".toList] ++ ["FORMAT".toList] ∧
    parseConditions ["a".toList, "=".toList, "1".toList] =
      .ok [⟨[], false, "a".toList, "=".toList, some "1".toList⟩] ∧
    ToUpper "FORMAT".toList ≠ "AND".toList ∧ ToUpper "FORMAT".toList ≠ "OR".toList ∧
    Parse "a = 1 FORMAT".toList testQb =
      .error "input string should have only WHERE part of the SQL query, but it has FOR".toList ∧
    Parse "a = 1 FORMAT".toList testQb ≠
      .error "next condition should start from AND/OR, got: FORMAT".toList := by
  decide

/-! ## The keyword guard depends on the tokens only -/

theorem hasPrefix_append_sep : ∀ (a w : Str) (c : Char) (b : Str), c ∉ w →
    HasPrefix (a ++ c :: b) w = HasPrefix a w := by
  intro a
  induction a with
  | nil =>
    intro w c b hc
    cases w with
    | nil => rfl
    | cons d w =>
      simp only [List.mem_cons, not_or] at hc
      simp [HasPrefix, hc.1]
  | cons x a ih =>
    intro w c b hc
    cases w with
    | nil => rfl
    | cons d w =>
      simp only [List.mem_cons, not_or] at hc
      show HasPrefix (x :: (a ++ c :: b)) (d :: w) = HasPrefix (x :: a) (d :: w)
      simp only [HasPrefix]
      rw [ih w c b hc.2]

/-- A word without the character `c` occurs in `a ++ c :: b` only inside `a` or inside
`b`. -/
theorem contains_append_sep : ∀ (a w : Str) (c : Char) (b : Str), c ∉ w →
    Contains (a ++ c :: b) w = (Contains a w || Contains b w) := by
  intro a
  induction a with
  | nil =>
    intro w c b hc
    have := hasPrefix_append_sep [] w c b hc
    simp only [List.nil_append] at this
    simp only [List.nil_append, Contains, this]
  | cons x a ih =>
    intro w c b hc
    have := hasPrefix_append_sep (x :: a) w c b hc
    show Contains (x :: (a ++ c :: b)) w = (Contains (x :: a) w || Contains b w)
    simp only [Contains]
    rw [show x :: (a ++ c :: b) = (x :: a) ++ c :: b from rfl, this, ih w c b hc,
      Bool.or_assoc]

theorem contains_fieldsAux (w : Str) (hw : w ≠ []) (hsp : ∀ c ∈ w, isSpace c = false) :
    ∀ (s cur : Str),
      Contains (cur.reverse ++ s) w = (fieldsAux s cur).any fun t => Contains t w := by
  have hnil : Contains [] w = false := by
    cases w with
    | nil => exact absurd rfl hw
    | cons d w => rfl
  intro s
  induction s with
  | nil =>
    intro cur
    by_cases hc : cur = []
    · subst hc; simp [fieldsAux, hnil]
    · simp [fieldsAux, hc]
  | cons c s ih =>
    intro cur
    by_cases hs : isSpace c = true
    · have hcw : c ∉ w := fun hm => by
        have := hsp c hm
        rw [hs] at this
        cases this
      have h0 := ih []
      simp only [List.reverse_nil, List.nil_append] at h0
      rw [contains_append_sep _ w c s hcw, h0]
      by_cases hc : cur = []
      · subst hc; simp [fieldsAux, hs, hnil]
      · simp [fieldsAux, hs, hc]
    · have h1 := ih (c :: cur)
      simp only [List.reverse_cons, List.append_assoc, List.singleton_append] at h1
      simp only [fieldsAux, hs, Bool.false_eq_true, if_false, h1]

/-- A word without white space occurs in the input exactly when it occurs in one of the
tokens. -/
theorem contains_fields (q w : Str) (hw : w ≠ []) (hsp : ∀ c ∈ w, isSpace c = false) :
    Contains q w = (Fields q).any fun t => Contains t w := by
  have := contains_fieldsAux w hw hsp q []
  simpa [Fields] using this

theorem find?_congr_mem {α : Type} {p r : α → Bool} : ∀ (l : List α),
    (∀ a ∈ l, p a = r a) → l.find? p = l.find? r := by
  intro l
  induction l with
  | nil => intro _; rfl
  | cons a l ih =>
    intro h
    simp only [List.find?, h a (by simp), ih (fun b hb => h b (by simp [hb]))]

/-- The outcome of the keyword guard is determined by the tokens of the input. -/
theorem firstForbidden_tokens (q : Str) :
    firstForbidden q =
      forbiddenSQLWords.find? fun w => (Fields q).any fun t => Contains t w := by
  apply find?_congr_mem
  intro w hw
  have h : ∀ u ∈ forbiddenSQLWords, u ≠ [] ∧ ∀ c ∈ u, isSpace c = false := by decide
  exact contains_fields q w (h w hw).1 (h w hw).2

/-! ## Negation by complement -/

theorem parse_single_expr (q : Str) (c : Condition) (hguard : firstForbidden q = none)
    (hparse : parseConditions (Fields q) = .ok [c]) (hA : c.AndOr = [])
    (hr : ¬ IsRegexOp c.Operator) :
    Parse q testQb = .ok ⟨.Dollar, ["*".toList], some "cats".toList, [.expr (exprOf c)]⟩ := by
  rw [parse_structured q [c] testQb hguard hparse (by simpa using hA) (by simpa using hr)]
  simp [testQb, Select, SelectBuilder.from, partOf, hA]

theorem negation_guard (q1 q2 f op op' v : Str)
    (h1 : Fields q1 = ["NOT".toList, f, op, v]) (h2 : Fields q2 = [f, op', v])
    (hns : ∀ w ∈ forbiddenSQLWords, Contains op w = false ∧ Contains op' w = false) :
    firstForbidden q1 = firstForbidden q2 := by
  rw [firstForbidden_tokens q1, firstForbidden_tokens q2, h1, h2]
  apply find?_congr_mem
  intro w hw
  have hN : ∀ u ∈ forbiddenSQLWords, Contains "NOT".toList u = false := by decide
  simp only [List.any_cons, List.any_nil, Bool.or_false, hN w hw, (hns w hw).1, (hns w hw).2,
    Bool.false_or]

theorem negation_pair (q1 q2 f op op' v : Str) (kind : ExprKind)
    (h1 : Fields q1 = ["NOT".toList, f, op, v]) (h2 : Fields q2 = [f, op', v])
    (hf : FieldToken f) (hv : ValueToken v)
    (hns : ∀ w ∈ forbiddenSQLWords, Contains op w = false ∧ Contains op' w = false)
    (hops : (IsOperator op = true ∧ ¬ IsRegexOp op ∧ op ≠ [] ∧ kindOf op true = kind) ∧
      (IsOperator op' = true ∧ ¬ IsRegexOp op' ∧ op' ≠ [] ∧ kindOf op' false = kind) ∧
      kind.opr = op') :
    Parse q1 testQb = Parse q2 testQb ∧ render q1 = render q2 ∧
    (firstForbidden q2 = none →
      ∃ kind : ExprKind, kind.opr = op' ∧
        Parse q2 testQb =
          .ok ⟨.Dollar, ["*".toList], some "cats".toList, [.expr ⟨kind, f, some v⟩]⟩ ∧
        render q2 = .ok (.ok (PlaceholderFormat.Dollar.ReplacePlaceholders
          ("SELECT * FROM cats WHERE ".toList ++ f ++ " ".toList ++ op' ++ " ?".toList),
          [v]))) := by
  obtain ⟨⟨hop, hr, ho, e1⟩, ⟨hop', hr', ho', e2⟩, hk⟩ := hops
  have hg := negation_guard q1 q2 f op op' v h1 h2 hns
  have hv0 : v ≠ [] := fields_ne_nil q2 v (by rw [h2]; simp)
  have hp1 : parseConditions (Fields q1) = .ok [⟨[], true, f, op, some v⟩] := by
    rw [h1]; exact parseConditions_single_not _ f op v (by decide) hf hop hv hv0
  have hp2 : parseConditions (Fields q2) = .ok [⟨[], false, f, op', some v⟩] := by
    rw [h2]; exact parseConditions_single f op' v hf hop' hv hv0
  have x1 : exprOf ⟨[], true, f, op, some v⟩ = ⟨kind, f, some v⟩ := by
    simp [exprOf, ho, e1]
  have x2 : exprOf ⟨[], false, f, op', some v⟩ = ⟨kind, f, some v⟩ := by
    simp [exprOf, ho', e2]
  have main : firstForbidden q2 = none →
      Parse q1 testQb =
        .ok ⟨.Dollar, ["*".toList], some "cats".toList, [.expr ⟨kind, f, some v⟩]⟩ ∧
      Parse q2 testQb =
        .ok ⟨.Dollar, ["*".toList], some "cats".toList, [.expr ⟨kind, f, some v⟩]⟩ := by
    intro hg2
    have hg1 : firstForbidden q1 = none := by rw [hg, hg2]
    have P1 := parse_single_expr q1 _ hg1 hp1 rfl hr
    have P2 := parse_single_expr q2 _ hg2 hp2 rfl hr'
    rw [x1] at P1
    rw [x2] at P2
    exact ⟨P1, P2⟩
  have hP : Parse q1 testQb = Parse q2 testQb := by
    cases hg2 : firstForbidden q2 with
    | none => rw [(main hg2).1, (main hg2).2]
    | some w =>
      rw [parse_guard_some testQb hg2, parse_guard_some testQb (by rw [hg, hg2])]
  refine ⟨hP, by simp only [render, hP], ?_⟩
  intro hg2
  refine ⟨kind, hk, (main hg2).2, ?_⟩
  rw [render_chain q2 _ [] hg2 hp2 rfl (by simpa using hr')]
  simp [exprText, x2, hk, groupsText, argsOf]

/-- C6. Negating an ordering or equality operator substitutes its complement: for every
field token `f`, value token `v` and operator `op` of `= != <> > < >= <=` with complement
`op'`, `Parse` gives the same result on an input with the tokens `NOT f op v` as on one
with the tokens `f op' v`, and both render the same SQL and parameters.  Unless the
keyword guard rejects them, the builder returned has as its only WHERE part the plain
comparison `f op' v`, an expression that is not wrapped in anything: the statement is
`SELECT * FROM cats WHERE f op' ?` with its placeholders numbered and `v` bound. -/
theorem C6_negation_complement (q1 q2 f op op' v : Str)
    (h1 : Fields q1 = ["NOT".toList, f, op, v]) (h2 : Fields q2 = [f, op', v])
    (hf : FieldToken f) (hv : ValueToken v)
    (hop : (op, op') ∈ [("=".toList, "<>".toList), ("!=".toList, "=".toList),
      ("<>".toList, "=".toList), (">".toList, "<=".toList), ("<".toList, ">=".toList),
      (">=".toList, "<".toList), ("<=".toList, ">".toList)]) :
    Parse q1 testQb = Parse q2 testQb ∧ render q1 = render q2 ∧
    (firstForbidden q2 = none →
      ∃ kind : ExprKind, kind.opr = op' ∧
        Parse q2 testQb =
          .ok ⟨.Dollar, ["*".toList], some "cats".toList, [.expr ⟨kind, f, some v⟩]⟩ ∧
        render q2 = .ok (.ok (PlaceholderFormat.Dollar.ReplacePlaceholders
          ("SELECT * FROM cats WHERE ".toList ++ f ++ " ".toList ++ op' ++ " ?".toList),
          [v]))) := by
  simp only [List.mem_cons, List.mem_singleton, List.not_mem_nil, or_false, Prod.mk.injEq] at hop
  rcases hop with h | h | h | h | h | h | h
  all_goals obtain ⟨rfl, rfl⟩ := h
  · exact negation_pair q1 q2 f _ _ v .NotEq h1 h2 hf hv (by decide) (by decide)
  · exact negation_pair q1 q2 f _ _ v .Eq h1 h2 hf hv (by decide) (by decide)
  · exact negation_pair q1 q2 f _ _ v .Eq h1 h2 hf hv (by decide) (by decide)
  · exact negation_pair q1 q2 f _ _ v .LtOrEq h1 h2 hf hv (by decide) (by decide)
  · exact negation_pair q1 q2 f _ _ v .GtOrEq h1 h2 hf hv (by decide) (by decide)
  · exact negation_pair q1 q2 f _ _ v .Lt h1 h2 hf hv (by decide) (by decide)
  · exact negation_pair q1 q2 f _ _ v .Gt h1 h2 hf hv (by decide) (by decide)

/-- Witness of C6: `NOT Bob.LastHash = 'ab5534b'` against `Bob.LastHash <> 'ab5534b'`. -/
theorem C6_negation_complement_witness :
    Fields "NOT Bob.LastHash = 'ab5534b'".toList =
      ["NOT".toList, "Bob.LastHash".toList, "=".toList, "'ab5534b'".toList] ∧
    Fields "Bob.LastHash <> 'ab5534b'".toList =
      ["Bob.LastHash".toList, "<>".toList, "'ab5534b'".toList] ∧
    FieldToken "Bob.LastHash".toList ∧ ValueToken "'ab5534b'".toList ∧
    firstForbidden "Bob.LastHash <> 'ab5534b'".toList = none ∧
    Parse "NOT Bob.LastHash = 'ab5534b'".toList testQb =
      Parse "Bob.LastHash <> 'ab5534b'".toList testQb ∧
    render "NOT Bob.LastHash = 'ab5534b'".toList = render "Bob.LastHash <> 'ab5534b'".toList ∧
    ∃ kind : ExprKind, kind.opr = "<>".toList ∧
      Parse "Bob.LastHash <> 'ab5534b'".toList testQb =
        .ok ⟨.Dollar, ["*".toList], some "cats".toList,
          [.expr ⟨kind, "Bob.LastHash".toList, some "'ab5534b'".toList⟩]⟩ ∧
      render "Bob.LastHash <> 'ab5534b'".toList =
        .ok (.ok ("SELECT * FROM cats WHERE Bob.LastHash <> $1".toList, ["'ab5534b'".toList])) := by
  have h := C6_negation_complement "NOT Bob.LastHash = 'ab5534b'".toList
    "Bob.LastHash <> 'ab5534b'".toList "Bob.LastHash".toList "=".toList "<>".toList
    "'ab5534b'".toList (by decide) (by decide) (by decide) (by decide) (by decide)
  exact ⟨by decide, by decide, by decide, by decide, by decide, h.1, h.2.1, h.2.2 (by decide)⟩

/-! ## Runs that continue after an accepted prefix -/

theorem steps_trans (qs : List Str) : ∀ (k k2 : Nat) (m m1 m2 : Machine),
    steps qs k m = some m1 → steps qs k2 m1 = some m2 → steps qs (k + k2) m = some m2 := by
  intro k
  induction k with
  | zero =>
    intro k2 m m1 m2 h1 h2
    simp only [steps, Option.some.injEq] at h1
    subst h1
    simpa using h2
  | succ k ih =>
    intro k2 m m1 m2 h1 h2
    obtain ⟨hlt, m', hit, hk⟩ := steps_succ_inv h1
    have e : k + 1 + k2 = (k + k2) + 1 := by omega
    rw [e]
    simp only [steps, hlt, if_true, hit]
    exact ih k2 m' m1 m2 hk h2

theorem step_conditions_ne_nil {qs : List Str} {m m1 : Machine} (h : Step qs m m1) :
    m1.conditions ≠ [] := by
  cases h <;> simp

theorem steps_conditions_ne_nil (qs : List Str) : ∀ (k : Nat) (m mf : Machine),
    Inv qs m → steps qs (k + 1) m = some mf → mf.conditions ≠ [] := by
  intro k
  induction k with
  | zero =>
    intro m mf hi h
    obtain ⟨_, m1, hit, hk⟩ := steps_succ_inv h
    simp only [steps, Option.some.injEq] at hk
    subst hk
    exact step_conditions_ne_nil (iterate_step hit hi.1)
  | succ k ih =>
    intro m mf hi h
    obtain ⟨_, m1, hit, hk⟩ := steps_succ_inv h
    exact ih m1 mf (step_inv (iterate_step hit hi.1) hi) hk

/-- After an accepted input whose last condition, if there is one, has an operator, the
machine stands in state AND_OR behind the last token, also when further tokens follow. -/
theorem prefix_reaches_any (pre ext : List Str) (cs : List Condition)
    (hpre : parseConditions pre = .ok cs)
    (hlast : ∀ c, cs.getLast? = some c → c.Operator ≠ []) :
    ∃ k, steps (pre ++ ext) k Machine.init =
      some ⟨cs, .stepAndOr, pre.length, cs.length⟩ := by
  rcases List.eq_nil_or_concat cs with hnil | ⟨init, c, hc⟩
  · subst hnil
    obtain ⟨k, mf, hk, hge, hcs⟩ := loop_ok_steps pre _ _ [] hpre
    cases k with
    | zero =>
      simp only [steps, Option.some.injEq] at hk
      subst hk
      have hp : pre = [] := by
        cases pre with
        | nil => rfl
        | cons a b => simp [Machine.init] at hge
      subst hp
      exact ⟨0, rfl⟩
    | succ k => exact absurd hcs (steps_conditions_ne_nil pre k _ mf (inv_init pre) hk)
  · refine prefix_reaches pre ext cs hpre ⟨c, ?_, hlast c ?_⟩ <;>
      rw [hc, List.concat_eq_append, List.getLast?_concat]

theorem getElem?_mid (pre : List Str) (t : Str) (post : List Str) :
    (pre ++ t :: post)[pre.length]? = some t := by
  rw [List.getElem?_append_right (Nat.le_refl _)]; simp

theorem getElem?_mid_add (pre mid : List Str) (t : Str) (post : List Str) (k : Nat)
    (hk : k = pre.length + mid.length) :
    (pre ++ mid ++ t :: post)[k]? = some t := by
  subst hk
  have := getElem?_mid (pre ++ mid) t post
  simpa using this

theorem getElem?_mid1 (pre : List Str) (a t : Str) (post : List Str) :
    (pre ++ a :: t :: post)[pre.length + 1]? = some t := by
  rw [List.getElem?_append_right (by omega)]; simp

theorem getElem?_mid2 (pre : List Str) (a b t : Str) (post : List Str) :
    (pre ++ a :: b :: t :: post)[pre.length + 2]? = some t := by
  rw [List.getElem?_append_right (by omega)]; simp

/-- From state AND_OR behind the conditions `cs`, reading the opening tokens of the next
condition takes two iterations and leads to state FIELD at the token after them. -/
theorem lead_steps (pre : List Str) (cs : List Condition) (j n : Option Str) (f : Str)
    (rest : List Str) (h : LeadOk cs j n f) (hfN : ToUpper f ≠ "NOT".toList) :
    steps (pre ++ leadTokens j n ++ f :: rest) 2 ⟨cs, .stepAndOr, pre.length, cs.length⟩ =
      some ⟨cs ++ [leadCond j n], .stepField, pre.length + (leadTokens j n).length,
        cs.length + 1⟩ := by
  obtain ⟨hj, hn, hnone⟩ := h
  cases j with
  | none =>
    obtain ⟨hcs, hf⟩ := hnone rfl
    subst hcs
    cases n with
    | none =>
      have hf' := hf rfl
      have s1 : Step (pre ++ leadTokens none none ++ f :: rest)
          ⟨[], .stepAndOr, pre.length, 0⟩ ⟨[Condition.zero], .stepNot, pre.length, 1⟩ :=
        Step.andOrFirst _ f (getElem?_mid_add pre _ f rest _ (by simp [leadTokens])) hf'
      have s2 : Step (pre ++ leadTokens none none ++ f :: rest)
          ⟨[Condition.zero], .stepNot, pre.length, 1⟩
          ⟨[⟨[], false, [], [], none⟩], .stepField, pre.length, 1⟩ :=
        Step.notNo [] Condition.zero _ f
          (getElem?_mid_add pre _ f rest _ (by simp [leadTokens])) hfN
      show steps _ 2 ⟨[], .stepAndOr, pre.length, 0⟩ = _
      rw [steps_succ 1 s1, steps_succ 0 s2]
      simp [steps, leadTokens, leadCond]
    | some nt =>
      have hN := hn nt rfl
      have e : pre ++ leadTokens none (some nt) ++ f :: rest = pre ++ nt :: f :: rest := by
        simp [leadTokens]
      have s1 : Step (pre ++ nt :: f :: rest)
          ⟨[], .stepAndOr, pre.length, 0⟩ ⟨[Condition.zero], .stepNot, pre.length, 1⟩ :=
        Step.andOrFirst _ nt (getElem?_mid pre nt _) (by
          show ¬ (ToUpper nt = _ ∨ ToUpper nt = _)
          rw [hN]; decide)
      have s2 : Step (pre ++ nt :: f :: rest)
          ⟨[Condition.zero], .stepNot, pre.length, 1⟩
          ⟨[⟨[], true, [], [], none⟩], .stepField, pre.length + 1, 1⟩ :=
        Step.notYes [] Condition.zero _ nt (getElem?_mid pre nt _) hN
      show steps _ 2 ⟨[], .stepAndOr, pre.length, 0⟩ = _
      rw [e, steps_succ 1 s1, steps_succ 0 s2]
      simp [steps, leadTokens, leadCond]
  | some jt =>
    have hJ := hj jt rfl
    cases n with
    | none =>
      have e : pre ++ leadTokens (some jt) none ++ f :: rest = pre ++ jt :: f :: rest := by
        simp [leadTokens]
      have s1 : Step (pre ++ jt :: f :: rest)
          ⟨cs, .stepAndOr, pre.length, cs.length⟩
          ⟨cs ++ [⟨ToUpper jt, false, [], [], none⟩], .stepNot, pre.length + 1,
            cs.length + 1⟩ :=
        Step.andOrConj cs _ jt (getElem?_mid pre jt _) hJ (by simp)
      have s2 : Step (pre ++ jt :: f :: rest)
          ⟨cs ++ [⟨ToUpper jt, false, [], [], none⟩], .stepNot, pre.length + 1,
            cs.length + 1⟩
          ⟨cs ++ [⟨ToUpper jt, false, [], [], none⟩], .stepField, pre.length + 1,
            cs.length + 1⟩ :=
        Step.notNo cs _ _ f (getElem?_mid1 pre jt f rest) hfN
      rw [e, steps_succ 1 s1, steps_succ 0 s2]
      simp [steps, leadTokens, leadCond]
    | some nt =>
      have hN := hn nt rfl
      have e : pre ++ leadTokens (some jt) (some nt) ++ f :: rest =
          pre ++ jt :: nt :: f :: rest := by
        simp [leadTokens]
      have s1 : Step (pre ++ jt :: nt :: f :: rest)
          ⟨cs, .stepAndOr, pre.length, cs.length⟩
          ⟨cs ++ [⟨ToUpper jt, false, [], [], none⟩], .stepNot, pre.length + 1,
            cs.length + 1⟩ :=
        Step.andOrConj cs _ jt (getElem?_mid pre jt _) hJ (by simp)
      have s2 : Step (pre ++ jt :: nt :: f :: rest)
          ⟨cs ++ [⟨ToUpper jt, false, [], [], none⟩], .stepNot, pre.length + 1,
            cs.length + 1⟩
          ⟨cs ++ [⟨ToUpper jt, true, [], [], none⟩], .stepField, pre.length + 1 + 1,
            cs.length + 1⟩ :=
        Step.notYes cs _ _ nt (getElem?_mid1 pre jt nt (f :: rest)) hN
      rw [e, steps_succ 1 s1, steps_succ 0 s2]
      simp [steps, leadTokens, leadCond]

/-- When the machine has completed the conditions `cs` with the tokens `pre` (it stands
in state AND_OR at the token behind them), then behind the opening tokens of the next
condition it stands in state FIELD at the token that follows them. -/
theorem field_reached (pre : List Str) (cs : List Condition) (j n : Option Str) (f : Str)
    (rest : List Str)
    (hreach : ∃ k, steps (pre ++ leadTokens j n ++ f :: rest) k Machine.init =
      some ⟨cs, .stepAndOr, pre.length, cs.length⟩)
    (hlead : LeadOk cs j n f) (hfN : ToUpper f ≠ "NOT".toList) :
    ∃ k, steps (pre ++ leadTokens j n ++ f :: rest) k Machine.init =
      some ⟨cs ++ [leadCond j n], .stepField, (pre ++ leadTokens j n).length,
        cs.length + 1⟩ := by
  obtain ⟨k, hk⟩ := hreach
  refine ⟨k + 2, ?_⟩
  rw [List.length_append]
  exact steps_trans _ k 2 _ _ _ hk (lead_steps pre cs j n f rest hlead hfN)

/-- Behind the field `f` of such a condition the machine stands in state OPERATOR at the
next token `t`, unless `t` is a conjunction with a token after it. -/
theorem operator_reached (pre : List Str) (cs : List Condition) (j n : Option Str)
    (f t : Str) (rest : List Str)
    (hreach : ∃ k, steps (pre ++ leadTokens j n ++ f :: t :: rest) k Machine.init =
      some ⟨cs, .stepAndOr, pre.length, cs.length⟩)
    (hlead : LeadOk cs j n f) (hf : FieldOk f) (ht : rest ≠ [] → ¬ IsConj t) :
    ∃ k, steps (pre ++ leadTokens j n ++ f :: t :: rest) k Machine.init =
      some ⟨cs ++ [{ leadCond j n with Field := f }], .stepOperator,
        (pre ++ leadTokens j n).length + 1, cs.length + 1⟩ := by
  obtain ⟨k, hk⟩ := field_reached pre cs j n f (t :: rest) hreach hlead hf.2.1
  have hget := getElem?_mid (pre ++ leadTokens j n) f (t :: rest)
  have hget1 := getElem?_mid1 (pre ++ leadTokens j n) f t rest
  have s : Step (pre ++ leadTokens j n ++ f :: t :: rest)
      ⟨cs ++ [leadCond j n], .stepField, (pre ++ leadTokens j n).length, cs.length + 1⟩
      ⟨cs ++ [{ leadCond j n with Field := f }], .stepOperator,
        (pre ++ leadTokens j n).length + 1, cs.length + 1⟩ := by
    refine Step.fieldOp cs _ _ f hget hf.1 hf.2.1 hf.2.2 (by simp; omega) ?_
    intro hlen
    rw [nextWordAt_some hget1]
    apply ht
    intro hr
    subst hr
    simp at hlen
    omega
  exact ⟨k + 1, steps_trans _ k 1 _ _ _ hk (by rw [steps_succ 0 s]; rfl)⟩

/-- A bare field followed by a conjunction and a further token completes its condition:
the machine stands in state AND_OR at the conjunction. -/
theorem bare_reached (pre : List Str) (cs : List Condition) (j n : Option Str)
    (f jn t : Str) (rest : List Str)
    (hreach : ∃ k, steps (pre ++ leadTokens j n ++ f :: jn :: t :: rest) k Machine.init =
      some ⟨cs, .stepAndOr, pre.length, cs.length⟩)
    (hlead : LeadOk cs j n f) (hf : FieldOk f) (hjn : IsConj jn) :
    ∃ k, steps (pre ++ leadTokens j n ++ f :: jn :: t :: rest) k Machine.init =
      some ⟨cs ++ [{ leadCond j n with Field := f }], .stepAndOr,
        (pre ++ leadTokens j n ++ [f]).length,
        (cs ++ [{ leadCond j n with Field := f }]).length⟩ := by
  obtain ⟨k, hk⟩ := field_reached pre cs j n f (jn :: t :: rest) hreach hlead hf.2.1
  have hget := getElem?_mid (pre ++ leadTokens j n) f (jn :: t :: rest)
  have hget1 := getElem?_mid1 (pre ++ leadTokens j n) f jn (t :: rest)
  have s : Step (pre ++ leadTokens j n ++ f :: jn :: t :: rest)
      ⟨cs ++ [leadCond j n], .stepField, (pre ++ leadTokens j n).length, cs.length + 1⟩
      ⟨cs ++ [{ leadCond j n with Field := f }], .stepAndOr,
        (pre ++ leadTokens j n).length + 1, cs.length + 1⟩ :=
    Step.fieldBare cs _ _ f hget hf.1 hf.2.1 hf.2.2 (by simp; omega)
      (by rw [nextWordAt_some hget1]; exact hjn)
  refine ⟨k + 1, ?_⟩
  rw [steps_trans _ k 1 _ _ _ hk (by rw [steps_succ 0 s]; rfl)]
  simp
  omega

/-- A field followed by an operator of the table and a value completes its condition: the
machine stands in state AND_OR behind the value. -/
theorem complete_reached (pre : List Str) (cs : List Condition) (j n : Option Str)
    (f op v : Str) (rest : List Str)
    (hreach : ∃ k, steps (pre ++ leadTokens j n ++ f :: op :: v :: rest) k Machine.init =
      some ⟨cs, .stepAndOr, pre.length, cs.length⟩)
    (hlead : LeadOk cs j n f) (hf : FieldOk f) (hop : IsOperator op = true)
    (hv : IsOperator v = false) (hvN : v ≠ "NOT".toList) (hv0 : v ≠ []) :
    ∃ k, steps (pre ++ leadTokens j n ++ f :: op :: v :: rest) k Machine.init =
      some ⟨cs ++ [{ leadCond j n with Field := f, Operator := op, Value := some v }],
        .stepAndOr, (pre ++ leadTokens j n ++ [f, op, v]).length,
        (cs ++ [{ leadCond j n with Field := f, Operator := op, Value := some v }]).length⟩ := by
  have hoA : ToUpper op ≠ "AND".toList := isOperator_upper_ne hop (by decide)
  have hoO : ToUpper op ≠ "OR".toList := isOperator_upper_ne hop (by decide)
  obtain ⟨k, hk⟩ := operator_reached pre cs j n f op (v :: rest) hreach hlead hf
    (fun _ => not_or.mpr ⟨hoA, hoO⟩)
  have s1 : Step (pre ++ leadTokens j n ++ f :: op :: v :: rest)
      ⟨cs ++ [{ leadCond j n with Field := f }], .stepOperator,
        (pre ++ leadTokens j n).length + 1, cs.length + 1⟩
      ⟨cs ++ [{ leadCond j n with Field := f, Operator := op }], .stepValue,
        (pre ++ leadTokens j n).length + 1 + 1, cs.length + 1⟩ :=
    Step.operatorPlain cs _ _ op (getElem?_mid1 (pre ++ leadTokens j n) f op (v :: rest)) hop
      (by simp; omega)
  have s2 : Step (pre ++ leadTokens j n ++ f :: op :: v :: rest)
      ⟨cs ++ [{ leadCond j n with Field := f, Operator := op }], .stepValue,
        (pre ++ leadTokens j n).length + 1 + 1, cs.length + 1⟩
      ⟨cs ++ [{ leadCond j n with Field := f, Operator := op, Value := some v }], .stepAndOr,
        (pre ++ leadTokens j n).length + 1 + 1 + 1, cs.length + 1⟩ :=
    Step.value cs _ _ v (getElem?_mid2 (pre ++ leadTokens j n) f op v rest) hv hvN hv0
  refine ⟨k + 2, ?_⟩
  rw [steps_trans _ k 2 _ _ _ hk (by rw [steps_succ 1 s1, steps_succ 0 s2]; rfl)]
  simp
  omega

/-! ## The errors for an input that breaks off -/

theorem iterate_andOr_conj_last {qs : List Str} {cs : List Condition} {wn : Nat} {t : Str}
    (h : qs[wn]? = some t) (hc : IsConj t) (hl : wn + 1 = qs.length) :
    iterate qs ⟨cs, .stepAndOr, wn, cs.length⟩ =
      .error ("no field after ".toList ++ ToUpper t) := by
  have hc' : ToUpper t = "AND".toList ∨ ToUpper t = "OR".toList := hc
  have hgt : wn + 1 + 1 > qs.length := by omega
  simp only [iterate, doAndOr, h, hc', if_true, hgt, condAt_concat]

theorem iterate_field_last {qs : List Str} {init : List Condition} {c : Condition}
    {wn : Nat} {f : Str} (h : qs[wn]? = some f) (hf : FieldOk f)
    (hl : wn + 1 = qs.length) :
    iterate qs ⟨init ++ [c], .stepField, wn, init.length + 1⟩ =
      .error ("no operator after field ".toList ++ f) := by
  have hgt : wn + 1 + 1 > qs.length := by omega
  simp only [iterate, doField, h, hf.1, hf.2.1, hf.2.2, hgt, setCond_concat, condAt_concat,
    ne_eq, not_false_eq_true, decide_True, Bool.not_false, Bool.and_self, if_true]

theorem iterate_operator_last {qs : List Str} {init : List Condition} {c : Condition}
    {wn : Nat} {op : Str} (h : qs[wn]? = some op) (hop : IsOperator op = true)
    (hl : wn + 1 = qs.length) :
    iterate qs ⟨init ++ [c], .stepOperator, wn, init.length + 1⟩ =
      .error ("no value for field ".toList ++ c.Field) := by
  have hN : ToUpper op ≠ "NOT".toList := isOperator_upper_ne hop (by decide)
  have hgt : wn + 1 + 1 > qs.length := by omega
  simp only [iterate, doOperator, doOperatorTail, h, hop, hN, hgt, setCond_concat,
    condAt_concat, if_true, if_false]

theorem isDouble_of_upper {n2 l : Str} (hN : ToUpper n2 = "NOT".toList)
    (hL : ToUpper l = "LIKE".toList ∨ ToUpper l = "ILIKE".toList) :
    IsDoubleOperator (ToUpper n2) (ToUpper l) = true ∧ IsOperator l = true := by
  rcases hL with hL | hL <;> rw [hN, hL] <;> simp only [IsOperator, hL] <;> decide

theorem iterate_operator_notlike_last {qs : List Str} {init : List Condition}
    {c : Condition} {wn : Nat} {n2 l : Str} (h : qs[wn]? = some n2)
    (hN : ToUpper n2 = "NOT".toList) (h1 : qs[wn + 1]? = some l)
    (hL : ToUpper l = "LIKE".toList ∨ ToUpper l = "ILIKE".toList)
    (hl : wn + 2 = qs.length) :
    iterate qs ⟨init ++ [c], .stepOperator, wn, init.length + 1⟩ =
      .error ("no value for field ".toList ++ c.Field) := by
  obtain ⟨hd, hop⟩ := isDouble_of_upper hN hL
  have hlt : wn + 1 < qs.length := by omega
  have hgt : wn + 1 + 1 + 1 > qs.length := by omega
  have hnw := nextWordAt_some h1
  rw [hN] at hd
  simp only [iterate, doOperator, doOperatorTail, h, hN, h1, hd, hop, hnw, hlt, hgt,
    setCond_concat, condAt_concat, if_true]

theorem iterate_operator_unexpected {qs : List Str} {init : List Condition} {c : Condition}
    {wn : Nat} {t : Str} (h : qs[wn]? = some t) (hop : IsOperator t = false)
    (hN : ToUpper t = "NOT".toList → ¬ wn + 1 < qs.length) :
    iterate qs ⟨init ++ [c], .stepOperator, wn, init.length + 1⟩ =
      .error ("unexpected operator: ".toList ++ t) := by
  by_cases hn : ToUpper t = "NOT".toList
  · have hlt := hN hn
    simp only [iterate, doOperator, doOperatorTail, h, hop, hn, hlt, if_true, if_false,
      Bool.false_eq_true]
  · simp only [iterate, doOperator, doOperatorTail, h, hop, hn, if_false, Bool.false_eq_true]

/-! ## Conjunction tokens and the keyword guard -/

theorem contains_toUpper {s w : Str} (h : Contains s w = true) :
    Contains (ToUpper s) (ToUpper w) = true := by
  obtain ⟨a, b, rfl⟩ := (contains_iff s w).1 h
  exact (contains_iff _ _).2 ⟨ToUpper a, ToUpper b, by simp [ToUpper]⟩

/-- A token that is `AND` or `OR` in some letter case contains no forbidden keyword. -/
theorem conj_no_keyword {j : Str} (hj : IsConj j) :
    ∀ w ∈ forbiddenSQLWords, Contains j w = false := by
  intro w hw
  have hup : ∀ u ∈ forbiddenSQLWords, ToUpper u = u := by decide
  have hA : ∀ u ∈ forbiddenSQLWords, Contains "AND".toList u = false := by decide
  have hO : ∀ u ∈ forbiddenSQLWords, Contains "OR".toList u = false := by decide
  cases hc : Contains j w with
  | false => rfl
  | true =>
    have h := contains_toUpper hc
    rw [hup w hw] at h
    rcases hj with hj | hj
    · rw [hj, hA w hw] at h; cases h
    · rw [hj, hO w hw] at h; cases h

/-- Appending a conjunction token to an input that passes the keyword guard gives an
input that passes it. -/
theorem guard_append_conj {q q' j : Str} (hguard : firstForbidden q = none)
    (hq' : Fields q' = Fields q ++ [j]) (hj : IsConj j) : firstForbidden q' = none := by
  rw [firstForbidden_tokens, List.find?_eq_none] at hguard ⊢
  intro w hw
  have h1 := hguard w hw
  have h2 := conj_no_keyword hj w hw
  rw [hq', List.any_append]
  simp only [Bool.not_eq_true] at h1
  simp [h1, h2]

/-- C11. A trailing conjunction with no following field is a parse error: for every
accepted input (it passes the keyword guard and the machine accepts its tokens) whose
last condition is a complete `field op value`, an input with the same tokens followed by
one more token that is `AND` or `OR` in any letter case makes `Parse` fail with
`no field after AND` or `no field after OR`, the conjunction upper-cased. -/
theorem C11_trailing_conjunction (q q' j : Str) (qb : SelectBuilder) (cs : List Condition)
    (hguard : firstForbidden q = none)
    (hparse : parseConditions (Fields q) = .ok cs)
    (hlast : ∃ c, cs.getLast? = some c ∧ c.Operator ≠ [])
    (hq' : Fields q' = Fields q ++ [j]) (hj : IsConj j) :
    Parse q' qb = .error ("no field after ".toList ++ ToUpper j) ∧
    (ToUpper j = "AND".toList ∨ ToUpper j = "OR".toList) := by
  refine ⟨?_, hj⟩
  obtain ⟨k, hk⟩ := prefix_reaches (Fields q) [j] cs hparse hlast
  have herr := parseConditions_of_steps_error hk (by simp)
    (iterate_andOr_conj_last (getElem?_mid (Fields q) j []) hj (by simp))
  simp only [Parse, guard_append_conj hguard hq' hj, hq', herr]

/-- Witness of C11: the test case `Foo.Bar.Beta > 21 AND `. -/
theorem C11_trailing_conjunction_witness :
    firstForbidden "Foo.Bar.Beta > 21".toList = none ∧
    parseConditions (Fields "Foo.Bar.Beta > 21".toList) =
      .ok [⟨[], false, "Foo.Bar.Beta".toList, ">".toList, some "21".toList⟩] ∧
    Fields "Foo.Bar.Beta > 21 AND ".toList =
      Fields "Foo.Bar.Beta > 21".toList ++ ["AND".toList] ∧
    Parse "Foo.Bar.Beta > 21 AND ".toList testQb = .error "no field after AND".toList :=
  ⟨by decide, by decide, by decide,
    (C11_trailing_conjunction "Foo.Bar.Beta > 21".toList "Foo.Bar.Beta > 21 AND ".toList
      "AND".toList testQb [⟨[], false, "Foo.Bar.Beta".toList, ">".toList, some "21".toList⟩]
      (by decide) (by decide) ⟨_, rfl, by decide⟩ (by decide) (by decide)).1⟩

theorem leadOk_first {f : Str} (h : ¬ IsConj f) : LeadOk [] none none f := by
  unfold LeadOk
  exact ⟨fun _ ht => (by cases ht), fun _ ht => (by cases ht), fun _ => ⟨rfl, fun _ => h⟩⟩

theorem leadOk_first_not {nt : Str} (f : Str) (hn : ToUpper nt = "NOT".toList) :
    LeadOk [] none (some nt) f := by
  unfold LeadOk
  exact ⟨fun _ ht => (by cases ht), fun t ht => (by cases ht; exact hn),
    fun _ => ⟨rfl, fun h => (by cases h)⟩⟩

theorem leadOk_conj (cs : List Condition) {jt : Str} (f : Str) (h : IsConj jt) :
    LeadOk cs (some jt) none f := by
  unfold LeadOk
  exact ⟨fun t ht => (by cases ht; exact h), fun _ ht => (by cases ht), fun h => (by cases h)⟩

theorem leadOk_conj_not (cs : List Condition) {jt nt : Str} (f : Str) (h : IsConj jt)
    (hn : ToUpper nt = "NOT".toList) : LeadOk cs (some jt) (some nt) f := by
  unfold LeadOk
  exact ⟨fun t ht => (by cases ht; exact h), fun t ht => (by cases ht; exact hn),
    fun h => (by cases h)⟩

/-- C12 (amended). For every input that contains no forbidden keyword and whose tokens
end with `[AND|OR] [NOT] field op` after zero or more complete conditions (with the
tokens `pre` before the tail the machine has completed the conditions `cs` and stands in
state AND_OR; the conjunction is present whenever a condition precedes; the field passes
the checks of the FIELD state; `op` is an operator of the table or the two tokens
`NOT LIKE` / `NOT ILIKE`), `Parse` fails with the error `no value for field <field>`. -/
theorem C12_missing_value (q : Str) (qb : SelectBuilder) (pre ops : List Str)
    (cs : List Condition) (j n : Option Str) (f : Str)
    (hguard : firstForbidden q = none)
    (htok : Fields q = pre ++ leadTokens j n ++ f :: ops)
    (hreach : ∃ k, steps (Fields q) k Machine.init =
      some ⟨cs, .stepAndOr, pre.length, cs.length⟩)
    (hlead : LeadOk cs j n f) (hf : FieldOk f)
    (hops : (∃ op, ops = [op] ∧ IsOperator op = true) ∨
      (∃ n2 l, ops = [n2, l] ∧ ToUpper n2 = "NOT".toList ∧
        (ToUpper l = "LIKE".toList ∨ ToUpper l = "ILIKE".toList))) :
    Parse q qb = .error ("no value for field ".toList ++ f) := by
  rw [htok] at hreach
  rcases hops with ⟨op, rfl, hop⟩ | ⟨n2, l, rfl, hN, hL⟩
  · obtain ⟨k, hk⟩ := operator_reached pre cs j n f op [] hreach hlead hf
      (fun h => absurd rfl h)
    have herr := parseConditions_of_steps_error hk (by simp; omega)
      (iterate_operator_last (getElem?_mid1 (pre ++ leadTokens j n) f op []) hop (by simp; omega))
    simp only [Parse, hguard, htok, herr]
  · obtain ⟨k, hk⟩ := operator_reached pre cs j n f n2 [l] hreach hlead hf
      (fun _ => by show ¬ (ToUpper n2 = _ ∨ ToUpper n2 = _); rw [hN]; decide)
    have herr := parseConditions_of_steps_error hk (by simp; omega)
      (iterate_operator_notlike_last (getElem?_mid1 (pre ++ leadTokens j n) f n2 [l]) hN
        (getElem?_mid2 (pre ++ leadTokens j n) f n2 l []) hL (by simp; omega))
    simp only [Parse, hguard, htok, herr]

/-- Witness of C12: the test case `Foo.Bar.Beta > 21 AND Alpha.Bar != `, where a
condition with operator and value precedes the tail, and `a AND b =`, where a bare field
precedes it. -/
theorem C12_missing_value_witness :
    (firstForbidden "Foo.Bar.Beta > 21 AND Alpha.Bar != ".toList = none ∧
      Fields "Foo.Bar.Beta > 21 AND Alpha.Bar != ".toList =
        ["Foo.Bar.Beta".toList, ">".toList, "21".toList] ++
          leadTokens (some "AND".toList) none ++ "Alpha.Bar".toList :: ["!=".toList] ∧
      steps (Fields "Foo.Bar.Beta > 21 AND Alpha.Bar != ".toList) 5 Machine.init =
        some ⟨[⟨[], false, "Foo.Bar.Beta".toList, ">".toList, some "21".toList⟩],
          .stepAndOr, 3, 1⟩ ∧
      Parse "Foo.Bar.Beta > 21 AND Alpha.Bar != ".toList testQb =
        .error "no value for field Alpha.Bar".toList) ∧
    (Fields "a AND b =".toList =
        ["a".toList] ++ leadTokens (some "AND".toList) none ++ "b".toList :: ["=".toList] ∧
      steps (Fields "a AND b =".toList) 3 Machine.init =
        some ⟨[⟨[], false, "a".toList, [], none⟩], .stepAndOr, 1, 1⟩ ∧
      Parse "a AND b =".toList testQb = .error "no value for field b".toList) :=
  ⟨⟨by decide, by decide, by decide,
    C12_missing_value "Foo.Bar.Beta > 21 AND Alpha.Bar != ".toList testQb
      ["Foo.Bar.Beta".toList, ">".toList, "21".toList] ["!=".toList]
      [⟨[], false, "Foo.Bar.Beta".toList, ">".toList, some "21".toList⟩]
      (some "AND".toList) none "Alpha.Bar".toList
      (by decide) (by decide) ⟨5, by decide⟩
      (leadOk_conj _ _ (by decide)) (by decide) (Or.inl ⟨_, rfl, by decide⟩)⟩,
   ⟨by decide, by decide,
    C12_missing_value "a AND b =".toList testQb ["a".toList] ["=".toList]
      [⟨[], false, "a".toList, [], none⟩] (some "AND".toList) none "b".toList
      (by decide) (by decide) ⟨3, by decide⟩
      (leadOk_conj _ _ (by decide)) (by decide) (Or.inl ⟨_, rfl, by decide⟩)⟩⟩

/-- C12 is false as stated: `FROMAGE =` ends with `field op`, yet `Parse` fails with the
error of the keyword guard; and `a = 1 b =` ends with `field op` after a complete
condition, yet `Parse` fails on `b` for the missing conjunction. -/
theorem C12_counterexample :
    (Fields "FROMAGE =".toList = ["FROMAGE".toList, "=".toList] ∧
      FieldOk "FROMAGE".toList ∧ IsOperator "=".toList = true ∧
      Parse "FROMAGE =".toList testQb = .error (guardError "FROM".toList) ∧
      Parse "FROMAGE =".toList testQb ≠ .error "no value for field FROMAGE".toList) ∧
    (Fields "a = 1 b =".toList =
        ["a".toList, "=".toList, "1".toList] ++ ["b".toList, "=".toList] ∧
      parseConditions ["a".toList, "=".toList, "1".toList] =
        .ok [⟨[], false, "a".toList, "=".toList, some "1".toList⟩] ∧
      steps (Fields "a = 1 b =".toList) 5 Machine.init =
        some ⟨[⟨[], false, "a".toList, "=".toList, some "1".toList⟩], .stepAndOr, 3, 1⟩ ∧
      FieldOk "b".toList ∧
      Parse "a = 1 b =".toList testQb =
        .error "next condition should start from AND/OR, got: b".toList ∧
      Parse "a = 1 b =".toList testQb ≠ .error "no value for field b".toList) :=
  ⟨by decide, by decide⟩

/-- C13 (amended). For every input that contains no forbidden keyword and in which a
field (one the machine reads in state FIELD: with the tokens `pre` before its condition
the machine has completed the conditions `cs` and stands in state AND_OR, the conjunction
present whenever a condition precedes) is followed by a token `t`, with or without
further tokens after it, that is not `AND`/`OR`, is not an operator of the table in any
letter case, and is not `NOT` followed by another token: `Parse` fails with exactly the
error `unexpected operator: t`. -/
theorem C13_unexpected_operator (q : Str) (qb : SelectBuilder) (pre post : List Str)
    (cs : List Condition) (j n : Option Str) (f t : Str)
    (hguard : firstForbidden q = none)
    (htok : Fields q = pre ++ leadTokens j n ++ f :: t :: post)
    (hreach : ∃ k, steps (Fields q) k Machine.init =
      some ⟨cs, .stepAndOr, pre.length, cs.length⟩)
    (hlead : LeadOk cs j n f) (hf : FieldOk f)
    (hop : IsOperator t = false)
    (hconj : ¬ IsConj t)
    (hnot : ToUpper t = "NOT".toList → post = []) :
    Parse q qb = .error ("unexpected operator: ".toList ++ t) := by
  rw [htok] at hreach
  obtain ⟨k, hk⟩ := operator_reached pre cs j n f t post hreach hlead hf (fun _ => hconj)
  have hit := @iterate_operator_unexpected (pre ++ leadTokens j n ++ f :: t :: post) cs
    { leadCond j n with Field := f } ((pre ++ leadTokens j n).length + 1) t
    (getElem?_mid1 (pre ++ leadTokens j n) f t post) hop
    (fun h => by rw [hnot h]; simp; omega)
  have herr := parseConditions_of_steps_error hk (by simp; omega) hit
  simp only [Parse, hguard, htok, herr]

/-- Witness of C13: the test case `Foo.Bar.X 'hello'`, and `a AND NOT b 'x' 5`, where a
bare field precedes the condition and tokens follow `t`. -/
theorem C13_unexpected_operator_witness :
    (firstForbidden "Foo.Bar.X 'hello'".toList = none ∧
      Fields "Foo.Bar.X 'hello'".toList =
        [] ++ leadTokens none none ++ "Foo.Bar.X".toList :: "'hello'".toList :: [] ∧
      FieldOk "Foo.Bar.X".toList ∧ IsOperator "'hello'".toList = false ∧
      Parse "Foo.Bar.X 'hello'".toList testQb =
        .error "unexpected operator: 'hello'".toList) ∧
    (Fields "a AND NOT b 'x' 5".toList =
        ["a".toList] ++ leadTokens (some "AND".toList) (some "NOT".toList) ++
          "b".toList :: "'x'".toList :: ["5".toList] ∧
      steps (Fields "a AND NOT b 'x' 5".toList) 3 Machine.init =
        some ⟨[⟨[], false, "a".toList, [], none⟩], .stepAndOr, 1, 1⟩ ∧
      Parse "a AND NOT b 'x' 5".toList testQb = .error "unexpected operator: 'x'".toList) :=
  ⟨⟨by decide, by decide, by decide, by decide,
    C13_unexpected_operator "Foo.Bar.X 'hello'".toList testQb [] [] [] none none
      "Foo.Bar.X".toList "'hello'".toList (by decide) (by decide) ⟨0, by decide⟩
      (leadOk_first (by decide)) (by decide) (by decide) (by decide) (fun _ => rfl)⟩,
   ⟨by decide, by decide,
    C13_unexpected_operator "a AND NOT b 'x' 5".toList testQb ["a".toList] ["5".toList]
      [⟨[], false, "a".toList, [], none⟩] (some "AND".toList) (some "NOT".toList)
      "b".toList "'x'".toList (by decide) (by decide) ⟨3, by decide⟩
      (leadOk_conj_not _ _ (by decide) (by decide)) (by decide) (by decide) (by decide)
      (fun h => absurd h (by decide))⟩⟩

/-- C13 is false as stated: in `a FORMAT b` the token `FORMAT` follows the field `a`, has
a token after it and is no operator, yet `Parse` fails with the error of the keyword
guard; and in `a NOT b` the token `NOT` is not followed by `LIKE`/`ILIKE`, yet the error
text is `unexpected oprator: NOT`. -/
theorem C13_counterexample :
    (Fields "a FORMAT b".toList = ["a".toList, "FORMAT".toList, "b".toList] ∧
      FieldOk "a".toList ∧ IsOperator "FORMAT".toList = false ∧
      ¬ IsConj "FORMAT".toList ∧ ToUpper "FORMAT".toList ≠ "NOT".toList ∧
      Parse "a FORMAT b".toList testQb = .error (guardError "FOR".toList) ∧
      Parse "a FORMAT b".toList testQb ≠ .error "unexpected operator: FORMAT".toList) ∧
    (Fields "a NOT b".toList = ["a".toList, "NOT".toList, "b".toList] ∧
      IsOperator "NOT".toList = false ∧
      IsDoubleOperator "NOT".toList "b".toList = false ∧
      Parse "a NOT b".toList testQb = .error "unexpected oprator: NOT".toList ∧
      Parse "a NOT b".toList testQb ≠ .error "unexpected operator: NOT".toList) :=
  ⟨by decide, by decide⟩

/-- C15 (amended). For every input that contains no forbidden keyword and whose tokens
end with `[AND|OR] [NOT] field` after zero or more complete conditions (with the tokens
`pre` before the tail the machine has completed the conditions `cs` and stands in state
AND_OR; the conjunction is present whenever a condition precedes; the field passes the
checks of the FIELD state), `Parse` fails with the error
`no operator after field <field>`. -/
theorem C15_field_last (q : Str) (qb : SelectBuilder) (pre : List Str)
    (cs : List Condition) (j n : Option Str) (f : Str)
    (hguard : firstForbidden q = none)
    (htok : Fields q = pre ++ leadTokens j n ++ [f])
    (hreach : ∃ k, steps (Fields q) k Machine.init =
      some ⟨cs, .stepAndOr, pre.length, cs.length⟩)
    (hlead : LeadOk cs j n f) (hf : FieldOk f) :
    Parse q qb = .error ("no operator after field ".toList ++ f) := by
  rw [htok] at hreach
  obtain ⟨k, hk⟩ := field_reached pre cs j n f [] hreach hlead hf.2.1
  have herr := parseConditions_of_steps_error hk (by simp)
    (iterate_field_last (getElem?_mid (pre ++ leadTokens j n) f []) hf (by simp; omega))
  simp only [Parse, hguard, htok, herr]

/-- Witness of C15: the single bare field `Alice.IsActive`; a field behind `or not`
after a condition with operator and value; and `a AND b`, a field after a bare field. -/
theorem C15_field_last_witness :
    (firstForbidden "Alice.IsActive".toList = none ∧
      Fields "Alice.IsActive".toList = [] ++ leadTokens none none ++ ["Alice.IsActive".toList] ∧
      Parse "Alice.IsActive".toList testQb =
        .error "no operator after field Alice.IsActive".toList) ∧
    (Fields "x > 2 or not y".toList = ["x".toList, ">".toList, "2".toList] ++
        leadTokens (some "or".toList) (some "not".toList) ++ ["y".toList] ∧
      Parse "x > 2 or not y".toList testQb = .error "no operator after field y".toList) ∧
    (Fields "a AND b".toList =
        ["a".toList] ++ leadTokens (some "AND".toList) none ++ ["b".toList] ∧
      steps (Fields "a AND b".toList) 3 Machine.init =
        some ⟨[⟨[], false, "a".toList, [], none⟩], .stepAndOr, 1, 1⟩ ∧
      Parse "a AND b".toList testQb = .error "no operator after field b".toList) :=
  ⟨⟨by decide, by decide,
    C15_field_last "Alice.IsActive".toList testQb [] [] none none "Alice.IsActive".toList
      (by decide) (by decide) ⟨0, by decide⟩ (leadOk_first (by decide)) (by decide)⟩,
   ⟨by decide,
    C15_field_last "x > 2 or not y".toList testQb ["x".toList, ">".toList, "2".toList]
      [⟨[], false, "x".toList, ">".toList, some "2".toList⟩]
      (some "or".toList) (some "not".toList) "y".toList
      (by decide) (by decide) ⟨5, by decide⟩
      (leadOk_conj_not _ _ (by decide) (by decide)) (by decide)⟩,
   ⟨by decide, by decide,
    C15_field_last "a AND b".toList testQb ["a".toList]
      [⟨[], false, "a".toList, [], none⟩] (some "AND".toList) none "b".toList
      (by decide) (by decide) ⟨3, by decide⟩ (leadOk_conj _ _ (by decide)) (by decide)⟩⟩

/-- C15 is false as stated: `LIMITS` is a single bare field that passes the checks of
the FIELD state, yet `Parse` fails with the error of the keyword guard; and `x > 2 y`
ends with a field after a complete condition, yet `Parse` fails on `y` for the missing
conjunction. -/
theorem C15_counterexample :
    (Fields "LIMITS".toList = ["LIMITS".toList] ∧ FieldOk "LIMITS".toList ∧
      Parse "LIMITS".toList testQb = .error (guardError "LIMIT".toList) ∧
      Parse "LIMITS".toList testQb ≠ .error "no operator after field LIMITS".toList) ∧
    (Fields "x > 2 y".toList = ["x".toList, ">".toList, "2".toList] ++ ["y".toList] ∧
      parseConditions ["x".toList, ">".toList, "2".toList] =
        .ok [⟨[], false, "x".toList, ">".toList, some "2".toList⟩] ∧
      steps (Fields "x > 2 y".toList) 5 Machine.init =
        some ⟨[⟨[], false, "x".toList, ">".toList, some "2".toList⟩], .stepAndOr, 3, 1⟩ ∧
      FieldOk "y".toList ∧
      Parse "x > 2 y".toList testQb =
        .error "next condition should start from AND/OR, got: y".toList ∧
      Parse "x > 2 y".toList testQb ≠ .error "no operator after field y".toList) :=
  ⟨by decide, by decide⟩

/-! ## The conjunction of the first condition -/

theorem firstConj_of_getElem {qs : List Str} {tok : Str} (h : qs[0]? = some tok) :
    firstConj qs =
      if ToUpper tok = "AND".toList ∨ ToUpper tok = "OR".toList then ToUpper tok else [] := by
  cases qs with
  | nil => cases h
  | cons a t =>
    simp only [List.getElem?_cons_zero, Option.some.injEq] at h
    subst h
    rfl

theorem headInv_init (qs : List Str) : HeadInv qs Machine.init := by
  simp [HeadInv, Machine.init]

theorem headInv_last {qs : List Str} {init : List Condition} {c d : Condition}
    {st st1 : step} {wn wn1 cn cn1 : Nat} (hd : d.AndOr = c.AndOr)
    (hi : HeadInv qs ⟨init ++ [c], st, wn, cn⟩) : HeadInv qs ⟨init ++ [d], st1, wn1, cn1⟩ := by
  cases init with
  | nil =>
    simp only [HeadInv, List.nil_append] at hi ⊢
    rw [hd]; exact hi
  | cons a t => exact hi

theorem step_headInv {qs : List Str} {m m1 : Machine} (h : Step qs m m1)
    (hi : HeadInv qs m) : HeadInv qs m1 := by
  cases h with
  | andOrFirst wn tok h1 h2 =>
    simp only [HeadInv] at hi
    subst hi
    simp only [HeadInv, firstConj_of_getElem h1, h2, if_false]
    rfl
  | andOrConj cs wn tok h1 h2 h3 =>
    cases cs with
    | nil =>
      simp only [HeadInv] at hi
      subst hi
      simp only [HeadInv, List.nil_append, firstConj_of_getElem h1, h2, if_true]
    | cons a t => exact hi
  | notYes init c wn tok h1 h2 => exact headInv_last (c := c) rfl hi
  | notNo init c wn tok h1 h2 => exact headInv_last (c := c) rfl hi
  | fieldBare init c wn tok h1 h2 h3 h4 h5 h6 => exact headInv_last (c := c) rfl hi
  | fieldOp init c wn tok h1 h2 h3 h4 h5 h6 => exact headInv_last (c := c) rfl hi
  | operatorPlain init c wn tok h1 h2 h3 => exact headInv_last (c := c) rfl hi
  | operatorNotLike init c wn tok t2 h1 h2 h3 h4 h5 h6 => exact headInv_last (c := c) rfl hi
  | value init c wn tok h1 h2 h3 h4 => exact headInv_last (c := c) rfl hi

theorem steps_headInv (qs : List Str) : ∀ (k : Nat) (m mf : Machine),
    steps qs k m = some mf → Inv qs m → HeadInv qs m → HeadInv qs mf := by
  intro k
  induction k with
  | zero => intro m mf h _ hh; simp only [steps, Option.some.injEq] at h; subst h; exact hh
  | succ k ih =>
    intro m mf h hi hh
    obtain ⟨_, m1, hit, hk⟩ := steps_succ_inv h
    have s := iterate_step hit hi.1
    exact ih m1 mf hk (step_inv s hi) (step_headInv s hh)

/-- C14 (amended). For every input whose tokens the machine accepts and that has at least
one token, the condition list is non-empty, the first condition has the empty conjunction
unless the first token is `AND` or `OR` in some letter case (it then has that token,
upper-cased, as its conjunction), and every later condition has conjunction `AND` or
`OR`. -/
theorem C14_conjunctions (q : Str) (t0 : Str) (ts : List Str) (cs : List Condition)
    (htok : Fields q = t0 :: ts) (h : parseConditions (Fields q) = .ok cs) :
    ∃ c rest, cs = c :: rest ∧
      c.AndOr = (if IsConj t0 then ToUpper t0 else []) ∧
      (¬ IsConj t0 → c.AndOr = []) ∧
      ∀ d ∈ rest, d.AndOr = "AND".toList ∨ d.AndOr = "OR".toList := by
  obtain ⟨k, mf, hk, hge, hcs⟩ := loop_ok_steps _ _ _ cs h
  have hh := steps_headInv _ k _ mf hk (inv_init _) (headInv_init _)
  have ht := (parseConditions_shape h).1
  obtain ⟨mcs, st, wn, cn⟩ := mf
  simp only at hcs hge
  subst hcs
  cases mcs with
  | nil =>
    simp only [HeadInv] at hh
    subst hh
    rw [htok] at hge
    simp at hge
  | cons c rest =>
    simp only [HeadInv] at hh
    have hfc : firstConj (Fields q) = if IsConj t0 then ToUpper t0 else [] := by
      rw [htok]; rfl
    rw [hfc] at hh
    refine ⟨c, rest, rfl, hh, ?_, ht⟩
    intro hn
    rw [hh, if_neg hn]

/-- Witness of C14: the test case `Foo.Bar.Beta > 21 AND Alpha.Bar != 'hello'`. -/
theorem C14_conjunctions_witness :
    parseConditions (Fields "Foo.Bar.Beta > 21 AND Alpha.Bar != 'hello'".toList) =
      .ok [⟨[], false, "Foo.Bar.Beta".toList, ">".toList, some "21".toList⟩,
        ⟨"AND".toList, false, "Alpha.Bar".toList, "!=".toList, some "'hello'".toList⟩] ∧
    ∃ c rest,
      [(⟨[], false, "Foo.Bar.Beta".toList, ">".toList, some "21".toList⟩ : Condition),
        ⟨"AND".toList, false, "Alpha.Bar".toList, "!=".toList, some "'hello'".toList⟩] =
        c :: rest ∧
      c.AndOr = (if IsConj "Foo.Bar.Beta".toList then ToUpper "Foo.Bar.Beta".toList else []) ∧
      (¬ IsConj "Foo.Bar.Beta".toList → c.AndOr = []) ∧
      ∀ d ∈ rest, d.AndOr = "AND".toList ∨ d.AndOr = "OR".toList :=
  ⟨by decide,
    C14_conjunctions "Foo.Bar.Beta > 21 AND Alpha.Bar != 'hello'".toList
      "Foo.Bar.Beta".toList
      [">".toList, "21".toList, "AND".toList, "Alpha.Bar".toList, "!=".toList,
        "'hello'".toList] _ (by decide) (by decide)⟩

/-- C14 is false as stated: `and a = 1` has three tokens and is accepted by the machine
(and by `Parse`, which renders it), and its first condition has the conjunction `AND`. -/
theorem C14_counterexample :
    Fields "and a = 1".toList = ["and".toList, "a".toList, "=".toList, "1".toList] ∧
    parseConditions (Fields "and a = 1".toList) =
      .ok [⟨"AND".toList, false, "a".toList, "=".toList, some "1".toList⟩] ∧
    render "and a = 1".toList =
      .ok (.ok ("SELECT * FROM cats WHERE (a = $1)".toList, ["1".toList])) :=
  ⟨by decide, by decide, by decide⟩

/-! ## The look-ahead of the FIELD state and the end of the input -/

/-- C16 (defect in the code). The look-ahead of the FIELD state is guarded by
`wn+1 < len(qStrings)` after `wn` has been advanced past the field, so it needs a token
behind the conjunction: in `a AND b` the machine goes from the field to AND_OR, in
`a AND` it goes to OPERATOR and `Parse` fails with `unexpected operator: AND`, not with
`no field after AND`. -/
theorem C16_lookahead_last_token :
    Fields "a AND".toList = ["a".toList, "AND".toList] ∧
    FieldOk "a".toList ∧ nextWordAt ["a".toList, "AND".toList] 0 = "AND".toList ∧
    iterate ["a".toList, "AND".toList] ⟨[Condition.zero], .stepField, 0, 1⟩ =
      .ok ⟨[⟨[], false, "a".toList, [], none⟩], .stepOperator, 1, 1⟩ ∧
    iterate ["a".toList, "AND".toList, "b".toList] ⟨[Condition.zero], .stepField, 0, 1⟩ =
      .ok ⟨[⟨[], false, "a".toList, [], none⟩], .stepAndOr, 1, 1⟩ ∧
    Parse "a AND".toList testQb = .error "unexpected operator: AND".toList ∧
    Parse "a AND".toList testQb ≠ .error "no field after AND".toList ∧
    Parse "a = 1 AND".toList testQb = .error "no field after AND".toList := by
  decide

/-- C17 (defect in the code). The NOT state has no check for the end of the input, unlike
the states AND_OR, FIELD and OPERATOR: `NOT` and `a = 1 AND NOT` are accepted, each with a
last condition whose field is empty, and are rendered with an empty column name. -/
theorem C17_not_without_field :
    parseConditions (Fields "NOT".toList) = .ok [⟨[], true, [], [], none⟩] ∧
    render "NOT".toList =
      .ok (.ok ("SELECT * FROM cats WHERE  <> $1".toList, ["TRUE".toList])) ∧
    parseConditions (Fields "a = 1 AND NOT".toList) =
      .ok [⟨[], false, "a".toList, "=".toList, some "1".toList⟩,
        ⟨"AND".toList, true, [], [], none⟩] ∧
    render "a = 1 AND NOT".toList =
      .ok (.ok ("SELECT * FROM cats WHERE a = $1 AND ( <> $2)".toList,
        ["1".toList, "TRUE".toList])) ∧
    CheckIfField [] = false := by
  decide

/-- C19 (defect in the code). The VALUE state compares the raw token with `NOT`, where
the NOT, FIELD and OPERATOR states compare the upper-cased token: `a = NOT` is rejected
with `unexpected value: NOT`, `a = not` and `a = Not` are accepted with the values `not`
and `Not`; in field position `not` is rejected as `NOT` is. -/
theorem C19_value_not_lowercase :
    Parse "a = NOT".toList testQb = .error "unexpected value: NOT".toList ∧
    parseConditions (Fields "a = not".toList) =
      .ok [⟨[], false, "a".toList, "=".toList, some "not".toList⟩] ∧
    render "a = not".toList =
      .ok (.ok ("SELECT * FROM cats WHERE a = $1".toList, ["not".toList])) ∧
    render "a = Not".toList =
      .ok (.ok ("SELECT * FROM cats WHERE a = $1".toList, ["Not".toList])) ∧
    ToUpper "not".toList = "NOT".toList ∧
    Parse "NOT NOT = 1".toList testQb = .error "unexpected field: NOT".toList ∧
    Parse "NOT not = 1".toList testQb = .error "unexpected field: not".toList := by
  decide

/-! ## The field check -/

theorem matchStar_true : ∀ s : Str, matchStar s = true := by
  intro s
  induction s with
  | nil => rfl
  | cons c rest ih => simp only [matchStar, ih, ite_self]

theorem matchString_iff : ∀ s : Str,
    matchString s = true ↔ ∃ c ∈ s, isIdentStart c = true := by
  intro s
  induction s with
  | nil => simp [matchString, matchHere]
  | cons c rest ih =>
    simp only [matchString, matchHere, matchStar_true, Bool.and_true, Bool.or_eq_true, ih,
      List.mem_cons, exists_eq_or_imp]

/-- The class `[a-zA-Z_]` is the ASCII letters and the underscore. -/
theorem isIdentStart_iff (c : Char) : isIdentStart c = true ↔
    (('a' ≤ c ∧ c ≤ 'z') ∨ ('A' ≤ c ∧ c ≤ 'Z') ∨ c = '_') := by
  have h95 : c = '_' ↔ c.toNat = 95 := by
    constructor
    · intro h; subst h; rfl
    · intro h
      have := Char.ofNat_toNat c
      rw [h] at this
      exact this.symm
  simp only [isIdentStart, Bool.or_eq_true, Bool.and_eq_true, decide_eq_true_eq, h95,
    Char.le_def, UInt32.le_def, BitVec.le_def, or_assoc]
  rfl

/-- C18. The field check is an unanchored match: `CheckIfField s` holds exactly when `s`
contains an ASCII letter or an underscore somewhere.  So `Foo.Bar.X` and `'hello'` pass;
and a token that fails the check makes the FIELD state return
`unexpected field: <token>`. -/
theorem C18_field_check (s : Str) :
    (CheckIfField s = true ↔
      ∃ c ∈ s, ('a' ≤ c ∧ c ≤ 'z') ∨ ('A' ≤ c ∧ c ≤ 'Z') ∨ c = '_') ∧
    CheckIfField "Foo.Bar.X".toList = true ∧ CheckIfField "'hello'".toList = true ∧
    (CheckIfField s = false → ∀ (qs : List Str) (m : Machine),
      m.step = .stepField → qs[m.wn]? = some s →
      iterate qs m = .error ("unexpected field: ".toList ++ s)) := by
  refine ⟨?_, by decide, by decide, ?_⟩
  · unfold CheckIfField
    rw [matchString_iff]
    constructor
    · rintro ⟨c, hc, h⟩; exact ⟨c, hc, (isIdentStart_iff c).1 h⟩
    · rintro ⟨c, hc, h⟩; exact ⟨c, hc, (isIdentStart_iff c).2 h⟩
  · intro hs qs m hst hget
    obtain ⟨cs, st, wn, cn⟩ := m
    simp only at hst hget
    subst hst
    simp only [iterate, doField, hget, hs, Bool.and_false, Bool.false_eq_true, if_false]

/-- Witness of C18: `12.5` has no letter and no underscore, fails the check, and is
rejected in field position; `1_000` has an underscore and passes. -/
theorem C18_field_check_witness :
    CheckIfField "12.5".toList = false ∧
    iterate ["12.5".toList, "=".toList, "3".toList] ⟨[Condition.zero], .stepField, 0, 1⟩ =
      .error "unexpected field: 12.5".toList ∧
    Parse "12.5 = 3".toList testQb = .error "unexpected field: 12.5".toList ∧
    CheckIfField "1_000".toList = true :=
  ⟨by decide,
    (C18_field_check "12.5".toList).2.2.2 (by decide)
      ["12.5".toList, "=".toList, "3".toList] ⟨[Condition.zero], .stepField, 0, 1⟩ rfl rfl,
    by decide,
    (C18_field_check "1_000".toList).1.2 ⟨'_', by decide, Or.inr (Or.inr rfl)⟩⟩

/-! ## Index safety and progress of the loop -/

theorem iterate_ne_diverge (qs : List Str) (m : Machine) : iterate qs m ≠ .diverge := by
  intro h
  unfold iterate at h
  simp only [doAndOr, doNot, doField, doOperator, doOperatorTail, doValue] at h
  repeat' split at h
  all_goals injection h

/-- Under the invariant no read of `qStrings[wn]` and no access to `conditions[cn-1]` in
an iteration of the loop is out of range. -/
theorem iterate_ne_fault {qs : List Str} {m : Machine} (hi : Inv qs m)
    (hlt : m.wn < qs.length) : iterate qs m ≠ .fault := by
  obtain ⟨cs, st, wn, cn⟩ := m
  obtain ⟨hcn, _, hs⟩ := hi
  simp only at hcn hlt hs
  subst hcn
  have htok : qs[wn]? = some qs[wn] := List.getElem?_eq_getElem hlt
  cases st with
  | stepAndOr =>
    simp only [iterate, doAndOr, htok, condAt_concat]
    split_ifs <;> simp
  | stepNot =>
    obtain ⟨init, c, rfl, _⟩ := hs
    simp only [iterate, doNot, htok, List.length_append, List.length_singleton, setCond_concat]
    split_ifs <;> simp
  | stepField =>
    obtain ⟨init, c, rfl, _⟩ := hs
    simp only [iterate, doField, htok, List.length_append, List.length_singleton,
      setCond_concat, condAt_concat]
    split_ifs <;> simp
  | stepOperator =>
    obtain ⟨init, c, rfl, _⟩ := hs
    simp only [iterate, doOperator, doOperatorTail, htok, List.length_append,
      List.length_singleton, setCond_concat, condAt_concat]
    split_ifs with h1 h2 h3 <;> try simp
    all_goals
      rw [List.getElem?_eq_getElem h2]
      simp only
      split_ifs <;> simp
  | stepValue =>
    obtain ⟨init, c, rfl, _⟩ := hs
    simp only [iterate, doValue, htok, List.length_append, List.length_singleton,
      setCond_concat]
    split_ifs <;> simp

theorem progress_mono (qs : List Str) : ∀ (k : Nat) (m : Machine),
    Progress qs k m → Progress qs (k + 1) m := by
  intro k
  induction k with
  | zero =>
    intro m h
    rcases h with h | ⟨m1, h1, h2⟩
    · exact Or.inl h
    · exact Or.inr ⟨m1, h1, Or.inl h2⟩
  | succ k ih =>
    intro m h
    rcases h with h | ⟨m1, h1, h2 | ⟨h2, h3⟩⟩
    · exact Or.inl h
    · exact Or.inr ⟨m1, h1, Or.inl h2⟩
    · exact Or.inr ⟨m1, h1, Or.inr ⟨h2, ih m1 h3⟩⟩

/-- An iteration under the invariant returns an error or performs a step. -/
theorem iterate_cases {qs : List Str} {m : Machine} (hi : Inv qs m)
    (hlt : m.wn < qs.length) :
    (∃ e, iterate qs m = .error e) ∨ ∃ m1, iterate qs m = .ok m1 ∧ Step qs m m1 := by
  cases h : iterate qs m with
  | ok m1 => exact Or.inr ⟨m1, rfl, iterate_step h hi.1⟩
  | error e => exact Or.inl ⟨e, rfl⟩
  | fault => exact absurd h (iterate_ne_fault hi hlt)
  | diverge => exact absurd h (iterate_ne_diverge qs m)

/-- The states FIELD, OPERATOR and VALUE consume a token or return an error. -/
theorem progress_zero {qs : List Str} {m : Machine} (hi : Inv qs m)
    (hlt : m.wn < qs.length) (hr : rank m.step = 0) : Progress qs 0 m := by
  rcases iterate_cases hi hlt with h | ⟨m1, h1, s⟩
  · exact Or.inl h
  · refine Or.inr ⟨m1, h1, ?_⟩
    cases s <;> first
      | (simp only [rank] at hr; omega)
      | (simp only; omega)

/-- The state NOT consumes a token or hands it to the FIELD state. -/
theorem progress_one {qs : List Str} {m : Machine} (hi : Inv qs m)
    (hlt : m.wn < qs.length) (hr : m.step = .stepNot) : Progress qs 1 m := by
  rcases iterate_cases hi hlt with h | ⟨m1, h1, s⟩
  · exact Or.inl h
  · refine Or.inr ⟨m1, h1, ?_⟩
    have hi1 := step_inv s hi
    cases s with
    | notYes init c wn tok h1 h2 => exact Or.inl (by simp only; omega)
    | notNo init c wn tok h1 h2 => exact Or.inr ⟨rfl, progress_zero hi1 hlt rfl⟩
    | andOrFirst wn tok h1 h2 => cases hr
    | andOrConj cs wn tok h1 h2 h3 => cases hr
    | fieldBare init c wn tok h1 h2 h3 h4 h5 h6 => cases hr
    | fieldOp init c wn tok h1 h2 h3 h4 h5 h6 => cases hr
    | operatorPlain init c wn tok h1 h2 h3 => cases hr
    | operatorNotLike init c wn tok t2 h1 h2 h3 h4 h5 h6 => cases hr
    | value init c wn tok h1 h2 h3 h4 => cases hr

/-- Every iteration under the invariant returns an error, consumes a token, or is
followed within two further iterations by one that does. -/
theorem progress_two {qs : List Str} {m : Machine} (hi : Inv qs m)
    (hlt : m.wn < qs.length) : Progress qs 2 m := by
  obtain ⟨cs, st, wn, cn⟩ := m
  cases st with
  | stepNot => exact progress_mono qs 1 _ (progress_one hi hlt rfl)
  | stepField => exact progress_mono qs 1 _ (progress_mono qs 0 _ (progress_zero hi hlt rfl))
  | stepOperator =>
    exact progress_mono qs 1 _ (progress_mono qs 0 _ (progress_zero hi hlt rfl))
  | stepValue => exact progress_mono qs 1 _ (progress_mono qs 0 _ (progress_zero hi hlt rfl))
  | stepAndOr =>
    rcases iterate_cases hi hlt with h | ⟨m1, h1, s⟩
    · exact Or.inl h
    · refine Or.inr ⟨m1, h1, ?_⟩
      have hi1 := step_inv s hi
      cases s with
      | andOrFirst wn tok h1 h2 => exact Or.inr ⟨rfl, progress_one hi1 hlt rfl⟩
      | andOrConj cs wn tok h1 h2 h3 => exact Or.inl (by simp only; omega)

theorem parseConditions_ne_fault (qs : List Str) : parseConditions qs ≠ .fault := by
  have key : ∀ (n : Nat) (m : Machine), Inv qs m → loop qs n m ≠ .fault := by
    intro n
    induction n with
    | zero => intro m _ h; simp [loop] at h
    | succ n ih =>
      intro m hi h
      by_cases hlt : m.wn < qs.length
      · rcases iterate_cases hi hlt with ⟨e, he⟩ | ⟨m1, h1, s⟩
        · rw [loop_error n hlt he] at h; cases h
        · rw [loop_step n hlt h1] at h
          exact ih m1 (step_inv s hi) h
      · rw [loop_exit n hlt] at h; cases h
  exact key _ _ (inv_init qs)

/-- C20. Index safety and termination of the loop, for every input string: at every
iteration the loop reaches, the reads `qStrings[wn]` and the accesses `conditions[cn-1]`
are within bounds, and the iteration returns an error, consumes a token, or leaves `wn`
as it is and is followed within two further iterations by one that consumes a token or
returns an error; the loop ends within `3 * len + 3` iterations, with a condition list or
an error, and more iterations than that change nothing. -/
theorem C20_safety_termination (q : Str) :
    (∀ (k : Nat) (m : Machine), steps (Fields q) k Machine.init = some m →
      m.wn < (Fields q).length →
      iterate (Fields q) m ≠ .fault ∧ Progress (Fields q) 2 m) ∧
    ((∃ cs, parseConditions (Fields q) = .ok cs) ∨
      (∃ e, parseConditions (Fields q) = .error e)) ∧
    (∀ fuel, 3 * (Fields q).length + 3 ≤ fuel →
      loop (Fields q) fuel Machine.init = parseConditions (Fields q)) ∧
    (∀ qb, (∃ r, Parse q qb = .ok r) ∨ (∃ e, Parse q qb = .error e)) := by
  have hnf := parseConditions_ne_fault (Fields q)
  have hnd : parseConditions (Fields q) ≠ .diverge :=
    loop_ne_diverge _ _ _ (mu_init _)
  have hres : (∃ cs, parseConditions (Fields q) = .ok cs) ∨
      (∃ e, parseConditions (Fields q) = .error e) := by
    cases h : parseConditions (Fields q) with
    | ok cs => exact Or.inl ⟨cs, rfl⟩
    | error e => exact Or.inr ⟨e, rfl⟩
    | fault => exact absurd h hnf
    | diverge => exact absurd h hnd
  refine ⟨?_, hres, ?_, ?_⟩
  · intro k m hk hlt
    have hi := steps_inv _ k _ m hk (inv_init _)
    exact ⟨iterate_ne_fault hi hlt, progress_two hi hlt⟩
  · intro fuel hf
    exact loop_fuel _ _ _ _ (by have := mu_init (Fields q); omega) (mu_init _)
  · intro qb
    unfold Parse
    simp only
    split
    · exact Or.inr ⟨_, rfl⟩
    · rcases hres with ⟨cs, h⟩ | ⟨e, h⟩
      · rw [h]; exact Or.inl ⟨_, rfl⟩
      · rw [h]; exact Or.inr ⟨_, rfl⟩

/-- Witness of C20: on `f NOT LIKE x` the machine has reached the compound operator after
three iterations, and the iteration there is within bounds and makes progress. -/
theorem C20_safety_termination_witness :
    steps (Fields "f NOT LIKE x".toList) 3 Machine.init =
      some ⟨[⟨[], false, "f".toList, [], none⟩], .stepOperator, 1, 1⟩ ∧
    iterate (Fields "f NOT LIKE x".toList)
      ⟨[⟨[], false, "f".toList, [], none⟩], .stepOperator, 1, 1⟩ ≠ .fault ∧
    Progress (Fields "f NOT LIKE x".toList) 2
      ⟨[⟨[], false, "f".toList, [], none⟩], .stepOperator, 1, 1⟩ :=
  ⟨by decide,
    (C20_safety_termination "f NOT LIKE x".toList).1 3
      ⟨[⟨[], false, "f".toList, [], none⟩], .stepOperator, 1, 1⟩ (by decide) (by decide)⟩

/-! ## Chains that open with a conjunction -/

theorem firstConj_cases (qs : List Str) :
    firstConj qs = [] ∨ firstConj qs = "AND".toList ∨ firstConj qs = "OR".toList := by
  unfold firstConj
  cases qs.head? with
  | none => exact Or.inl rfl
  | some t =>
    simp only
    split_ifs with h
    · rcases h with h | h
      · exact Or.inr (Or.inl h)
      · exact Or.inr (Or.inr h)
    · exact Or.inl rfl

/-- The first condition of an accepted input carries the conjunction the input opens
with, or none. -/
theorem parseConditions_head {qs : List Str} {c1 : Condition} {rest : List Condition}
    (h : parseConditions qs = .ok (c1 :: rest)) : c1.AndOr = firstConj qs := by
  obtain ⟨k, mf, hk, _, hcs⟩ := loop_ok_steps _ _ _ _ h
  have hh := steps_headInv _ k _ mf hk (inv_init _) (headInv_init _)
  obtain ⟨mcs, st, wn, cn⟩ := mf
  simp only at hcs
  subst hcs
  exact hh

theorem parse_chain (q : Str) (c1 : Condition) (rest : List Condition) (qb : SelectBuilder)
    (hguard : firstForbidden q = none)
    (hparse : parseConditions (Fields q) = .ok (c1 :: rest))
    (hregex : ∀ c ∈ c1 :: rest, ¬ IsRegexOp c.Operator) :
    Parse q qb =
      .ok ⟨.Dollar, qb.Columns, qb.From, qb.WhereParts ++ (c1 :: rest).map partOf⟩ := by
  obtain ⟨ht, hs⟩ := parseConditions_shape hparse
  have h1 : c1.AndOr = [] ∨ c1.AndOr = "AND".toList ∨ c1.AndOr = "OR".toList := by
    rw [parseConditions_head hparse]; exact firstConj_cases _
  have hconj : ∀ c ∈ c1 :: rest,
      c.AndOr = [] ∨ c.AndOr = "AND".toList ∨ c.AndOr = "OR".toList := by
    intro c hc
    simp only [List.mem_cons] at hc
    rcases hc with hc | hc
    · rw [hc]; exact h1
    · exact Or.inr (ht c hc)
  simp only [Parse, hguard, hparse]
  rw [translate_structured _ _ _ (fun c hc => ⟨hs c hc, hregex c hc⟩), foldl_addExpr _ _ hconj]
  rfl

/-- The statement the test builder renders once the conditions `c1 :: rest` have been
attached, whether or not `c1` carries a conjunction. -/
theorem toSqlRaw_chain_any (c1 : Condition) (rest : List Condition) (f : PlaceholderFormat)
    (hc1 : c1.AndOr = [] ∨ c1.AndOr = "AND".toList ∨ c1.AndOr = "OR".toList)
    (h1 : Settled c1)
    (hrest : ∀ c ∈ rest, (c.AndOr = "AND".toList ∨ c.AndOr = "OR".toList) ∧ Settled c) :
    SelectBuilder.toSqlRaw ⟨f, ["*".toList], some "cats".toList, (c1 :: rest).map partOf⟩ =
      .ok ("SELECT * FROM cats WHERE ".toList ++ firstText c1 ++ groupsText rest,
        argsOf (c1 :: rest)) := by
  rcases hc1 with h | h
  · rw [firstText, if_pos h]; exact toSqlRaw_chain c1 rest f h h1 hrest
  · have hne : c1.AndOr ≠ [] := by rcases h with h | h <;> rw [h] <;> decide
    obtain ⟨v, hv⟩ := exprOf_val h1
    have hlen : ¬ (("(".toList ++ exprText c1 ++ ")".toList).length = 0) := by simp
    simp only [SelectBuilder.toSqlRaw, List.map_cons, appendToSql, partOf_toSql_group hv h]
    simp only [List.length_cons, List.length_nil, Nat.succ_ne_zero, if_false, gt_iff_lt,
      Nat.succ_pos, if_true, hlen, lt_self_iff_false, Nat.zero_add, Join]
    rw [appendToSql_groups rest 0 _ _ hrest, argsOf_cons hv]
    simp [firstText, hne, List.append_assoc]

/-- Numbering of the whole statement when no field contains a `?`. -/
theorem rp_statement_any (c1 : Condition) (rest : List Condition)
    (h : ∀ c ∈ c1 :: rest, '?' ∉ c.Field) :
    PlaceholderFormat.Dollar.ReplacePlaceholders
        ("SELECT * FROM cats WHERE ".toList ++ firstText c1 ++ groupsText rest) =
      "SELECT * FROM cats WHERE ".toList ++ firstDollar c1 ++ dollarGroups 2 rest := by
  by_cases hc : c1.AndOr = []
  · rw [firstText, firstDollar, if_pos hc, if_pos hc]; exact rp_statement c1 rest h
  · rw [firstText, firstDollar, if_neg hc, if_neg hc]
    have e : "SELECT * FROM cats WHERE ".toList ++ ("(".toList ++ exprText c1 ++ ")".toList) ++
        groupsText rest =
        "SELECT * FROM cats WHERE (".toList ++ (exprText c1 ++ (')' :: groupsText rest)) := by
      simp [List.append_assoc]
    simp only [PlaceholderFormat.ReplacePlaceholders]
    rw [e, rp_append_noq _ _ _ _ (by decide), rp_exprText c1 _ 0 (h c1 (by simp)) (by simp),
      rp_cons_ne _ (by decide), rp_groups rest 1 (fun d hd => h d (by simp [hd]))]
    simp [List.append_assoc]

theorem render_chain_any (q : Str) (c1 : Condition) (rest : List Condition)
    (hguard : firstForbidden q = none)
    (hparse : parseConditions (Fields q) = .ok (c1 :: rest))
    (hregex : ∀ c ∈ c1 :: rest, ¬ IsRegexOp c.Operator) :
    render q = .ok (.ok (PlaceholderFormat.Dollar.ReplacePlaceholders
        ("SELECT * FROM cats WHERE ".toList ++ firstText c1 ++ groupsText rest),
      argsOf (c1 :: rest))) := by
  obtain ⟨ht, hs⟩ := parseConditions_shape hparse
  have h1 : c1.AndOr = [] ∨ c1.AndOr = "AND".toList ∨ c1.AndOr = "OR".toList := by
    rw [parseConditions_head hparse]; exact firstConj_cases _
  have hp := parse_chain q c1 rest testQb hguard hparse hregex
  simp only [render, hp, SelectBuilder.ToSql]
  have hraw := toSqlRaw_chain_any c1 rest .Dollar h1 (hs c1 (by simp))
    (fun c hc => ⟨ht c hc, hs c (by simp [hc])⟩)
  simp only [testQb, Select, SelectBuilder.from, List.nil_append]
  rw [hraw]

/-- C2 (amended). For every accepted chain of conditions joined by AND/OR (the input
passes the keyword guard and the machine accepts its tokens as the conditions
`c1 :: rest`) in which no condition uses a regex operator, `Parse` attaches every
translated expression after the first as a one-element group, an `And` group or an `Or`
group by its conjunction, and the first one unwrapped unless the input opens with `AND`
or `OR`, when it is attached as a one-element group too.  The builder renders
`e1 AND (e2) AND (e3) ... AND (eN)`, with `(e1)` for `e1` when the input opens with a
conjunction, the same whether a conjunction is AND or OR: the statement is the
`$`-numbering of that text after `SELECT * FROM cats WHERE `, where `ei` is the text
`field opr ?` of the i-th translated expression. -/
theorem C2_chain_shape (q : Str) (c1 : Condition) (rest : List Condition)
    (hguard : firstForbidden q = none)
    (hparse : parseConditions (Fields q) = .ok (c1 :: rest))
    (hregex : ∀ c ∈ c1 :: rest, ¬ IsRegexOp c.Operator) :
    c1.AndOr = firstConj (Fields q) ∧
    Parse q testQb = .ok ⟨.Dollar, ["*".toList], some "cats".toList,
        (if c1.AndOr = [] then Pred.expr (exprOf c1)
          else if c1.AndOr = "AND".toList then Pred.And [exprOf c1] else Pred.Or [exprOf c1]) ::
        rest.map fun c =>
          if c.AndOr = "AND".toList then Pred.And [exprOf c] else Pred.Or [exprOf c]⟩ ∧
    render q = .ok (.ok (PlaceholderFormat.Dollar.ReplacePlaceholders
        ("SELECT * FROM cats WHERE ".toList ++
          (if c1.AndOr = [] then exprText c1 else "(".toList ++ exprText c1 ++ ")".toList) ++
          groupsText rest),
      argsOf (c1 :: rest))) := by
  refine ⟨parseConditions_head hparse, ?_, render_chain_any q c1 rest hguard hparse hregex⟩
  obtain ⟨ht, _⟩ := parseConditions_shape hparse
  rw [parse_chain q c1 rest testQb hguard hparse hregex]
  have h2 : rest.map partOf = rest.map fun c =>
      if c.AndOr = "AND".toList then Pred.And [exprOf c] else Pred.Or [exprOf c] := by
    apply List.map_congr_left
    intro c hc
    have hne : c.AndOr ≠ [] := by
      rcases ht c hc with h | h <;> rw [h] <;> decide
    simp [partOf, hne]
  simp only [testQb, Select, SelectBuilder.from, List.nil_append, List.map_cons, h2]
  rfl

/-- Witness of C2: a chain of three conditions joined by `OR` and `AND`, and the same
chain opened with `AND`. -/
theorem C2_chain_shape_witness :
    (firstForbidden "Foo.A >= 1 OR Foo.B LIKE 'x%' AND NOT Foo.C < 3".toList = none ∧
      parseConditions (Fields "Foo.A >= 1 OR Foo.B LIKE 'x%' AND NOT Foo.C < 3".toList) =
        .ok [⟨[], false, "Foo.A".toList, ">=".toList, some "1".toList⟩,
          ⟨"OR".toList, false, "Foo.B".toList, "LIKE".toList, some "'x%'".toList⟩,
          ⟨"AND".toList, true, "Foo.C".toList, "<".toList, some "3".toList⟩] ∧
      Parse "Foo.A >= 1 OR Foo.B LIKE 'x%' AND NOT Foo.C < 3".toList testQb =
        .ok ⟨.Dollar, ["*".toList], some "cats".toList,
          [.expr ⟨.GtOrEq, "Foo.A".toList, some "1".toList⟩,
            .Or [⟨.Like, "Foo.B".toList, some "'x%'".toList⟩],
            .And [⟨.GtOrEq, "Foo.C".toList, some "3".toList⟩]]⟩ ∧
      render "Foo.A >= 1 OR Foo.B LIKE 'x%' AND NOT Foo.C < 3".toList =
        .ok (.ok (("SELECT * FROM cats WHERE Foo.A >= $1 AND (Foo.B LIKE $2) " ++
          "AND (Foo.C >= $3)").toList, ["1".toList, "'x%'".toList, "3".toList]))) ∧
    (Parse "AND Foo.A >= 1 OR Foo.B LIKE 'x%'".toList testQb =
        .ok ⟨.Dollar, ["*".toList], some "cats".toList,
          [.And [⟨.GtOrEq, "Foo.A".toList, some "1".toList⟩],
            .Or [⟨.Like, "Foo.B".toList, some "'x%'".toList⟩]]⟩ ∧
      render "AND Foo.A >= 1 OR Foo.B LIKE 'x%'".toList =
        .ok (.ok ("SELECT * FROM cats WHERE (Foo.A >= $1) AND (Foo.B LIKE $2)".toList,
          ["1".toList, "'x%'".toList]))) :=
  ⟨⟨by decide, by decide,
    (C2_chain_shape "Foo.A >= 1 OR Foo.B LIKE 'x%' AND NOT Foo.C < 3".toList
      ⟨[], false, "Foo.A".toList, ">=".toList, some "1".toList⟩
      [⟨"OR".toList, false, "Foo.B".toList, "LIKE".toList, some "'x%'".toList⟩,
        ⟨"AND".toList, true, "Foo.C".toList, "<".toList, some "3".toList⟩]
      (by decide) (by decide) (by decide)).2⟩,
   (C2_chain_shape "AND Foo.A >= 1 OR Foo.B LIKE 'x%'".toList
      ⟨"AND".toList, false, "Foo.A".toList, ">=".toList, some "1".toList⟩
      [⟨"OR".toList, false, "Foo.B".toList, "LIKE".toList, some "'x%'".toList⟩]
      (by decide) (by decide) (by decide)).2⟩

/-- C2 is false as stated: `AND a = 1 OR b = 2` is an accepted chain of two conditions
without a regex operator, and its first expression is attached as a one-element group and
rendered in parentheses. -/
theorem C2_counterexample :
    firstForbidden "AND a = 1 OR b = 2".toList = none ∧
    parseConditions (Fields "AND a = 1 OR b = 2".toList) =
      .ok [⟨"AND".toList, false, "a".toList, "=".toList, some "1".toList⟩,
        ⟨"OR".toList, false, "b".toList, "=".toList, some "2".toList⟩] ∧
    Parse "AND a = 1 OR b = 2".toList testQb =
      .ok ⟨.Dollar, ["*".toList], some "cats".toList,
        [.And [⟨.Eq, "a".toList, some "1".toList⟩],
          .Or [⟨.Eq, "b".toList, some "2".toList⟩]]⟩ ∧
    render "AND a = 1 OR b = 2".toList =
      .ok (.ok ("SELECT * FROM cats WHERE (a = $1) AND (b = $2)".toList,
        ["1".toList, "2".toList])) ∧
    render "AND a = 1 OR b = 2".toList ≠
      .ok (.ok ("SELECT * FROM cats WHERE a = $1 AND (b = $2)".toList,
        ["1".toList, "2".toList])) := by
  decide

/-- C3 (amended). For every accepted chain of N conditions with no regex operator in
which no field token contains a `?`, exactly N parameters are bound and the
placeholders are `$1..$N` in source order: the statement is
`SELECT * FROM cats WHERE f1 o1 $1 AND (f2 o2 $2) ... AND (fN oN $N)`, with `f1 o1 $1`
in parentheses when the input opens with `AND` or `OR`, and the i-th bound parameter is
the value token of the i-th condition, or the text `TRUE` when the i-th condition is a
bare field. -/
theorem C3_placeholder_order (q : Str) (c1 : Condition) (rest : List Condition)
    (hguard : firstForbidden q = none)
    (hparse : parseConditions (Fields q) = .ok (c1 :: rest))
    (hregex : ∀ c ∈ c1 :: rest, ¬ IsRegexOp c.Operator)
    (hq : ∀ c ∈ c1 :: rest, '?' ∉ c.Field) :
    ∃ args : List Str,
      render q = .ok (.ok ("SELECT * FROM cats WHERE ".toList ++
        (if c1.AndOr = [] then dollarText 1 c1
          else "(".toList ++ dollarText 1 c1 ++ ")".toList) ++
        dollarGroups 2 rest, args)) ∧
      args.length = (c1 :: rest).length ∧
      args.map some =
        (c1 :: rest).map fun c => if c.Operator = [] then some "TRUE".toList else c.Value := by
  obtain ⟨_, hs⟩ := parseConditions_shape hparse
  refine ⟨argsOf (c1 :: rest), ?_, argsOf_length hs, argsOf_map _ hs⟩
  rw [render_chain_any q c1 rest hguard hparse hregex, rp_statement_any c1 rest hq]
  rfl

/-- Witness of C3: the chain `Alice.IsActive AND NOT Bob.LastHash = 'ab5534b'` of the test
table, whose first condition is a bare field, and a chain that opens with `OR`. -/
theorem C3_placeholder_order_witness :
    (firstForbidden "Alice.IsActive AND NOT Bob.LastHash = 'ab5534b'".toList = none ∧
      parseConditions (Fields "Alice.IsActive AND NOT Bob.LastHash = 'ab5534b'".toList) =
        .ok [⟨[], false, "Alice.IsActive".toList, [], none⟩,
          ⟨"AND".toList, true, "Bob.LastHash".toList, "=".toList, some "'ab5534b'".toList⟩] ∧
      ∃ args : List Str,
        render "Alice.IsActive AND NOT Bob.LastHash = 'ab5534b'".toList =
          .ok (.ok (("SELECT * FROM cats WHERE Alice.IsActive = $1 " ++
            "AND (Bob.LastHash <> $2)").toList, args)) ∧
        args.length = 2 ∧
        args.map some = [some "TRUE".toList, some "'ab5534b'".toList]) ∧
    (∃ args : List Str,
      render "OR x AND y < 5".toList =
        .ok (.ok ("SELECT * FROM cats WHERE (x = $1) AND (y < $2)".toList, args)) ∧
      args.length = 2 ∧
      args.map some = [some "TRUE".toList, some "5".toList]) :=
  ⟨⟨by decide, by decide,
    C3_placeholder_order "Alice.IsActive AND NOT Bob.LastHash = 'ab5534b'".toList
      ⟨[], false, "Alice.IsActive".toList, [], none⟩
      [⟨"AND".toList, true, "Bob.LastHash".toList, "=".toList, some "'ab5534b'".toList⟩]
      (by decide) (by decide) (by decide) (by decide)⟩,
   C3_placeholder_order "OR x AND y < 5".toList
      ⟨"OR".toList, false, "x".toList, [], none⟩
      [⟨"AND".toList, false, "y".toList, "<".toList, some "5".toList⟩]
      (by decide) (by decide) (by decide) (by decide)⟩

/-- C7 (amended). In every accepted chain with no regex operator and no `?` in a field
token, a bare-field condition `c` standing after the conditions `pre` is rendered
`field = $k` (`field <> $k` when negated) with `k` its position, and the k-th bound
parameter is the text `TRUE`.  The statement is spelled out for a bare field that opens
the chain (its text in parentheses when a conjunction stands before it) and for one that
follows `p :: ps`. -/
theorem C7_bare_field (q : Str) (pre post : List Condition) (c : Condition)
    (hguard : firstForbidden q = none)
    (hparse : parseConditions (Fields q) = .ok (pre ++ c :: post))
    (hregex : ∀ d ∈ pre ++ c :: post, ¬ IsRegexOp d.Operator)
    (hq : ∀ d ∈ pre ++ c :: post, '?' ∉ d.Field)
    (hbare : c.Operator = []) :
    ∃ args : List Str,
      args[pre.length]? = some "TRUE".toList ∧
      (pre = [] → render q = .ok (.ok ("SELECT * FROM cats WHERE ".toList ++
        (if c.AndOr = [] then
          c.Field ++ (if c.Not then " <> $".toList else " = $".toList) ++ Nat.toDigits 10 1
        else "(".toList ++
          (c.Field ++ (if c.Not then " <> $".toList else " = $".toList) ++ Nat.toDigits 10 1) ++
          ")".toList) ++
        dollarGroups 2 post, args))) ∧
      (∀ p ps, pre = p :: ps → render q = .ok (.ok ("SELECT * FROM cats WHERE ".toList ++
        firstDollar p ++ dollarGroups 2 ps ++ " AND (".toList ++
        (c.Field ++ (if c.Not then " <> $".toList else " = $".toList) ++
          Nat.toDigits 10 (pre.length + 1)) ++ ")".toList ++
        dollarGroups (pre.length + 2) post, args))) := by
  obtain ⟨_, hs⟩ := parseConditions_shape hparse
  have hspre : ∀ d ∈ pre, Settled d := fun d hd => hs d (by simp [hd])
  have hc : (exprOf c).val = some "TRUE".toList := by simp [exprOf, hbare]
  refine ⟨argsOf (pre ++ c :: post), ?_, ?_, ?_⟩
  · have e : argsOf (pre ++ c :: post) = argsOf pre ++ "TRUE".toList :: argsOf post := by
      simp only [argsOf, List.filterMap_append, List.filterMap_cons, hc]
    rw [e, List.getElem?_append_right (by rw [argsOf_length hspre]), argsOf_length hspre]
    simp
  · intro hp
    subst hp
    simp only [List.nil_append] at hparse hregex hq ⊢
    rw [render_chain_any q c post hguard hparse hregex, rp_statement_any c post hq,
      firstDollar, dollarText_bare 1 hbare]
  · intro p ps hp
    subst hp
    simp only [List.cons_append] at hparse hregex hq ⊢
    rw [render_chain_any q p (ps ++ c :: post) hguard hparse hregex,
      rp_statement_any p _ hq, dollarGroups_append, dollarGroups, dollarText_bare _ hbare]
    rw [show 2 + ps.length = (p :: ps).length + 1 by simp; omega,
      show (p :: ps).length + 1 + 1 = (p :: ps).length + 2 by omega]
    simp only [List.append_assoc]

/-- Witness of C7: in `Bob.LastHash = 'x' OR Alice.IsActive AND Bob.Age > 3` the bare field
is the second condition; in `AND NOT a AND b = 1` it opens a chain that opens with a
conjunction. -/
theorem C7_bare_field_witness :
    (firstForbidden "Bob.LastHash = 'x' OR Alice.IsActive AND Bob.Age > 3".toList = none ∧
      parseConditions (Fields "Bob.LastHash = 'x' OR Alice.IsActive AND Bob.Age > 3".toList) =
        .ok ([⟨[], false, "Bob.LastHash".toList, "=".toList, some "'x'".toList⟩] ++
          ⟨"OR".toList, false, "Alice.IsActive".toList, [], none⟩ ::
          [⟨"AND".toList, false, "Bob.Age".toList, ">".toList, some "3".toList⟩]) ∧
      ∃ args : List Str, args[1]? = some "TRUE".toList ∧
        render "Bob.LastHash = 'x' OR Alice.IsActive AND Bob.Age > 3".toList =
          .ok (.ok (("SELECT * FROM cats WHERE Bob.LastHash = $1 AND (Alice.IsActive = $2) " ++
            "AND (Bob.Age > $3)").toList, args))) ∧
    (∃ args : List Str, args[0]? = some "TRUE".toList ∧
      render "AND NOT a AND b = 1".toList =
        .ok (.ok ("SELECT * FROM cats WHERE (a <> $1) AND (b = $2)".toList, args))) := by
  refine ⟨⟨by decide, by decide, ?_⟩, ?_⟩
  · obtain ⟨args, h1, _, h3⟩ := C7_bare_field
      "Bob.LastHash = 'x' OR Alice.IsActive AND Bob.Age > 3".toList
      [⟨[], false, "Bob.LastHash".toList, "=".toList, some "'x'".toList⟩]
      [⟨"AND".toList, false, "Bob.Age".toList, ">".toList, some "3".toList⟩]
      ⟨"OR".toList, false, "Alice.IsActive".toList, [], none⟩
      (by decide) (by decide) (by decide) (by decide) (by decide)
    exact ⟨args, h1, h3 _ _ rfl⟩
  · obtain ⟨args, h1, h2, _⟩ := C7_bare_field "AND NOT a AND b = 1".toList []
      [⟨"AND".toList, false, "b".toList, "=".toList, some "1".toList⟩]
      ⟨"AND".toList, true, "a".toList, [], none⟩
      (by decide) (by decide) (by decide) (by decide) (by decide)
    exact ⟨args, h1, h2 rfl⟩

end WhereParser
